import Mathlib

/-!
# goctl-validate: the schema parser and the generator

A shallow embedding of the line scanner of `generator/parser.go`, of
`Generate` and the templates of `generator/generator.go`, and of the library
functions they call.

* Go strings are lists of characters.
* The file system is a finite table from path spellings to entries.  An entry is
  either a file that `os.Open` opens, given by the lines `bufio.Scanner` yields
  and by whether the scan ends in an error, or an entry that `os.Stat` sees
  and `os.Open` refuses.  A path without an entry does not exist.
* The regular expressions of the source are lists of atoms, run by a
  backtracking matcher with the leftmost-first preference of Go's `regexp`.
* A stored file is the list of the lines of its text; `scanFile` gives the
  entry `bufio.Scanner` makes of it, with its limit on the length of a line.
* The recursion over imports carries fuel; `parseAPIFileForValidateStructs`
  starts it with one unit more than the table has entries.
* The output tree that `Generate` reaches through `os.Stat` and
  `os.WriteFile` is a second finite table, from path spellings to nodes.
* The templates are lists of pieces (text, actions, the range block), with
  the trimming of the actions that open with a dash.
-/

namespace GoctlValidate

/-! ## Strings -/

/-- Go `unicode.IsSpace`: the characters with the Unicode White_Space property. -/
def isUnicodeSpace (c : Char) : Bool :=
  let n := c.toNat
  (0x09 ≤ n && n ≤ 0x0d) || n == 0x20 || n == 0x85 || n == 0xa0 || n == 0x1680 ||
  (0x2000 ≤ n && n ≤ 0x200a) || n == 0x2028 || n == 0x2029 || n == 0x202f ||
  n == 0x205f || n == 0x3000

/-- Go `strings.TrimLeftFunc(s, unicode.IsSpace)`. -/
def trimLeft : List Char → List Char
  | [] => []
  | c :: cs => if isUnicodeSpace c then trimLeft cs else c :: cs

/-- Go `strings.TrimSpace`. -/
def TrimSpace (s : List Char) : List Char :=
  (trimLeft (trimLeft s).reverse).reverse

/-- Go `strings.HasPrefix(s, prefix)`. -/
def HasPrefix (s pre : List Char) : Bool := pre.isPrefixOf s

/-- Go `strings.Contains(s, c)` for a one-character needle. -/
def Contains (s : List Char) (c : Char) : Bool := s.elem c

/-- Go `strings.Count(s, c)` for a one-character needle. -/
def Count (s : List Char) (c : Char) : Int := (s.count c : Nat)

/-! ## Regular expressions -/

/-- The class `\w` of Go's `regexp`: ASCII letters, digits and underscore. -/
def isWord (c : Char) : Bool :=
  ('0' ≤ c && c ≤ '9') || ('A' ≤ c && c ≤ 'Z') || ('a' ≤ c && c ≤ 'z') || c == '_'

/-- The class `\s` of Go's `regexp`. -/
def isSpace (c : Char) : Bool :=
  c == '\t' || c == '\n' || c == '\x0c' || c == '\r' || c == ' '

/-- The class `[*\[\]]`. -/
def isTypePrefix (c : Char) : Bool := c == '*' || c == '[' || c == ']'

/-- The class of every character but the backtick. -/
def notBacktick (c : Char) : Bool := c != '\x60'

/-- The class `[^"]`. -/
def notQuote (c : Char) : Bool := c != '"'

/-- One item of a pattern: a literal character, a greedy `class*`, a greedy
`class+`, or the opening or closing parenthesis of a capture group. -/
inductive Atom where
  | ch (c : Char)
  | star (p : Char → Bool)
  | plus (p : Char → Bool)
  | gOpen
  | gClose

/-- The literal characters of a string, as atoms. -/
def lits (s : List Char) : List Atom := s.map Atom.ch

/-- Length of the longest prefix of `s` whose characters are all in the class. -/
def spanLen (p : Char → Bool) : List Char → Nat
  | [] => 0
  | c :: cs => if p c then spanLen p cs + 1 else 0

/-- First success of `f n, f (n-1), ..., f lo`: the order in which a greedy
repetition gives characters back. -/
def tryDown {α : Type} (f : Nat → Option α) (lo : Nat) : Nat → Option α
  | 0 => if lo = 0 then f 0 else none
  | n + 1 =>
    if n + 1 < lo then none
    else match f (n + 1) with
      | some r => some r
      | none => tryDown f lo n

/-- Backtracking match of a pattern at the start of `s`.  The result lists
the input that remained at each group parenthesis, in pattern order. -/
def matchHere : List Atom → List Char → Option (List (List Char))
  | [], _ => some []
  | Atom.ch c :: as, s =>
    match s with
    | [] => none
    | d :: ds => if d = c then matchHere as ds else none
  | Atom.star p :: as, s => tryDown (fun k => matchHere as (s.drop k)) 0 (spanLen p s)
  | Atom.plus p :: as, s => tryDown (fun k => matchHere as (s.drop k)) 1 (spanLen p s)
  | Atom.gOpen :: as, s => (matchHere as s).map (fun r => s :: r)
  | Atom.gClose :: as, s => (matchHere as s).map (fun r => s :: r)

/-- Leftmost match: the first start position at which the pattern matches. -/
def findMatch (re : List Atom) : List Char → Option (List (List Char))
  | [] => matchHere re []
  | c :: cs =>
    match matchHere re (c :: cs) with
    | some r => some r
    | none => findMatch re cs

/-- Text between two positions of the input, each given by what remained. -/
def between (o c : List Char) : List Char := o.take (o.length - c.length)

/-- The submatches of the groups, from the positions of their parentheses. -/
def groups : List (List Char) → List (List Char)
  | o :: c :: rest => between o c :: groups rest
  | _ => []

/-- Go `re.FindStringSubmatch(s)` without the whole match: the submatches of
the leftmost match, or nothing. -/
def FindStringSubmatch (re : List Atom) (s : List Char) : Option (List (List Char)) :=
  (findMatch re s).map groups

/-! ## Paths (`path/filepath`, Unix) -/

/-- The elements of a path: the pieces between slashes. -/
def splitSlash : List Char → List (List Char)
  | [] => [[]]
  | c :: cs =>
    if c = '/' then [] :: splitSlash cs
    else match splitSlash cs with
      | [] => [[c]]
      | h :: t => (c :: h) :: t

/-- One element of the input of `filepath.Clean`, against the stack of
elements written so far (last written first): empty and `.` elements are
dropped, `..` removes the last real element, is dropped at the root, and is
kept otherwise. -/
def cleanStep (rooted : Bool) (out : List (List Char)) (elem : List Char) : List (List Char) :=
  if elem = [] ∨ elem = ['.'] then out
  else if elem = ['.', '.'] then
    match out with
    | top :: rest => if top = ['.', '.'] then elem :: out else rest
    | [] => if rooted then [] else [elem]
  else elem :: out

/-- Go `filepath.Clean`. -/
def Clean (path : List Char) : List Char :=
  if path = [] then ['.']
  else
    let rooted := path.head? == some '/'
    let out := ((splitSlash path).foldl (cleanStep rooted) []).reverse
    let body := ['/'].intercalate out
    if rooted then '/' :: body
    else if body = [] then ['.'] else body

/-- Go `filepath.IsAbs`. -/
def IsAbs (path : List Char) : Bool := path.head? == some '/'

/-- Go `filepath.Dir`: `Clean` of the path up to and including its last slash. -/
def Dir (path : List Char) : List Char :=
  Clean (path.reverse.dropWhile (fun c => c != '/')).reverse

/-- Go `filepath.Join` of two elements. -/
def Join (a b : List Char) : List Char :=
  if a ≠ [] then Clean (a ++ '/' :: b)
  else if b ≠ [] then Clean b
  else []

/-! ## File system -/

/-- What a path names: a file that opens, with the lines the scanner yields
and whether the scan then stops with an error, or an entry that `os.Stat`
finds and `os.Open` refuses. -/
inductive Entry where
  | file (lines : List (List Char)) (scanErr : Bool)
  | locked
  deriving DecidableEq

/-- File-system state: a finite table from path spellings to entries. -/
abbrev FS := List (List Char × Entry)

/-- Whether `os.Stat(path)` returns a nil error. -/
def statOk (fs : FS) (path : List Char) : Bool := (fs.lookup path).isSome

/-! ## The scanner (`bufio`)

`parseAPIFileRecursively` reads a file through `bufio.NewScanner`, whose
default split function is `bufio.ScanLines`.  A stored file is given by the
lines of its text; `scanFile` is what the scanner makes of it, an entry of the
table above. -/

/-- Go `bufio.MaxScanTokenSize`: the size of the largest buffer of a
`bufio.Scanner` made by `bufio.NewScanner`. -/
def MaxScanTokenSize : Nat := 64 * 1024

/-- The length of a text in bytes (UTF-8), which is what the scanner counts. -/
def byteLen (s : List Char) : Nat := (s.map Char.utf8Size).sum

/-- A line fits the buffer of the scanner together with its line feed. -/
def fitsScanner (l : List Char) : Bool := decide (byteLen l < MaxScanTokenSize)

/-- Go `dropCR` of `bufio`: a line without its final carriage return. -/
def dropCR (s : List Char) : List Char :=
  match s.reverse with
  | '\r' :: r => r.reverse
  | _ => s

/-- What `bufio.Scanner` with `bufio.ScanLines` makes of a file whose text
consists of the given lines (the texts between the line feeds): it yields the
lines, each without its final carriage return, up to the first line that
does not fit its buffer, where it stops with the error `ErrTooLong`. -/
def scanFile (lines : List (List Char)) : Entry :=
  Entry.file ((lines.takeWhile fitsScanner).map dropCR) (!lines.all fitsScanner)

/-- A file as it is stored: the lines of its text, or an entry that `os.Open`
refuses. -/
inductive RawEntry where
  | text (lines : List (List Char))
  | locked
  deriving DecidableEq

/-- The stored files: a finite table from path spellings to stored entries. -/
abbrev RawFS := List (List Char × RawEntry)

/-- The entry the parser sees for a stored entry. -/
def readEntry : RawEntry → Entry
  | RawEntry.text lines => scanFile lines
  | RawEntry.locked => Entry.locked

/-- The file system the parser sees: every stored file read by the scanner. -/
def readFS (raw : RawFS) : FS := raw.map (fun pe => (pe.1, readEntry pe.2))

/-! ## Data model of `parser.go` -/

/-- Go `ValidateField`; `Typ` is its field `Type`. -/
structure ValidateField where
  Name : List Char
  Typ : List Char
  ValidateRule : List Char
  JsonTag : List Char
  deriving DecidableEq

/-- Go `ValidateStruct`. -/
structure ValidateStruct where
  Name : List Char
  Fields : List ValidateField
  deriving DecidableEq

/-- The two errors `parseAPIFileRecursively` builds. -/
inductive ParseError where
  | openFailed (path : List Char)
  | readFailed (path : List Char)
  deriving DecidableEq

/-- The two values every call of `parseAPIFileRecursively` shares:
`*validateStructs` and `processedFiles` (most recently added path first). -/
structure ParseAcc where
  validateStructs : List ValidateStruct
  processedFiles : List (List Char)
  deriving DecidableEq

/-- The local variables of the scan loop of `parseAPIFileRecursively`. -/
structure ScanState where
  currentStruct : Option ValidateStruct
  inTypeBlock : Bool
  inImportBlock : Bool
  inStruct : Bool
  braceCount : Int
  deriving DecidableEq

/-- The values of the loop variables before the first line. -/
def ScanState.init : ScanState :=
  { currentStruct := none, inTypeBlock := false, inImportBlock := false,
    inStruct := false, braceCount := 0 }

/-! ## The pattern functions of `parser.go` -/

/-- The pattern `(\w+)\s*\{`. -/
def structNameRe : List Atom :=
  [Atom.gOpen, Atom.plus isWord, Atom.gClose, Atom.star isSpace, Atom.ch '{']

/-- The pattern of `parseFieldLine`: `(\w+)\s+([*\[\]]*\w+)\s*`, a backtick,
a group of non-backtick characters, a backtick. -/
def fieldRe : List Atom :=
  [Atom.gOpen, Atom.plus isWord, Atom.gClose, Atom.plus isSpace,
   Atom.gOpen, Atom.star isTypePrefix, Atom.plus isWord, Atom.gClose, Atom.star isSpace,
   Atom.ch '\x60', Atom.gOpen, Atom.star notBacktick, Atom.gClose, Atom.ch '\x60']

/-- The pattern `validate:"([^"]*)"`. -/
def validateRe : List Atom :=
  lits "validate:\"".toList ++ [Atom.gOpen, Atom.star notQuote, Atom.gClose, Atom.ch '"']

/-- The pattern `json:"([^"]*)"`. -/
def jsonRe : List Atom :=
  lits "json:\"".toList ++ [Atom.gOpen, Atom.star notQuote, Atom.gClose, Atom.ch '"']

/-- The pattern `"([^"]+\.api)"`. -/
def importPathRe : List Atom :=
  [Atom.ch '"', Atom.gOpen, Atom.plus notQuote] ++ lits ".api".toList ++ [Atom.gClose, Atom.ch '"']

/-- The pattern `import\s+"([^"]+\.api)"`. -/
def importLineRe : List Atom :=
  lits "import".toList ++ [Atom.plus isSpace] ++ importPathRe

/-- Go `extractStructName`. -/
def extractStructName (line : List Char) : List Char :=
  match FindStringSubmatch structNameRe line with
  | some (name :: _) => name
  | _ => []

/-- Go `extractValidateFromTags`. -/
def extractValidateFromTags (tags : List Char) : List Char :=
  match FindStringSubmatch validateRe tags with
  | some (v :: _) => v
  | _ => []

/-- Go `extractJsonFromTags`. -/
def extractJsonFromTags (tags : List Char) : List Char :=
  match FindStringSubmatch jsonRe tags with
  | some (v :: _) => v
  | _ => []

/-- Go `parseFieldLine`. -/
def parseFieldLine (line : List Char) : Option ValidateField :=
  if HasPrefix line "//".toList then none
  else
    match FindStringSubmatch fieldRe line with
    | some [fieldName, fieldType, tags] =>
      let validateRule := extractValidateFromTags tags
      if validateRule = [] then none
      else
        let jsonTag := extractJsonFromTags tags
        some { Name := fieldName, Typ := fieldType,
               ValidateRule := validateRule, JsonTag := jsonTag }
    | _ => none

/-- Go `resolveImportPath`; the empty string stands for "not found". -/
def resolveImportPath (fs : FS) (importPath currentFilePath : List Char) : List Char :=
  let importPath :=
    if !IsAbs importPath then Join (Dir currentFilePath) importPath else importPath
  if statOk fs importPath then importPath else []

/-- Go `parseImportLine`. -/
def parseImportLine (fs : FS) (line currentFilePath : List Char) : List Char :=
  match FindStringSubmatch importLineRe line with
  | some (p :: _) => resolveImportPath fs p currentFilePath
  | _ => []

/-- Go `parseImportPathFromLine`. -/
def parseImportPathFromLine (fs : FS) (line currentFilePath : List Char) : List Char :=
  match FindStringSubmatch importPathRe line with
  | some (p :: _) => resolveImportPath fs p currentFilePath
  | _ => []

/-! ## The scan loop -/

/-- Lines 132-153 of the loop body: a line inside an open record. -/
def scanBody (line : List Char) (st : ScanState) (acc : ParseAcc) : ScanState × ParseAcc :=
  match st.inStruct, st.currentStruct with
  | true, some cur =>
    let braceCount := st.braceCount + (Count line '{' - Count line '}')
    if braceCount ≤ 0 then
      ({ st with currentStruct := none, inStruct := false, braceCount := braceCount },
       if cur.Fields.length > 0 then
         { acc with validateStructs := acc.validateStructs ++ [cur] }
       else acc)
    else
      match parseFieldLine line with
      | some field =>
        ({ st with braceCount := braceCount,
                   currentStruct := some { cur with Fields := cur.Fields ++ [field] } }, acc)
      | none => ({ st with braceCount := braceCount }, acc)
  | _, _ => (st, acc)

/-- Lines 118-130 of the loop body: the start of a record, else `scanBody`. -/
def scanStruct (line : List Char) (st : ScanState) (acc : ParseAcc) : ScanState × ParseAcc :=
  if Contains line '{' && !st.inStruct then
    let structName := extractStructName line
    if structName ≠ [] then
      ({ st with currentStruct := some { Name := structName, Fields := [] },
                 inStruct := true,
                 braceCount := Count line '{' - Count line '}' }, acc)
    else scanBody line st acc
  else scanBody line st acc

/-- Lines 102-153 of the loop body: what a trimmed line that is no import
does. -/
def scanDecl (line : List Char) (st : ScanState) (acc : ParseAcc) : ScanState × ParseAcc :=
  if HasPrefix line "type (".toList then ({ st with inTypeBlock := true }, acc)
  else if st.inTypeBlock && line == ")".toList then ({ st with inTypeBlock := false }, acc)
  else if !st.inTypeBlock then (st, acc)
  else scanStruct line st acc

/-- The recursive call on an import: its error is only logged. -/
def scanImport (recur : List Char → ParseAcc → Option (ParseAcc × Option ParseError))
    (importPath : List Char) (st : ScanState) (acc : ParseAcc) :
    Option (ScanState × ParseAcc) :=
  match recur importPath acc with
  | none => none
  | some (acc1, _) => some (st, acc1)

/-- One turn of the loop of `parseAPIFileRecursively` (lines 70-154) on the
raw line `raw`; `recur` is the recursive call.  `none` when the recursion ran
out of fuel. -/
def scanLine (recur : List Char → ParseAcc → Option (ParseAcc × Option ParseError))
    (fs : FS) (apiFilePath raw : List Char) (st : ScanState) (acc : ParseAcc) :
    Option (ScanState × ParseAcc) :=
  let line := TrimSpace raw
  if HasPrefix line "import (".toList then some ({ st with inImportBlock := true }, acc)
  else if st.inImportBlock && line == ")".toList then
    some ({ st with inImportBlock := false }, acc)
  else if st.inImportBlock then
    let importPath := parseImportPathFromLine fs line apiFilePath
    if importPath ≠ [] then scanImport recur importPath st acc
    else some (st, acc)
  else
    let importPath := parseImportLine fs line apiFilePath
    if importPath ≠ [] then scanImport recur importPath st acc
    else some (scanDecl line st acc)

/-- The loop of `parseAPIFileRecursively` over the lines of one file. -/
def scanLines (recur : List Char → ParseAcc → Option (ParseAcc × Option ParseError))
    (fs : FS) (apiFilePath : List Char) :
    List (List Char) → ScanState → ParseAcc → Option (ScanState × ParseAcc)
  | [], st, acc => some (st, acc)
  | raw :: rest, st, acc =>
    match scanLine recur fs apiFilePath raw st acc with
    | none => none
    | some (st1, acc1) => scanLines recur fs apiFilePath rest st1 acc1

/-- Go `parseAPIFileRecursively`, with fuel for the depth of the recursion.
Returns the shared values after the call and the error of the call; `none`
when the fuel ran out. -/
def parseAPIFileRecursively : Nat → FS → List Char → ParseAcc →
    Option (ParseAcc × Option ParseError)
  | 0, _, _, _ => none
  | fuel + 1, fs, apiFilePath, acc =>
    if acc.processedFiles.elem apiFilePath then some (acc, none)
    else
      let acc := { acc with processedFiles := apiFilePath :: acc.processedFiles }
      match fs.lookup apiFilePath with
      | some (Entry.file lines scanErr) =>
        match scanLines (parseAPIFileRecursively fuel fs) fs apiFilePath lines
            ScanState.init acc with
        | none => none
        | some (_, acc1) =>
          some (acc1, if scanErr then some (ParseError.readFailed apiFilePath) else none)
      | _ => some (acc, some (ParseError.openFailed apiFilePath))

/-- Go `parseAPIFileForValidateStructs`: the descriptors and the error. -/
def parseAPIFileForValidateStructs (fs : FS) (apiFilePath : List Char) :
    Option (List ValidateStruct × Option ParseError) :=
  match parseAPIFileRecursively (fs.length + 1) fs apiFilePath
      { validateStructs := [], processedFiles := [] } with
  | none => none
  | some (_, some err) => some ([], some err)
  | some (acc, none) => some (acc.validateStructs, none)

/-! ## The generator (`generator/generator.go`)

The schema documents are read through the table `FS` above.  The output tree,
which `generator.go` reaches through `os.Stat` and `os.WriteFile`, is a second
finite table from path spellings to nodes: the generated files are not schema
documents. -/

/-- What a path of the output tree names: a directory; a regular file with
its content, writable or not; an entry for which `os.Stat` fails with an
error other than "does not exist"; or a name that does not exist and cannot
be created. -/
inductive Node where
  | dir
  | file (content : List Char) (writable : Bool)
  | noStat
  | vacant
  deriving DecidableEq

/-- The output tree: a finite table from path spellings to nodes.  A path
without an entry does not exist and can be created. -/
abbrev Disk := List (List Char × Node)

/-- The outcomes of `os.Stat`: file info (here: whether it is a directory), an
error for which `os.IsNotExist` holds, or another error. -/
inductive StatResult where
  | info (isDir : Bool)
  | notExist
  | otherError
  deriving DecidableEq

/-- Go `os.Stat` on the output tree. -/
def Stat (disk : Disk) (name : List Char) : StatResult :=
  match disk.lookup name with
  | none => StatResult.notExist
  | some Node.vacant => StatResult.notExist
  | some Node.dir => StatResult.info true
  | some (Node.file _ _) => StatResult.info false
  | some Node.noStat => StatResult.otherError

/-- The table with the node at `name` replaced, or added at the end when the
table has no entry for `name`. -/
def setNode (name : List Char) (n : Node) : Disk → Disk
  | [] => [(name, n)]
  | (k, v) :: rest => if name == k then (k, n) :: rest else (k, v) :: setNode name n rest

/-- Go `os.WriteFile(name, data, 0644)`: creates the file or replaces the
content of a writable regular file.  Returns the tree and whether the error
is non-nil; on an error the tree is as before. -/
def WriteFile (disk : Disk) (name data : List Char) : Disk × Bool :=
  match disk.lookup name with
  | none => (setNode name (Node.file data true) disk, false)
  | some (Node.file _ true) => (setNode name (Node.file data true) disk, false)
  | some _ => (disk, true)

/-- Go `dirExists`: `!os.IsNotExist(err) && info.IsDir()`.  When `os.Stat`
fails with another error, `info` is nil and `info.IsDir()` panics: `none`. -/
def dirExists (disk : Disk) (dirname : List Char) : Option Bool :=
  match Stat disk dirname with
  | StatResult.notExist => some false
  | StatResult.info isDir => some isDir
  | StatResult.otherError => none

/-- Go `fileExists`: `!os.IsNotExist(err)`. -/
def fileExists (disk : Disk) (filename : List Char) : Bool :=
  match Stat disk filename with
  | StatResult.notExist => false
  | _ => true

/-- Go `filepath.Join` of any number of elements: `Clean` of the elements
from the first non-empty one on, joined by slashes. -/
def JoinList : List (List Char) → List Char
  | [] => []
  | e :: rest => if e = [] then JoinList rest else Clean (['/'].intercalate (e :: rest))

/-- Go `plugin.Plugin`, the two fields the generator reads. -/
structure Plugin where
  ApiFilePath : List Char
  Dir : List Char
  deriving DecidableEq

/-- Go `Options` (parser.go). -/
structure Options where
  EnableTranslator : Bool
  deriving DecidableEq

/-- Go `ValidateGenerator`. -/
structure ValidateGenerator where
  plugin : Plugin
  options : Options
  deriving DecidableEq

/-- Go `NewValidateGenerator`; `none` is the nil `opts`. -/
def NewValidateGenerator (p : Plugin) (opts : Option Options) : ValidateGenerator :=
  match opts with
  | none => { plugin := p, options := { EnableTranslator := false } }
  | some o => { plugin := p, options := o }

/-! ### Templates -/

/-- The characters `text/template` trims before an action that opens with
`{{- `. -/
def isTemplateSpace (c : Char) : Bool := c == ' ' || c == '\t' || c == '\r' || c == '\n'

/-- Text with its trailing template white space removed. -/
def trimRight (s : List Char) : List Char := (s.reverse.dropWhile isTemplateSpace).reverse

/-- Template text as it is written out: trimmed at its end when the action
after it opens with `{{- `. -/
def emitText (raw : List Char) (trimEnd : Bool) : List Char :=
  if trimEnd then trimRight raw else raw

/-- A piece of the body of `{{range .Structs}}`: template text, with whether
the next action trims it, or the action `{{.Name}}`. -/
inductive Part where
  | text (raw : List Char) (trimEnd : Bool)
  | name

/-- A piece of the validation template: template text, the action
`{{.Package}}`, or the `{{range .Structs}}` block with its body. -/
inductive Block where
  | text (raw : List Char) (trimEnd : Bool)
  | package
  | rangeStructs (body : List Part)

/-- The data `generateValidateFile` hands to the template. -/
structure TemplateData where
  Package : List Char
  EnableTranslator : Bool
  Structs : List ValidateStruct

/-- The body of the range, executed for one descriptor. -/
def execParts (s : ValidateStruct) : List Part → List Char
  | [] => []
  | Part.text raw trimEnd :: rest => emitText raw trimEnd ++ execParts s rest
  | Part.name :: rest => s.Name ++ execParts s rest

/-- The range over the descriptors, in their order. -/
def execRange (body : List Part) : List ValidateStruct → List Char
  | [] => []
  | s :: rest => execParts s body ++ execRange body rest

/-- Go `t.Execute` on a template given by its pieces. -/
def execBlocks (data : TemplateData) : List Block → List Char
  | [] => []
  | Block.text raw trimEnd :: rest => emitText raw trimEnd ++ execBlocks data rest
  | Block.package :: rest => data.Package ++ execBlocks data rest
  | Block.rangeStructs body :: rest => execRange body data.Structs ++ execBlocks data rest

/-- The template of `renderTemplate` (generator.go 109-124), piece by piece. -/
def validateTemplate : List Block :=
  [Block.text "package ".toList false,
   Block.package,
   Block.text ("\n\nimport (\n\t\"github.com/go-playground/validator/v10\"\n)\n\n" ++
     "// 共享的validator实例\nvar validate = validator.New()\n\n").toList true,
   Block.rangeStructs
     [Part.text "\n// Validate 验证".toList false,
      Part.name,
      Part.text "结构体\nfunc (r *".toList false,
      Part.name,
      Part.text ") Validate() error \x7b\n\treturn validate.Struct(r)\n\x7d\n".toList true],
   Block.text "\n".toList false]

/-- Go `renderTemplate`.  The template is fixed and parses, and its actions
name fields the data has, so the error results of the source are nil. -/
def renderTemplate (data : TemplateData) : List Char := execBlocks data validateTemplate

/-- The lines of a text, each ended by a newline. -/
def unlines : List String → List Char
  | [] => []
  | l :: rest => l.toList ++ '\n' :: unlines rest

/-- The lines of the template of `renderTranslatorTemplate`. -/
def translatorTemplateLines : List String :=
  ["package types",
   "",
   "import (",
   "\t\"errors\"",
   "\t\"fmt\"",
   "\t\"github.com/go-playground/validator/v10\"",
   "\t\"github.com/go-playground/validator/v10/translations/zh\"",
   "\t\"github.com/go-playground/universal-translator\"",
   "\tzhongwen \"github.com/go-playground/locales/zh\"",
   ")",
   "",
   "// 翻译器实例",
   "var translator ut.Translator",
   "",
   "func init() \x7b",
   "\t// 初始化翻译器",
   "\tzw := zhongwen.New()",
   "\tuni := ut.New(zw, zw)",
   "\ttrans, _ := uni.GetTranslator(\"zh\")",
   "\ttranslator = trans",
   "",
   "\t// 注册官方默认翻译",
   "\tzh.RegisterDefaultTranslations(validate, translator)",
   "",
   "\t// 注册自定义翻译（如果存在）",
   "\tregisterCustomTranslations()",
   "\x7d",
   "",
   "// registerCustomTranslations 注册自定义翻译规则",
   "// 此方法为预留方法，用于注册自定义的验证规则翻译",
   "// 自定义翻译应该在 translator_custom.go 文件中实现",
   "func registerCustomTranslations() \x7b",
   "\t// 检查是否存在自定义翻译注册函数",
   "\tif customRegister := getCustomTranslationRegister(); customRegister != nil \x7b",
   "\t\tcustomRegister(validate, translator)",
   "\t\x7d",
   "\x7d",
   "",
   "// getCustomTranslationRegister 获取自定义翻译注册函数",
   "// 这是一个弱引用，如果 translator_custom.go 文件存在，则会被重写",
   "var getCustomTranslationRegister = func() func(*validator.Validate, ut.Translator) \x7b",
   "\treturn nil",
   "\x7d",
   "",
   "// Translate 翻译验证错误信息",
   "// 使用方法:",
   "//   if err := req.Validate(); err != nil \x7b",
   "//       return Translate(err)",
   "//   \x7d",
   "func Translate(err error) error \x7b",
   "\tvar validationErrors validator.ValidationErrors",
   "\tif errors.As(err, &validationErrors) \x7b",
   "\t\tvar translatedErrors []string",
   "\t\tfor _, fieldError := range validationErrors \x7b",
   "\t\t\ttranslatedMsg := fieldError.Translate(translator)",
   "\t\t\ttranslatedErrors = append(translatedErrors, translatedMsg)",
   "\t\t\x7d",
   "",
   "\t\t// 返回第一个翻译后的错误信息",
   "\t\tif len(translatedErrors) > 0 \x7b",
   "\t\t\treturn fmt.Errorf(translatedErrors[0])",
   "\t\t\x7d",
   "\t\x7d",
   "",
   "\t// 如果不是验证错误，返回原始错误",
   "\treturn err",
   "\x7d",
   "",
   "// TranslateErrors 翻译所有验证错误信息",
   "// 返回所有翻译后的错误信息列表",
   "func TranslateErrors(err error) []string \x7b",
   "\tvar translatedErrors []string",
   "\tvar validationErrors validator.ValidationErrors",
   "\tif errors.As(err, &validationErrors) \x7b",
   "\t\tfor _, fieldError := range validationErrors \x7b",
   "\t\t\ttranslatedMsg := fieldError.Translate(translator)",
   "\t\t\ttranslatedErrors = append(translatedErrors, translatedMsg)",
   "\t\t\x7d",
   "\t\x7d else \x7b",
   "\t\t// 如果不是验证错误，返回原始错误信息",
   "\t\ttranslatedErrors = append(translatedErrors, err.Error())",
   "\t\x7d",
   "",
   "\treturn translatedErrors",
   "\x7d"]

/-- The lines of the text `renderCustomTranslatorTemplate` returns. -/
def customTranslatorTemplateLines : List String :=
  ["package types",
   "",
   "import (",
   "\t\"github.com/go-playground/validator/v10\"",
   "\t\"github.com/go-playground/universal-translator\"",
   ")",
   "",
   "// 重写默认的自定义翻译注册函数",
   "func init() \x7b",
   "\tgetCustomTranslationRegister = func() func(*validator.Validate, ut.Translator) \x7b",
   "\t\treturn registerCustomTranslationsImpl",
   "\t\x7d",
   "\x7d",
   "",
   "// registerCustomTranslationsImpl 注册自定义翻译规则的实现",
   "// 在这里添加您的自定义验证规则翻译",
   "// 此文件不会被 goctl-validate 重新生成覆盖",
   "func registerCustomTranslationsImpl(validate *validator.Validate, translator ut.Translator) \x7b",
   "\t// 示例：注册自定义验证规则翻译",
   "\t// validate.RegisterTranslation(\"custom_rule\", translator, func(ut ut.Translator) error \x7b",
   "\t//     return ut.Add(\"custom_rule\", \"\x7b0\x7d不符合自定义规则\", true)",
   "\t// \x7d, func(ut ut.Translator, fe validator.FieldError) string \x7b",
   "\t//     t, _ := ut.T(\"custom_rule\", fe.Field())",
   "\t//     return t",
   "\t// \x7d)",
   "",
   "\t// 您可以在这里添加更多自定义翻译规则...",
   "\x7d"]

/-- Go `renderTranslatorTemplate`: the template has no action, so executing
it writes its text. -/
def renderTranslatorTemplate : List Char := unlines translatorTemplateLines

/-- Go `renderCustomTranslatorTemplate`. -/
def renderCustomTranslatorTemplate : List Char := unlines customTranslatorTemplateLines

/-! ### Generate -/

/-- Go `generateValidateFile`: the tree after the call and whether the error
is non-nil. -/
def generateValidateFile (g : ValidateGenerator) (disk : Disk) (filename : List Char)
    (validateStructs : List ValidateStruct) : Disk × Bool :=
  let data : TemplateData :=
    { Package := "types".toList,
      EnableTranslator := g.options.EnableTranslator,
      Structs := validateStructs }
  let content := renderTemplate data
  WriteFile disk filename content

/-- Go `generateTranslatorFile`. -/
def generateTranslatorFile (disk : Disk) (filename : List Char) : Disk × Bool :=
  WriteFile disk filename renderTranslatorTemplate

/-- Go `generateCustomTranslatorTemplate`. -/
def generateCustomTranslatorTemplate (disk : Disk) (filename : List Char) : Disk × Bool :=
  WriteFile disk filename renderCustomTranslatorTemplate

/-- The errors `Generate` returns. -/
inductive GenerateError where
  | parseFailed (err : ParseError)
  | typesDirNotFound (typesDir : List Char)
  | validateFileFailed
  | translatorFileFailed
  | customTemplateFailed
  deriving DecidableEq

/-- How a call of `Generate` ends: it returns an error or nil, or it panics. -/
inductive Outcome where
  | returned (err : Option GenerateError)
  | panicked
  deriving DecidableEq

/-- The file system as `Generate` sees it: the schema documents and the
output tree. -/
structure World where
  docs : FS
  disk : Disk
  deriving DecidableEq

/-- Lines 45-81 of `Generate`: the writes, once the parse has given at least
one descriptor. -/
def writeOutputs (g : ValidateGenerator) (disk : Disk) (validateStructs : List ValidateStruct) :
    Disk × Outcome :=
  let typesDir := JoinList [g.plugin.Dir, "internal".toList, "types".toList]
  match dirExists disk typesDir with
  | none => (disk, Outcome.panicked)
  | some false => (disk, Outcome.returned (some (GenerateError.typesDirNotFound typesDir)))
  | some true =>
    let validateFile := Join typesDir "validate.go".toList
    match generateValidateFile g disk validateFile validateStructs with
    | (disk1, true) => (disk1, Outcome.returned (some GenerateError.validateFileFailed))
    | (disk1, false) =>
      if g.options.EnableTranslator then
        let translatorFile := Join typesDir "translator.go".toList
        match generateTranslatorFile disk1 translatorFile with
        | (disk2, true) => (disk2, Outcome.returned (some GenerateError.translatorFileFailed))
        | (disk2, false) =>
          let customTranslatorFile := Join typesDir "translator_custom.go".toList
          if !fileExists disk2 customTranslatorFile then
            match generateCustomTranslatorTemplate disk2 customTranslatorFile with
            | (disk3, true) =>
              (disk3, Outcome.returned (some GenerateError.customTemplateFailed))
            | (disk3, false) => (disk3, Outcome.returned none)
          else (disk2, Outcome.returned none)
      else (disk1, Outcome.returned none)

/-- Go `Generate`.  `none` only when the parse ran out of fuel. -/
def Generate (g : ValidateGenerator) (w : World) : Option (World × Outcome) :=
  match parseAPIFileForValidateStructs w.docs g.plugin.ApiFilePath with
  | none => none
  | some (_, some err) => some (w, Outcome.returned (some (GenerateError.parseFailed err)))
  | some (validateStructs, none) =>
    if validateStructs.length = 0 then some (w, Outcome.returned none)
    else
      let r := writeOutputs g w.disk validateStructs
      some ({ w with disk := r.1 }, r.2)

/-! ## Auxiliary definitions for the statements -/

/-- The type of the recursive call handed to the scan loop. -/
abbrev Recur := List Char → ParseAcc → Option (ParseAcc × Option ParseError)

/-- Brace balance of a line. -/
def braceDelta (line : List Char) : Int := Count line '{' - Count line '}'

/-- Every descriptor has a field and every field has a rule. -/
def GoodOutput (l : List ValidateStruct) : Prop :=
  ∀ s ∈ l, s.Fields ≠ [] ∧ ∀ f ∈ s.Fields, f.ValidateRule ≠ []

/-- Every field of the record being read has a rule. -/
def GoodCurrent (st : ScanState) : Prop :=
  ∀ cur, st.currentStruct = some cur → ∀ f ∈ cur.Fields, f.ValidateRule ≠ []

/-- Number of table entries whose path is not in the processed set. -/
def unseen (fs : FS) (P : List (List Char)) : Nat := fs.countP (fun e => !P.elem e.1)

/-- The second pair of shared values continues the first: descriptors are
only appended, paths only added in front. -/
def Extends (a b : ParseAcc) : Prop :=
  a.validateStructs <+: b.validateStructs ∧ a.processedFiles <:+ b.processedFiles

/-- The shared values at the start of `parseAPIFileForValidateStructs`. -/
def ParseAcc.empty : ParseAcc := { validateStructs := [], processedFiles := [] }

/-- A raw line that, once trimmed, neither opens a grouped import block nor
matches the single-line import pattern. -/
abbrev NoImport (raw : List Char) : Prop :=
  HasPrefix (TrimSpace raw) "import (".toList = false ∧
  FindStringSubmatch importLineRe (TrimSpace raw) = none

/-- A raw line that, once trimmed, does not open a grouped type block. -/
abbrev NoTypeOpen (raw : List Char) : Prop :=
  HasPrefix (TrimSpace raw) "type (".toList = false

/-- A document whose only record is declared in the ungrouped form. -/
def ungroupedDoc : List (List Char) :=
  ["type User \x7b".toList, "    Name string `validate:\"required\" json:\"name\"`".toList, "\x7d".toList]

/-- `os.Open` succeeds on the path. -/
def Opens (fs : FS) (p : List Char) : Prop :=
  ∃ lines e, fs.lookup p = some (Entry.file lines e)

/-- Two tables that name the same paths and agree on every path but `root`. -/
def SameBut (root : List Char) (fs1 fs2 : FS) : Prop :=
  (∀ p, p ≠ root → fs1.lookup p = fs2.lookup p) ∧ (∀ p, statOk fs1 p = statOk fs2 p)

/-- Two pairs of shared values with the same descriptors, both past `root`,
whose processed sets hold the same paths among those that open. -/
def AccSim (fs : FS) (root : List Char) (a b : ParseAcc) : Prop :=
  a.validateStructs = b.validateStructs ∧ root ∈ a.processedFiles ∧ root ∈ b.processedFiles ∧
  ∀ p, Opens fs p → (p ∈ a.processedFiles ↔ p ∈ b.processedFiles)

/-- Two recursive calls that keep `AccSim` and run out of fuel together. -/
def RecurSim (fs : FS) (root : List Char) (r1 r2 : Recur) : Prop :=
  ∀ q a b, AccSim fs root a b →
    (r1 q a = none ∧ r2 q b = none) ∨
    (∃ a1 e1 b1 e2, r1 q a = some (a1, e1) ∧ r2 q b = some (b1, e2) ∧ AccSim fs root a1 b1)

/-- The in-import-block flag after a trimmed line. -/
def nextImportFlag (line : List Char) (flag : Bool) : Bool :=
  if HasPrefix line "import (".toList then true
  else if flag && line == ")".toList then false
  else flag

/-- The in-import-block flag after the raw lines of a prefix of a document. -/
def importFlagAfter : List (List Char) → Bool → Bool
  | [], flag => flag
  | raw :: rest, flag => importFlagAfter rest (nextImportFlag (TrimSpace raw) flag)

/-- The path the loop body hands to the recursive call when it meets the raw
line with the given in-import-block flag; empty when the line imports
nothing there. -/
def importTarget (fs : FS) (apiFilePath : List Char) (flag : Bool) (raw : List Char) :
    List Char :=
  let line := TrimSpace raw
  if HasPrefix line "import (".toList then []
  else if flag && line == ")".toList then []
  else if flag then parseImportPathFromLine fs line apiFilePath
  else parseImportLine fs line apiFilePath

/-- A root document with an import of `locked.api` between two records. -/
def lockedPre : List (List Char) :=
  ["type (".toList, "  A \x7b".toList, "    X int `validate:\"required\"`".toList, "  \x7d".toList,
   ")".toList]

/-- The lines after the import in the same document. -/
def lockedPost : List (List Char) :=
  ["import \"other.api\"".toList, "type (".toList, "  B \x7b".toList,
   "    Y string `validate:\"min=1\"`".toList, "  \x7d".toList, ")".toList]

/-- The other files of that table: one that exists and does not open, one
that opens. -/
def lockedRest : FS :=
  [("locked.api".toList, Entry.locked),
   ("other.api".toList, Entry.file ["type (".toList, "  C \x7b".toList,
      "    Z int `validate:\"gt=0\"`".toList, "  \x7d".toList, ")".toList] false)]

/-- A document with a record, an import of `other.api`, and a second record. -/
def orderDoc : List (List Char) :=
  ["type (".toList, "  A \x7b".toList, "    X int `validate:\"required\"`".toList,
   "    W int `validate:\"lt=9\"`".toList, "  \x7d".toList, ")".toList,
   "import \"other.api\"".toList, "type (".toList, "  B \x7b".toList,
   "    Y string `validate:\"min=1\"`".toList, "  \x7d".toList, ")".toList]

/-- The `User` document: a grouped type block with the record `User`, one
declaration per line. -/
def userDoc : List (List Char) :=
  ["type (".toList,
   "User \x7b".toList,
   "Name string `validate:\"required\" json:\"name\"`".toList,
   "Age int `json:\"age\"`".toList,
   "\x7d".toList,
   ")".toList]

/-- The descriptor of `User` with its one qualifying field. -/
def userRecord : ValidateStruct :=
  { Name := "User".toList,
    Fields := [{ Name := "Name".toList, Typ := "string".toList,
                 ValidateRule := "required".toList, JsonTag := "name".toList }] }

/-- How often the name `n` occurs in a list of names. -/
def nameCount (n : List Char) (l : List (List Char)) : Nat :=
  l.countP (fun x => decide (x = n))

/-- The names of a sequence of descriptors. -/
def outNames (l : List ValidateStruct) : List (List Char) := l.map (fun s => s.Name)

/-- A document that declares two qualifying records of the same name. -/
def dupDoc : List (List Char) :=
  ["type (".toList, "A \x7b".toList, "X int `validate:\"required\"`".toList, "\x7d".toList,
   "A \x7b".toList, "Y int `validate:\"required\"`".toList, "\x7d".toList, ")".toList]

/-- A document whose record `A` has one field without a validate tag and is
written on one line, followed by the record `B` with a validate-tagged field. -/
def oneLineDoc : List (List Char) :=
  ["type (".toList,
   "A \x7b X int `json:\"x\"` \x7d".toList,
   "B \x7b".toList,
   "Y string `validate:\"required\"`".toList,
   "\x7d".toList,
   ")".toList]

/-- The same two records with the declaration of `A` spread over three lines. -/
def manyLineDoc : List (List Char) :=
  ["type (".toList,
   "A \x7b".toList,
   "X int `json:\"x\"`".toList,
   "\x7d".toList,
   "B \x7b".toList,
   "Y string `validate:\"required\"`".toList,
   "\x7d".toList,
   ")".toList]

/-- The document `a.api`: it imports `b.api` and declares the record `A`. -/
def cycleDocA : List (List Char) :=
  ["import \"b.api\"".toList, "type (".toList, "A \x7b".toList,
   "X int `validate:\"required\"`".toList, "\x7d".toList, ")".toList]

/-- The document `b.api`: it imports `a.api` and declares the record `B`. -/
def cycleDocB : List (List Char) :=
  ["import \"a.api\"".toList, "type (".toList, "B \x7b".toList,
   "Y int `validate:\"required\"`".toList, "\x7d".toList, ")".toList]

/-- A directory with the two documents; `a.api` opens under the spellings
`a.api` and `./a.api`. -/
def cycleFS : FS :=
  [("./a.api".toList, Entry.file cycleDocA false),
   ("a.api".toList, Entry.file cycleDocA false),
   ("b.api".toList, Entry.file cycleDocB false)]

/-- A document with an import of a path that does not exist, after a record
written on one line. -/
def missingImportDoc : List (List Char) :=
  ["type (".toList,
   "Empty \x7b\x7d".toList,
   "import \"missing.api\"".toList,
   "User \x7b".toList,
   "Name string `validate:\"required\"`".toList,
   "\x7d".toList,
   ")".toList]

/-- The same document without the import line. -/
def missingImportDocRemoved : List (List Char) :=
  ["type (".toList,
   "Empty \x7b\x7d".toList,
   "User \x7b".toList,
   "Name string `validate:\"required\"`".toList,
   "\x7d".toList,
   ")".toList]

/-- A document with an import of a path that does not exist and holds a
closing brace, inside the body of a record. -/
def braceImportDoc : List (List Char) :=
  ["type (".toList,
   "User \x7b".toList,
   "import \"x\x7d.api\"".toList,
   "Name string `validate:\"required\"`".toList,
   "\x7d".toList,
   ")".toList]

/-- The same document without the import line. -/
def braceImportDocRemoved : List (List Char) :=
  ["type (".toList,
   "User \x7b".toList,
   "Name string `validate:\"required\"`".toList,
   "\x7d".toList,
   ")".toList]

/-- No occurrence of `key` in `a ++ key` starts inside `a`: where `a` is
followed by `key`, that occurrence is the first one. -/
abbrev FirstAt (key a : List Char) : Prop :=
  ∀ i, i < a.length → HasPrefix ((a ++ key).drop i) key = false

/-- The text `key` occurs nowhere in `s`. -/
abbrev Absent (key s : List Char) : Prop :=
  ∀ i, i < s.length + 1 → HasPrefix (s.drop i) key = false

/-- The pattern `key([^"]*)"` for a literal `key`: the shape of the patterns
of `extractValidateFromTags` and `extractJsonFromTags`. -/
def keyValueRe (key : List Char) : List Atom :=
  lits key ++ [Atom.gOpen, Atom.star notQuote, Atom.gClose, Atom.ch '"']

/-- The shape of a field line: identifier, whitespace, type token (prefix
characters and word characters), optional whitespace, and a tag string
between backticks. -/
structure FieldShape (ident ws pre word ws2 tag : List Char) : Prop where
  ident_ne : ident ≠ []
  ident_word : ∀ c ∈ ident, isWord c = true
  ws_ne : ws ≠ []
  ws_space : ∀ c ∈ ws, isSpace c = true
  pre_prefix : ∀ c ∈ pre, isTypePrefix c = true
  word_ne : word ≠ []
  word_word : ∀ c ∈ word, isWord c = true
  ws2_space : ∀ c ∈ ws2, isSpace c = true
  tag_plain : ∀ c ∈ tag, notBacktick c = true

/-- The line with the given parts. -/
def fieldLine (ident ws pre word ws2 tag : List Char) : List Char :=
  ident ++ (ws ++ (pre ++ (word ++ (ws2 ++ '\x60' :: (tag ++ ['\x60'])))))

/-- A raw line that reaches the record logic (lines 118-153) when it is met
inside a grouped type block and outside a grouped import block: trimmed, it
opens no import block, imports nothing, opens no type block and is not the
closing parenthesis. -/
abbrev PlainLine (fs : FS) (apiFilePath raw : List Char) : Prop :=
  HasPrefix (TrimSpace raw) "import (".toList = false ∧
  parseImportLine fs (TrimSpace raw) apiFilePath = [] ∧
  HasPrefix (TrimSpace raw) "type (".toList = false ∧
  TrimSpace raw ≠ ")".toList

/-- The brace depth after the raw lines, from the depth `d`. -/
def depthAfter (d : Int) : List (List Char) → Int
  | [] => d
  | raw :: rest => depthAfter (d + braceDelta (TrimSpace raw)) rest

/-- The brace depth is above zero after each of the raw lines, from the
depth `d`. -/
def staysOpen (d : Int) : List (List Char) → Bool
  | [] => true
  | raw :: rest =>
    decide (0 < d + braceDelta (TrimSpace raw)) &&
      staysOpen (d + braceDelta (TrimSpace raw)) rest

/-- The fields `parseFieldLine` reads from the raw lines, in the order of
the lines. -/
def bodyFields : List (List Char) → List ValidateField
  | [] => []
  | raw :: rest =>
    match parseFieldLine (TrimSpace raw) with
    | some f => f :: bodyFields rest
    | none => bodyFields rest

/-- A document in which the closing parenthesis of the type block stands
inside the body of the record `A`, before its closing brace. -/
def strayParenDoc : List (List Char) :=
  ["type (".toList,
   "A \x7b".toList,
   "X int `validate:\"required\"`".toList,
   ")".toList,
   "\x7d".toList]

/-- The body of a record with a nested brace block. -/
def nestedBody : List (List Char) :=
  ["  Name string `validate:\"required\"`".toList,
   "  Addr \x7b".toList,
   "    City string `validate:\"min=1\"`".toList,
   "  \x7d".toList,
   "  Age int `json:\"age\"`".toList]

/-- The shape of a single-line import: `ws` is the whitespace after the word
`import`, `path` the quoted text before `.api`. -/
structure ImportShape (ws path : List Char) : Prop where
  ws_ne : ws ≠ []
  ws_space : ∀ c ∈ ws, isSpace c = true
  path_ne : path ≠ []
  path_plain : ∀ c ∈ path, notQuote c = true

/-- The trimmed text of a single-line import: the word, whitespace, and the
quoted path ending in `.api`, then whatever follows on the line. -/
def importLine (ws path tail : List Char) : List Char :=
  "import".toList ++ (ws ++ '"' :: (path ++ (".api".toList ++ '"' :: tail)))

/-- The scan state inside the body of a record `A` that has read one field. -/
def insideRecordState : ScanState :=
  { currentStruct := some ⟨"A".toList, [⟨"X".toList, "int".toList, "required".toList, []⟩]⟩,
    inTypeBlock := true, inImportBlock := false, inStruct := true, braceCount := 1 }

/-- A plain path element: not empty, without slash, and neither `.` nor `..`. -/
abbrev PlainName (name : List Char) : Prop :=
  name ≠ [] ∧ '/' ∉ name ∧ name ≠ ['.'] ∧ name ≠ ['.', '.']

/-- The types directory of a generator. -/
def typesDirOf (g : ValidateGenerator) : List Char :=
  JoinList [g.plugin.Dir, "internal".toList, "types".toList]

/-- The path of `validate.go` of a generator. -/
def validateFileOf (g : ValidateGenerator) : List Char :=
  Join (typesDirOf g) "validate.go".toList

/-- The path of `translator.go` of a generator. -/
def translatorFileOf (g : ValidateGenerator) : List Char :=
  Join (typesDirOf g) "translator.go".toList

/-- The path of `translator_custom.go` of a generator. -/
def customTranslatorFileOf (g : ValidateGenerator) : List Char :=
  Join (typesDirOf g) "translator_custom.go".toList

/-- The content `generateValidateFile` renders for a list of descriptors. -/
def validateContent (g : ValidateGenerator) (validateStructs : List ValidateStruct) : List Char :=
  renderTemplate
    { Package := "types".toList,
      EnableTranslator := g.options.EnableTranslator,
      Structs := validateStructs }

/-- The fixed text the validation file starts with, after `package `. -/
def validateHeaderText : List Char :=
  ("\n\nimport (\n\t\"github.com/go-playground/validator/v10\"\n)\n\n" ++
    "// 共享的validator实例\nvar validate = validator.New()").toList

/-- The header of the validation file: package clause, validator import and
the declaration of the shared instance. -/
def validateHeader (pkg : List Char) : List Char := "package ".toList ++ pkg ++ validateHeaderText

/-- The `Validate` method generated for a record of the given name. -/
def validateMethod (name : List Char) : List Char :=
  "\n// Validate 验证".toList ++ name ++ "结构体\nfunc (r *".toList ++ name ++
    ") Validate() error \x7b\n\treturn validate.Struct(r)\n\x7d".toList

/-- The number of positions of a text at which a pattern starts. -/
def occurrences (pat : List Char) : List Char → Nat
  | [] => if pat = [] then 1 else 0
  | c :: cs => (if HasPrefix (c :: cs) pat then 1 else 0) + occurrences pat cs

/-- A schema with one record `A`. -/
def oneRecordDocs : FS :=
  [("a.api".toList,
    Entry.file
      ["type (".toList, "A \x7b".toList, "X int \x60validate:\"required\"\x60".toList,
        "\x7d".toList, ")".toList] false)]

/-- A schema without a record. -/
def noRecordDocs : FS :=
  [("a.api".toList, Entry.file ["type (".toList, ")".toList] false)]

/-- A generator for `a.api` writing below `out`. -/
def sampleGenerator (enableTranslator : Bool) : ValidateGenerator :=
  { plugin := { ApiFilePath := "a.api".toList, Dir := "out".toList },
    options := { EnableTranslator := enableTranslator } }

/-- An output tree with the types directory and a customised stub. -/
def customisedDisk : Disk :=
  [("out/internal/types".toList, Node.dir),
   ("out/internal/types/translator_custom.go".toList, Node.file "// mine".toList true)]

/-- An output tree with the types directory and an earlier `validate.go`. -/
def staleDisk : Disk :=
  [("out/internal/types".toList, Node.dir),
   ("out/internal/types/validate.go".toList, Node.file "package old".toList true)]

/-- Two tables that name the same paths and whose documents scan alike: on
every path either neither opens, or both open with the same scan error and
their lines, scanned from the initial state with any recursive call, give the
same shared values. -/
def ScanAlike (fs1 fs2 : FS) : Prop :=
  (∀ p, statOk fs1 p = statOk fs2 p) ∧
  ∀ q, (¬ Opens fs1 q ∧ ¬ Opens fs2 q) ∨
    ∃ l1 l2 e, fs1.lookup q = some (Entry.file l1 e) ∧ fs2.lookup q = some (Entry.file l2 e) ∧
      ∀ (r : Recur) (acc : ParseAcc),
        (scanLines r fs1 q l1 ScanState.init acc).map Prod.snd =
          (scanLines r fs1 q l2 ScanState.init acc).map Prod.snd

/-- An entry with every line of the document trimmed. -/
def trimEntry : Entry → Entry
  | Entry.file lines scanErr => Entry.file (lines.map TrimSpace) scanErr
  | Entry.locked => Entry.locked

/-- A table with every line of every document trimmed: what is left of the
table when leading and trailing white space of the lines is disregarded. -/
def trimFS (fs : FS) : FS := fs.map (fun pe => (pe.1, trimEntry pe.2))

/-- A document with indented lines and trailing blanks. -/
def indentedDoc : List (List Char) :=
  ["type (   ".toList,
   "\tUser \x7b".toList,
   "\t\tName string \x60validate:\"required\" json:\"name\"\x60  ".toList,
   "\t\x7d\r".toList,
   "  )".toList]

/-- The same document with no white space around its lines. -/
def flushDoc : List (List Char) :=
  ["type (".toList,
   "User \x7b".toList,
   "Name string \x60validate:\"required\" json:\"name\"\x60".toList,
   "\x7d".toList,
   ")".toList]

/-- An open record has a brace depth above zero. -/
def DepthInv (st : ScanState) : Prop := st.inStruct = true → 0 < st.braceCount

/-- A record `A` whose body holds the comment line `// }` before its field. -/
def braceCommentDoc : List (List Char) :=
  ["type (".toList,
   "A \x7b".toList,
   "// \x7d".toList,
   "X int \x60validate:\"required\"\x60".toList,
   "\x7d".toList,
   ")".toList]

/-- The document `braceCommentDoc` without its comment line. -/
def braceCommentDocDeleted : List (List Char) :=
  ["type (".toList,
   "A \x7b".toList,
   "X int \x60validate:\"required\"\x60".toList,
   "\x7d".toList,
   ")".toList]

/-- A table in which `main.api` holds nothing but a commented-out import of
`other.api`, which declares the record `B`. -/
def commentedImportFS (mainLines : List (List Char)) : FS :=
  [("main.api".toList, Entry.file mainLines false),
   ("other.api".toList,
    Entry.file
      ["type (".toList, "B \x7b".toList, "Y int \x60validate:\"gt=0\"\x60".toList,
        "\x7d".toList, ")".toList] false)]

/-- A record `A` whose body starts with the given lines; used with a comment
line that holds neither a brace nor an import. -/
def plainCommentFS (body : List (List Char)) : FS :=
  [("r.api".toList,
    Entry.file (["type (".toList, "A \x7b".toList] ++ body ++
      ["X int \x60validate:\"required\"\x60".toList, "\x7d".toList, ")".toList]) false)]

/-- An output tree in which `out/internal` is a regular file, so that
`os.Stat` of `out/internal/types` fails with "not a directory", an error for
which `os.IsNotExist` is false. -/
def internalIsFileDisk : Disk :=
  [("out/internal".toList, Node.file "x".toList true),
   ("out/internal/types".toList, Node.noStat)]

/-- The text before a tag key: nothing, or text that ends in white space.
A key that follows such a text is a key of its own and not the end of a
longer key. -/
def KeyStart (a : List Char) : Prop :=
  a = [] ∨ ∃ a0 c, a = a0 ++ [c] ∧ isSpace c = true

/-- A stored entry with every line trimmed. -/
def trimRawEntry : RawEntry → RawEntry
  | RawEntry.text lines => RawEntry.text (lines.map TrimSpace)
  | RawEntry.locked => RawEntry.locked

/-- The stored files with every line trimmed: what is left of them when the
white space at the start and at the end of the lines is disregarded. -/
def trimRaw (raw : RawFS) : RawFS := raw.map (fun pe => (pe.1, trimRawEntry pe.2))

/-- Every line of a stored entry fits the buffer of the scanner. -/
def entryFits : RawEntry → Bool
  | RawEntry.text lines => lines.all fitsScanner
  | RawEntry.locked => true

/-- Every line of every stored file fits the buffer of the scanner. -/
def WithinLimit (raw : RawFS) : Prop := raw.all (fun pe => entryFits pe.2) = true

/-- The entry the parser sees for a stored entry all of whose lines fit the
scanner, carriage returns aside. -/
def asRead : RawEntry → Entry
  | RawEntry.text lines => Entry.file lines false
  | RawEntry.locked => Entry.locked

/-- A stored document with the record `A` whose field line is followed by
the given number of blanks. -/
def paddedRecord (blanks : Nat) : RawFS :=
  [("r.api".toList,
    RawEntry.text
      ["type (".toList, "A \x7b".toList,
        "X int \x60validate:\"required\"\x60".toList ++ List.replicate blanks ' ',
        "\x7d".toList, ")".toList])]

/-- The loop variables between two records of a grouped type block. -/
abbrev Ready (st : ScanState) : Prop :=
  st.inTypeBlock = true ∧ st.inImportBlock = false ∧ st.inStruct = false

/-- A record written over several lines: an opening line with a name and an
opening brace, body lines after each of which the brace depth is above zero,
and a closing line that brings the depth to zero or below, all of them lines
that reach the record logic. -/
structure RecordBlock (fs : FS) (p opener : List Char) (body : List (List Char))
    (closer : List Char) : Prop where
  opener_plain : PlainLine fs p opener
  opener_brace : Contains (TrimSpace opener) '{' = true
  opener_name : extractStructName (TrimSpace opener) ≠ []
  body_plain : ∀ l ∈ body, PlainLine fs p l
  body_open : staysOpen (braceDelta (TrimSpace opener)) body = true
  closer_plain : PlainLine fs p closer
  closer_closes :
    depthAfter (braceDelta (TrimSpace opener)) body + braceDelta (TrimSpace closer) ≤ 0

/-- The descriptor of a record block: the name of the opening line and the
fields of the body lines. -/
def blockRecord (opener : List Char) (body : List (List Char)) : ValidateStruct :=
  { Name := extractStructName (TrimSpace opener), Fields := bodyFields body }

/-- A line that opens a grouped type block and is not read as an import. -/
abbrev TypeOpen (fs : FS) (p raw : List Char) : Prop :=
  HasPrefix (TrimSpace raw) "type (".toList = true ∧
  parseImportLine fs (TrimSpace raw) p = []

/-- A document in which an import of `other.api` stands inside the body of
the record `A`, after its field. -/
def importInRecordDoc : List (List Char) :=
  ["type (".toList, "A \x7b".toList, "X int \x60validate:\"required\"\x60".toList,
   "import \"other.api\"".toList, "\x7d".toList, ")".toList]

/-- A document with the records `A` and `B` one after the other. -/
def twoRecordDoc : List (List Char) :=
  ["type (".toList, "A \x7b".toList, "X int \x60validate:\"required\"\x60".toList,
   "\x7d".toList, "B \x7b".toList, "Y string \x60validate:\"min=1\"\x60".toList,
   "\x7d".toList, ")".toList]

/-- A root whose type block holds an import of `locked.api`, which exists
and does not open, and then the record `B`. -/
def lockedBlockDoc : List (List Char) :=
  ["type (".toList, "import \"locked.api\"".toList, "B \x7b".toList,
   "Y string \x60validate:\"min=1\"\x60".toList, "\x7d".toList, ")".toList]

/-- A recursive call that follows no import: it returns at once. -/
def noFollow : Recur := fun _ acc => some (acc, none)

/-- The descriptors a document yields on its own: the scan of its lines from
the initial state, with its imports resolved and not followed.  Nothing for a
path that does not open. -/
def ownRecords (fs : FS) (p : List Char) : List ValidateStruct :=
  match fs.lookup p with
  | some (Entry.file lines _) =>
    match scanLines noFollow fs p lines ScanState.init ParseAcc.empty with
    | some (_, acc) => acc.validateStructs
    | none => []
  | _ => []

/-- The descriptors the documents of a list of paths yield, each on its own. -/
def declaredRecords (fs : FS) : List (List Char) → List ValidateStruct
  | [] => []
  | p :: ps => ownRecords fs p ++ declaredRecords fs ps

/-- What the exact counting argument asks of the recursive call: it adds
paths in front of the processed ones, and for the name `n` as many
descriptors as the documents of the added paths yield on their own. -/
def RecurExact (fs : FS) (n : List Char) (recur : Recur) : Prop :=
  ∀ q a a1 e, recur q a = some (a1, e) →
    ∃ newP, a1.processedFiles = newP ++ a.processedFiles ∧
      nameCount n (outNames a1.validateStructs) =
        nameCount n (outNames a.validateStructs) +
          nameCount n (outNames (declaredRecords fs newP))

/-- A document with one record and two `service` blocks of the same name
outside the type block. -/
def serviceDoc : List (List Char) :=
  ["type (".toList, "LoginReq \x7b".toList, "Name string \x60validate:\"required\"\x60".toList,
   "\x7d".toList, ")".toList,
   "service user-api \x7b".toList, "\x7d".toList,
   "service user-api \x7b".toList, "\x7d".toList]

/-! ## Theorems -/

theorem scanLine_cases (recur : Recur) (fs : FS) (p raw : List Char) (st st1 : ScanState)
    (acc acc1 : ParseAcc) (h : scanLine recur fs p raw st acc = some (st1, acc1)) :
    (acc1 = acc ∧ ∃ b, st1 = { st with inImportBlock := b }) ∨
    (st1 = st ∧ ∃ q e, q ≠ [] ∧ recur q acc = some (acc1, e) ∧
      (q = parseImportPathFromLine fs (TrimSpace raw) p ∨
        q = parseImportLine fs (TrimSpace raw) p)) ∨
    (st.inImportBlock = false ∧ (st1, acc1) = scanDecl (TrimSpace raw) st acc) := by
  unfold scanLine at h
  simp only at h
  split at h
  · simp only [Option.some.injEq, Prod.mk.injEq] at h
    exact Or.inl ⟨h.2.symm, true, h.1.symm⟩
  · split at h
    · simp only [Option.some.injEq, Prod.mk.injEq] at h
      exact Or.inl ⟨h.2.symm, false, h.1.symm⟩
    · split at h
      · split at h
        · rename_i hq
          unfold scanImport at h
          split at h
          · exact absurd h (by simp)
          · rename_i a e hr
            simp only [Option.some.injEq, Prod.mk.injEq] at h
            refine Or.inr (Or.inl ⟨h.1.symm, _, e, hq, ?_, Or.inl rfl⟩)
            rw [hr, h.2]
        · simp only [Option.some.injEq, Prod.mk.injEq] at h
          exact Or.inl ⟨h.2.symm, st.inImportBlock, by rw [← h.1]⟩
      · rename_i hb
        split at h
        · rename_i hq
          unfold scanImport at h
          split at h
          · exact absurd h (by simp)
          · rename_i a e hr
            simp only [Option.some.injEq, Prod.mk.injEq] at h
            refine Or.inr (Or.inl ⟨h.1.symm, _, e, hq, ?_, Or.inr rfl⟩)
            rw [hr, h.2]
        · simp only [Option.some.injEq] at h
          exact Or.inr (Or.inr ⟨by simpa using hb, h.symm⟩)

theorem scanLines_append (recur : Recur) (fs : FS) (p : List Char) (l1 l2 : List (List Char))
    (st : ScanState) (acc : ParseAcc) :
    scanLines recur fs p (l1 ++ l2) st acc =
      (scanLines recur fs p l1 st acc).bind (fun r => scanLines recur fs p l2 r.1 r.2) := by
  induction l1 generalizing st acc with
  | nil => simp [scanLines]
  | cons a l ih =>
    simp only [List.cons_append, scanLines]
    cases h : scanLine recur fs p a st acc with
    | none => simp
    | some r => obtain ⟨s1, a1⟩ := r; simp [ih]

theorem scanDecl_cases (line : List Char) (st : ScanState) (acc : ParseAcc) :
    ((scanDecl line st acc).2 = acc ∧ ∃ b, (scanDecl line st acc).1 = { st with inTypeBlock := b }) ∨
    ((scanDecl line st acc).2 = acc ∧ st.inStruct = false ∧ extractStructName line ≠ [] ∧
      Contains line '{' = true ∧
      (scanDecl line st acc).1 =
        { st with currentStruct := some { Name := extractStructName line, Fields := [] },
                  inStruct := true, braceCount := braceDelta line }) ∨
    (∃ cur, st.inStruct = true ∧ st.currentStruct = some cur ∧
      (scanDecl line st acc).1 =
        { st with currentStruct := none, inStruct := false,
                  braceCount := st.braceCount + braceDelta line } ∧
      (scanDecl line st acc).2 =
        if cur.Fields.length > 0 then
          { acc with validateStructs := acc.validateStructs ++ [cur] } else acc) ∨
    (∃ cur f, st.inStruct = true ∧ st.currentStruct = some cur ∧ parseFieldLine line = some f ∧
      (scanDecl line st acc).1 =
        { st with braceCount := st.braceCount + braceDelta line,
                  currentStruct := some { cur with Fields := cur.Fields ++ [f] } } ∧
      (scanDecl line st acc).2 = acc) ∨
    ((scanDecl line st acc).2 = acc ∧
      (scanDecl line st acc).1 = { st with braceCount := st.braceCount + braceDelta line }) := by
  have hbody : 
      ((scanBody line st acc).2 = acc ∧ (scanBody line st acc).1 = st) ∨
      (∃ cur, st.inStruct = true ∧ st.currentStruct = some cur ∧
        (scanBody line st acc).1 =
          { st with currentStruct := none, inStruct := false,
                    braceCount := st.braceCount + braceDelta line } ∧
        (scanBody line st acc).2 =
          if cur.Fields.length > 0 then
            { acc with validateStructs := acc.validateStructs ++ [cur] } else acc) ∨
      (∃ cur f, st.inStruct = true ∧ st.currentStruct = some cur ∧ parseFieldLine line = some f ∧
        (scanBody line st acc).1 =
          { st with braceCount := st.braceCount + braceDelta line,
                    currentStruct := some { cur with Fields := cur.Fields ++ [f] } } ∧
        (scanBody line st acc).2 = acc) ∨
      ((scanBody line st acc).2 = acc ∧
        (scanBody line st acc).1 = { st with braceCount := st.braceCount + braceDelta line }) := by
    unfold scanBody
    split
    · rename_i hs hc
      simp only
      split
      · exact Or.inr (Or.inl ⟨_, hs, hc, rfl, rfl⟩)
      · split
        · rename_i f hf
          exact Or.inr (Or.inr (Or.inl ⟨_, f, hs, hc, hf, rfl, rfl⟩))
        · exact Or.inr (Or.inr (Or.inr ⟨rfl, rfl⟩))
    · exact Or.inl ⟨rfl, rfl⟩
  have hbody2 :
      ((scanBody line st acc).2 = acc ∧ ∃ b, (scanBody line st acc).1 = { st with inTypeBlock := b }) ∨
      (∃ cur, st.inStruct = true ∧ st.currentStruct = some cur ∧
        (scanBody line st acc).1 =
          { st with currentStruct := none, inStruct := false,
                    braceCount := st.braceCount + braceDelta line } ∧
        (scanBody line st acc).2 =
          if cur.Fields.length > 0 then
            { acc with validateStructs := acc.validateStructs ++ [cur] } else acc) ∨
      (∃ cur f, st.inStruct = true ∧ st.currentStruct = some cur ∧ parseFieldLine line = some f ∧
        (scanBody line st acc).1 =
          { st with braceCount := st.braceCount + braceDelta line,
                    currentStruct := some { cur with Fields := cur.Fields ++ [f] } } ∧
        (scanBody line st acc).2 = acc) ∨
      ((scanBody line st acc).2 = acc ∧
        (scanBody line st acc).1 = { st with braceCount := st.braceCount + braceDelta line }) := by
    rcases hbody with h | h | h | h
    · exact Or.inl ⟨h.1, st.inTypeBlock, h.2⟩
    · exact Or.inr (Or.inl h)
    · exact Or.inr (Or.inr (Or.inl h))
    · exact Or.inr (Or.inr (Or.inr h))
  unfold scanDecl
  split
  · exact Or.inl ⟨rfl, true, rfl⟩
  · split
    · exact Or.inl ⟨rfl, false, rfl⟩
    · split
      · exact Or.inl ⟨rfl, st.inTypeBlock, rfl⟩
      · unfold scanStruct
        split
        · rename_i hc
          simp only
          split
          · rename_i hn
            simp only [Bool.and_eq_true, Bool.not_eq_true', Bool.not_eq_eq_eq_not] at hc
            exact Or.inr (Or.inl ⟨rfl, hc.2, hn, hc.1, rfl⟩)
          · rcases hbody2 with h | h | h | h
            · exact Or.inl h
            · exact Or.inr (Or.inr (Or.inl h))
            · exact Or.inr (Or.inr (Or.inr (Or.inl h)))
            · exact Or.inr (Or.inr (Or.inr (Or.inr h)))
        · rcases hbody2 with h | h | h | h
          · exact Or.inl h
          · exact Or.inr (Or.inr (Or.inl h))
          · exact Or.inr (Or.inr (Or.inr (Or.inl h)))
          · exact Or.inr (Or.inr (Or.inr (Or.inr h)))

theorem parseFieldLine_rule (line : List Char) (f : ValidateField)
    (h : parseFieldLine line = some f) : f.ValidateRule ≠ [] := by
  unfold parseFieldLine at h
  split at h
  · exact absurd h (by simp)
  · split at h
    · simp only at h
      split at h
      · exact absurd h (by simp)
      · rename_i hv
        simp only [Option.some.injEq] at h
        rw [← h]
        exact hv
    · exact absurd h (by simp)

theorem scanLines_invariant (recur : Recur) (fs : FS) (p : List Char)
    (Inv : ScanState → ParseAcc → Prop)
    (hFlag : ∀ st acc b, Inv st acc → Inv { st with inImportBlock := b } acc)
    (hRec : ∀ st acc q acc1 e, Inv st acc → recur q acc = some (acc1, e) → Inv st acc1)
    (hDecl : ∀ line st acc, Inv st acc → Inv (scanDecl line st acc).1 (scanDecl line st acc).2)
    (lines : List (List Char)) (st : ScanState) (acc : ParseAcc) (st1 : ScanState)
    (acc1 : ParseAcc) (h0 : Inv st acc)
    (h : scanLines recur fs p lines st acc = some (st1, acc1)) : Inv st1 acc1 := by
  induction lines generalizing st acc with
  | nil =>
    simp only [scanLines, Option.some.injEq, Prod.mk.injEq] at h
    rw [← h.1, ← h.2]; exact h0
  | cons raw rest ih =>
    simp only [scanLines] at h
    cases hl : scanLine recur fs p raw st acc with
    | none => rw [hl] at h; exact absurd h (by simp)
    | some r =>
      obtain ⟨s2, a2⟩ := r
      rw [hl] at h
      refine ih s2 a2 ?_ h
      rcases scanLine_cases recur fs p raw st s2 acc a2 hl with ⟨ha, b, hs⟩ | ⟨hs, q, e, _, hr, _⟩ | ⟨_ , hd⟩
      · rw [ha, hs]; exact hFlag st acc b h0
      · rw [hs]; exact hRec st acc q a2 e h0 hr
      · have := hDecl (TrimSpace raw) st acc h0
        rw [← hd] at this
        exact this

theorem scanDecl_good (line : List Char) (st : ScanState) (acc : ParseAcc)
    (h : GoodCurrent st ∧ GoodOutput acc.validateStructs) :
    GoodCurrent (scanDecl line st acc).1 ∧ GoodOutput (scanDecl line st acc).2.validateStructs := by
  obtain ⟨hc, ho⟩ := h
  rcases scanDecl_cases line st acc with ⟨ha, b, hs⟩ | ⟨ha, _, _, _, hs⟩ | ⟨cur, _, hcur, hs, ha⟩ |
      ⟨cur, f, _, hcur, hf, hs, ha⟩ | ⟨ha, hs⟩
  · rw [ha, hs]; exact ⟨hc, ho⟩
  · rw [ha, hs]
    refine ⟨?_, ho⟩
    intro cur hcur
    simp only [Option.some.injEq] at hcur
    rw [← hcur]; simp
  · rw [ha, hs]
    refine ⟨fun cur h => by simp at h, ?_⟩
    split
    · rename_i hlen
      intro s hsmem
      simp only [List.mem_append, List.mem_singleton] at hsmem
      rcases hsmem with hsmem | hsmem
      · exact ho s hsmem
      · rw [hsmem]
        refine ⟨?_, hc cur hcur⟩
        intro hnil
        rw [hnil] at hlen
        simp at hlen
    · exact ho
  · rw [ha, hs]
    refine ⟨?_, ho⟩
    intro c hceq g hg
    simp only [Option.some.injEq] at hceq
    rw [← hceq] at hg
    simp only [List.mem_append, List.mem_singleton] at hg
    rcases hg with hg | hg
    · exact hc cur hcur g hg
    · rw [hg]; exact parseFieldLine_rule line f hf
  · rw [ha, hs]; exact ⟨hc, ho⟩

theorem parseAPIFileRecursively_good (fuel : Nat) (fs : FS) (p : List Char) (acc acc1 : ParseAcc)
    (e : Option ParseError) (h0 : GoodOutput acc.validateStructs)
    (h : parseAPIFileRecursively fuel fs p acc = some (acc1, e)) :
    GoodOutput acc1.validateStructs := by
  induction fuel generalizing p acc acc1 e with
  | zero => simp [parseAPIFileRecursively] at h
  | succ n ih =>
    simp only [parseAPIFileRecursively] at h
    split at h
    · simp only [Option.some.injEq, Prod.mk.injEq] at h
      rw [← h.1]; exact h0
    · split at h
      · split at h
        · exact absurd h (by simp)
        · rename_i s2 a2 hs
          simp only [Option.some.injEq, Prod.mk.injEq] at h
          rw [← h.1]
          refine (scanLines_invariant (parseAPIFileRecursively n fs) fs p
            (fun st a => GoodCurrent st ∧ GoodOutput a.validateStructs)
            (fun st a b hh => hh)
            (fun st a q a1 e1 hh hr => ⟨hh.1, ih q a a1 e1 hh.2 hr⟩)
            (fun line st a hh => scanDecl_good line st a hh)
            _ _ _ _ _ ?_ hs).2
          exact ⟨fun cur hc => (by cases hc), h0⟩
      · simp only [Option.some.injEq, Prod.mk.injEq] at h
        rw [← h.1]; exact h0

theorem Extends.refl (a : ParseAcc) : Extends a a :=
  ⟨List.prefix_refl _, List.suffix_refl _⟩

theorem Extends.trans {a b c : ParseAcc} (h1 : Extends a b) (h2 : Extends b c) : Extends a c :=
  ⟨h1.1.trans h2.1, h1.2.trans h2.2⟩

theorem scanDecl_extends (line : List Char) (st : ScanState) (acc : ParseAcc) :
    Extends acc (scanDecl line st acc).2 := by
  rcases scanDecl_cases line st acc with ⟨ha, _⟩ | ⟨ha, _⟩ | ⟨cur, _, _, _, ha⟩ |
      ⟨cur, f, _, _, _, _, ha⟩ | ⟨ha, _⟩
  · rw [ha]; exact Extends.refl _
  · rw [ha]; exact Extends.refl _
  · rw [ha]
    split
    · exact ⟨List.prefix_append _ _, List.suffix_refl _⟩
    · exact Extends.refl _
  · rw [ha]; exact Extends.refl _
  · rw [ha]; exact Extends.refl _

theorem scanDecl_processed (line : List Char) (st : ScanState) (acc : ParseAcc) :
    (scanDecl line st acc).2.processedFiles = acc.processedFiles := by
  rcases scanDecl_cases line st acc with ⟨ha, _⟩ | ⟨ha, _⟩ | ⟨cur, _, _, _, ha⟩ |
      ⟨cur, f, _, _, _, _, ha⟩ | ⟨ha, _⟩
  · rw [ha]
  · rw [ha]
  · rw [ha]; split <;> rfl
  · rw [ha]
  · rw [ha]

theorem parseAPIFileRecursively_extends (fuel : Nat) (fs : FS) (p : List Char)
    (acc acc1 : ParseAcc) (e : Option ParseError)
    (h : parseAPIFileRecursively fuel fs p acc = some (acc1, e)) :
    Extends acc acc1 ∧ (acc.processedFiles.Nodup → acc1.processedFiles.Nodup) := by
  induction fuel generalizing p acc acc1 e with
  | zero => simp [parseAPIFileRecursively] at h
  | succ n ih =>
    simp only [parseAPIFileRecursively] at h
    split at h
    · simp only [Option.some.injEq, Prod.mk.injEq] at h
      rw [← h.1]; exact ⟨Extends.refl _, id⟩
    · rename_i hp
      have hp2 : p ∉ acc.processedFiles := by simpa using hp
      have hstep : Extends acc { acc with processedFiles := p :: acc.processedFiles } :=
        ⟨List.prefix_refl _, List.suffix_cons _ _⟩
      split at h
      · split at h
        · exact absurd h (by simp)
        · rename_i s2 a2 hs
          simp only [Option.some.injEq, Prod.mk.injEq] at h
          rw [← h.1]
          have := scanLines_invariant (parseAPIFileRecursively n fs) fs p
            (fun _ a => Extends acc a ∧ (acc.processedFiles.Nodup → a.processedFiles.Nodup))
            (fun st a b hh => hh)
            (fun st a q a1 e1 hh hr =>
              ⟨hh.1.trans (ih q a a1 e1 hr).1, fun hn => (ih q a a1 e1 hr).2 (hh.2 hn)⟩)
            (fun line st a hh => ⟨hh.1.trans (scanDecl_extends line st a),
              fun hn => by rw [scanDecl_processed]; exact hh.2 hn⟩)
            _ _ _ _ _ ⟨hstep, fun hn => List.nodup_cons.mpr ⟨hp2, hn⟩⟩ hs
          exact this
      · simp only [Option.some.injEq, Prod.mk.injEq] at h
        rw [← h.1]; exact ⟨hstep, fun hn => List.nodup_cons.mpr ⟨hp2, hn⟩⟩

theorem unseen_mono (fs : FS) (P Q : List (List Char)) (h : P <:+ Q) :
    unseen fs Q ≤ unseen fs P := by
  unfold unseen
  apply List.countP_mono_left
  intro x _ hx
  simp only [List.elem_eq_mem, Bool.not_eq_true', decide_eq_false_iff_not] at hx ⊢
  exact fun hm => hx (h.subset hm)

theorem unseen_le_length (fs : FS) (P : List (List Char)) : unseen fs P ≤ fs.length :=
  List.countP_le_length _

theorem unseen_cons_lt (fs : FS) (P : List (List Char)) (p : List Char) (e : Entry)
    (hl : fs.lookup p = some e) (hp : p ∉ P) : unseen fs (p :: P) < unseen fs P := by
  unfold unseen
  induction fs with
  | nil => simp at hl
  | cons x rest ih =>
    obtain ⟨k, v⟩ := x
    have hmono : List.countP (fun e => !(p :: P).elem e.1) rest ≤
        List.countP (fun e => !P.elem e.1) rest := by
      apply List.countP_mono_left
      intro y _ hy
      simp only [List.elem_eq_mem, List.mem_cons, not_or, Bool.not_eq_true',
        decide_eq_false_iff_not] at hy ⊢
      exact hy.2
    by_cases hk : p = k
    · subst hk
      have h1 : (!(p :: P).elem p) = false := by simp
      have h2 : (!P.elem p) = true := by simpa using hp
      rw [List.countP_cons_of_neg _ _ (by simp), List.countP_cons_of_pos _ _ (by simpa using hp)]
      omega
    · have hl2 : rest.lookup p = some e := by
        rw [List.lookup_cons] at hl
        have : (p == k) = false := by simpa using hk
        rw [this] at hl
        exact hl
      have := ih hl2
      by_cases hkP : k ∈ P
      · rw [List.countP_cons_of_neg _ _ (by simp [hkP]), List.countP_cons_of_neg _ _ (by simp [hkP])]
        exact this
      · rw [List.countP_cons_of_pos _ _ (by simp [hkP, Ne.symm hk]),
          List.countP_cons_of_pos _ _ (by simp [hkP])]
        omega

theorem scanLines_isSome (recur : Recur) (fs : FS) (p : List Char) (Inv : ParseAcc → Prop)
    (hRec : ∀ q a, Inv a → ∃ a1 e, recur q a = some (a1, e) ∧ Inv a1)
    (hDecl : ∀ line st a, Inv a → Inv (scanDecl line st a).2)
    (lines : List (List Char)) (st : ScanState) (acc : ParseAcc) (h0 : Inv acc) :
    ∃ st1 acc1, scanLines recur fs p lines st acc = some (st1, acc1) ∧ Inv acc1 := by
  induction lines generalizing st acc with
  | nil => exact ⟨st, acc, rfl, h0⟩
  | cons raw rest ih =>
    have hstep : ∃ s2 a2, scanLine recur fs p raw st acc = some (s2, a2) ∧ Inv a2 := by
      unfold scanLine
      simp only
      split
      · exact ⟨_, _, rfl, h0⟩
      · split
        · exact ⟨_, _, rfl, h0⟩
        · split
          · split
            · obtain ⟨a1, e, hr, hi⟩ := hRec (parseImportPathFromLine fs (TrimSpace raw) p) acc h0
              exact ⟨st, a1, by simp [scanImport, hr], hi⟩
            · exact ⟨_, _, rfl, h0⟩
          · split
            · obtain ⟨a1, e, hr, hi⟩ := hRec (parseImportLine fs (TrimSpace raw) p) acc h0
              exact ⟨st, a1, by simp [scanImport, hr], hi⟩
            · exact ⟨_, _, rfl, hDecl _ _ _ h0⟩
    obtain ⟨s2, a2, hl, hi⟩ := hstep
    obtain ⟨s3, a3, hr, hi3⟩ := ih s2 a2 hi
    exact ⟨s3, a3, by simp [scanLines, hl, hr], hi3⟩

theorem parseAPIFileRecursively_isSome (fuel : Nat) (fs : FS) (p : List Char) (acc : ParseAcc)
    (h : unseen fs acc.processedFiles < fuel) :
    ∃ acc1 e, parseAPIFileRecursively fuel fs p acc = some (acc1, e) := by
  induction fuel generalizing p acc with
  | zero => omega
  | succ n ih =>
    simp only [parseAPIFileRecursively]
    split
    · exact ⟨_, _, rfl⟩
    · rename_i hp
      have hp2 : p ∉ acc.processedFiles := by simpa using hp
      split
      · rename_i lines scanErr hl
        have hlt : unseen fs (p :: acc.processedFiles) < n := by
          have := unseen_cons_lt fs acc.processedFiles p _ hl hp2
          omega
        obtain ⟨s1, a1, hs, _⟩ := scanLines_isSome (parseAPIFileRecursively n fs) fs p
          (fun a => unseen fs a.processedFiles < n)
          (fun q a ha => by
            obtain ⟨a1, e, hr⟩ := ih q a ha
            refine ⟨a1, e, hr, ?_⟩
            have := unseen_mono fs _ _ (parseAPIFileRecursively_extends n fs q a a1 e hr).1.2
            omega)
          (fun line st a ha => by
            show unseen fs (scanDecl line st a).2.processedFiles < n
            rw [scanDecl_processed]; exact ha)
          lines ScanState.init { acc with processedFiles := p :: acc.processedFiles } hlt
        rw [hs]
        exact ⟨_, _, rfl⟩
      · exact ⟨_, _, rfl⟩

theorem scanLines_mono (r1 r2 : Recur) (fs : FS) (p : List Char)
    (hr : ∀ q a x, r1 q a = some x → r2 q a = some x)
    (lines : List (List Char)) (st : ScanState) (acc : ParseAcc) (x : ScanState × ParseAcc)
    (h : scanLines r1 fs p lines st acc = some x) : scanLines r2 fs p lines st acc = some x := by
  induction lines generalizing st acc with
  | nil => exact h
  | cons raw rest ih =>
    simp only [scanLines] at h ⊢
    cases hl : scanLine r1 fs p raw st acc with
    | none => rw [hl] at h; exact absurd h (by simp)
    | some y =>
      rw [hl] at h
      have hl2 : scanLine r2 fs p raw st acc = some y := by
        unfold scanLine at hl ⊢
        simp only at hl ⊢
        split at hl
        · rename_i h1; rw [if_pos h1]; exact hl
        · rename_i h1
          rw [if_neg h1]
          split at hl
          · rename_i h2; rw [if_pos h2]; exact hl
          · rename_i h2
            rw [if_neg h2]
            split at hl
            · rename_i h3
              rw [if_pos h3]
              split at hl
              · rename_i h4
                rw [if_pos h4]
                unfold scanImport at hl ⊢
                split at hl
                · exact absurd hl (by simp)
                · rename_i a1 e1 hq
                  rw [hr _ _ _ hq]; exact hl
              · rename_i h4; rw [if_neg h4]; exact hl
            · rename_i h3
              rw [if_neg h3]
              split at hl
              · rename_i h4
                rw [if_pos h4]
                unfold scanImport at hl ⊢
                split at hl
                · exact absurd hl (by simp)
                · rename_i a1 e1 hq
                  rw [hr _ _ _ hq]; exact hl
              · rename_i h4; rw [if_neg h4]; exact hl
      rw [hl2]
      obtain ⟨s2, a2⟩ := y
      exact ih s2 a2 h

theorem parseAPIFileRecursively_fuel_succ (fuel : Nat) (fs : FS) (p : List Char) (acc : ParseAcc)
    (x : ParseAcc × Option ParseError) (h : parseAPIFileRecursively fuel fs p acc = some x) :
    parseAPIFileRecursively (fuel + 1) fs p acc = some x := by
  induction fuel generalizing p acc x with
  | zero => simp [parseAPIFileRecursively] at h
  | succ n ih =>
    rw [parseAPIFileRecursively] at h ⊢
    split
    · rename_i hp; rw [if_pos hp] at h; exact h
    · rename_i hp
      rw [if_neg hp] at h
      simp only at h ⊢
      split
      · rename_i lines scanErr hl
        rw [hl] at h
        simp only at h
        split at h
        · exact absurd h (by simp)
        · rename_i s2 a2 hs
          rw [scanLines_mono (parseAPIFileRecursively n fs) (parseAPIFileRecursively (n + 1) fs) fs p
            (fun q a y hy => ih q a y hy) _ _ _ _ hs]
          exact h
      · rename_i hl
        split at h
        · rename_i lines scanErr hl2
          exact absurd hl2 (hl lines scanErr)
        · exact h

theorem parseAPIFileRecursively_fuel_add (fuel extra : Nat) (fs : FS) (p : List Char)
    (acc : ParseAcc) (x : ParseAcc × Option ParseError)
    (h : parseAPIFileRecursively fuel fs p acc = some x) :
    parseAPIFileRecursively (fuel + extra) fs p acc = some x := by
  induction extra with
  | zero => exact h
  | succ k ih => exact parseAPIFileRecursively_fuel_succ (fuel + k) fs p acc x ih

theorem parseAPIFileForValidateStructs_run (fs : FS) (root : List Char) :
    ∃ acc e, parseAPIFileRecursively (fs.length + 1) fs root ParseAcc.empty = some (acc, e) ∧
      parseAPIFileForValidateStructs fs root =
        some (match e with | some _ => [] | none => acc.validateStructs, e) := by
  obtain ⟨acc, e, h⟩ := parseAPIFileRecursively_isSome (fs.length + 1) fs root ParseAcc.empty
    (by have := unseen_le_length fs ParseAcc.empty.processedFiles; omega)
  refine ⟨acc, e, h, ?_⟩
  unfold parseAPIFileForValidateStructs
  have h2 : parseAPIFileRecursively (fs.length + 1) fs root
      { validateStructs := [], processedFiles := [] } = some (acc, e) := h
  rw [h2]
  cases e <;> rfl

/-- C4. The parse terminates on every file-system table and every root path:
the fuel `parseAPIFileForValidateStructs` starts with is never used up, and
more fuel gives the same result.  A call of `parseAPIFileRecursively` on a
path already in the processed set returns at once with no error and leaves
the descriptors and the processed set as they were; a scan starts only on a
path that is not yet in the set and adds it, and the set after the parse
lists no path twice, so no path is scanned more than once. -/
theorem parse_terminates_each_path_once (fs : FS) (root : List Char) :
    (∃ r, parseAPIFileForValidateStructs fs root = some r) ∧
    (∃ acc e, (∀ extra, parseAPIFileRecursively (fs.length + 1 + extra) fs root ParseAcc.empty =
        some (acc, e)) ∧ acc.processedFiles.Nodup) ∧
    (∀ fuel p acc, p ∈ acc.processedFiles →
      parseAPIFileRecursively (fuel + 1) fs p acc = some (acc, none)) := by
  obtain ⟨acc, e, h, htop⟩ := parseAPIFileForValidateStructs_run fs root
  refine ⟨⟨_, htop⟩, ⟨acc, e, ?_, ?_⟩, ?_⟩
  · intro extra
    exact parseAPIFileRecursively_fuel_add _ extra fs root _ _ h
  · exact (parseAPIFileRecursively_extends _ fs root _ acc e h).2 List.nodup_nil
  · intro fuel p a hp
    simp [parseAPIFileRecursively, hp]

/-- C5. Output invariant: for every file-system table and every root path the
parse returns, and every descriptor it returns has at least one field and
every field of it has a non-empty validation rule. -/
theorem parse_output_fields_nonempty (fs : FS) (root : List Char) :
    ∃ recs e, parseAPIFileForValidateStructs fs root = some (recs, e) ∧
      ∀ s ∈ recs, s.Fields ≠ [] ∧ ∀ f ∈ s.Fields, f.ValidateRule ≠ [] := by
  obtain ⟨acc, e, h, htop⟩ := parseAPIFileForValidateStructs_run fs root
  refine ⟨_, e, htop, ?_⟩
  have hg := parseAPIFileRecursively_good _ fs root ParseAcc.empty acc e
    (fun s hs => by simp [ParseAcc.empty] at hs) h
  cases e with
  | none => exact hg
  | some err => intro s hs; simp at hs

theorem scanDecl_outside (line : List Char) (st : ScanState) (acc : ParseAcc)
    (ht : st.inTypeBlock = false) (hl : HasPrefix line "type (".toList = false) :
    scanDecl line st acc = (st, acc) := by
  unfold scanDecl
  rw [if_neg (by rw [hl]; simp)]
  rw [if_neg (by simp [ht])]
  rw [if_pos (by simp [ht])]

theorem scanLine_outside (recur : Recur) (fs : FS) (p raw : List Char) (st : ScanState)
    (acc : ParseAcc) (hi : NoImport raw) (hty : NoTypeOpen raw)
    (ht : st.inTypeBlock = false) (hb : st.inImportBlock = false) :
    scanLine recur fs p raw st acc = some (st, acc) := by
  unfold scanLine
  simp only
  rw [if_neg (by rw [hi.1]; simp)]
  rw [if_neg (by simp [hb])]
  rw [if_neg (by simp [hb])]
  have : parseImportLine fs (TrimSpace raw) p = [] := by
    unfold parseImportLine
    rw [hi.2]
  rw [this]
  simp only [ne_eq, not_true_eq_false, if_false]
  rw [scanDecl_outside _ _ _ ht hty]

theorem scanLines_outside (recur : Recur) (fs : FS) (p : List Char) (lines : List (List Char))
    (st : ScanState) (acc : ParseAcc) (hi : ∀ l ∈ lines, NoImport l ∧ NoTypeOpen l)
    (ht : st.inTypeBlock = false) (hb : st.inImportBlock = false) :
    scanLines recur fs p lines st acc = some (st, acc) := by
  induction lines with
  | nil => rfl
  | cons raw rest ih =>
    simp only [scanLines]
    rw [scanLine_outside recur fs p raw st acc (hi raw (by simp)).1 (hi raw (by simp)).2 ht hb]
    exact ih (fun l hl => hi l (by simp [hl]))

/-- A first call of `parseAPIFileRecursively` on a file that opens: the scan
of its lines, then the scanner's error. -/
theorem parseAPIFileRecursively_file (fuel : Nat) (fs : FS) (p : List Char) (acc : ParseAcc)
    (lines : List (List Char)) (scanErr : Bool) (hp : p ∉ acc.processedFiles)
    (hl : fs.lookup p = some (Entry.file lines scanErr)) :
    parseAPIFileRecursively (fuel + 1) fs p acc =
      (scanLines (parseAPIFileRecursively fuel fs) fs p lines ScanState.init
        { acc with processedFiles := p :: acc.processedFiles }).map
        (fun r => (r.2, if scanErr then some (ParseError.readFailed p) else none)) := by
  rw [parseAPIFileRecursively]
  rw [if_neg (by simpa using hp)]
  simp only [hl]
  cases scanLines (parseAPIFileRecursively fuel fs) fs p lines ScanState.init
    { validateStructs := acc.validateStructs, processedFiles := p :: acc.processedFiles } with
  | none => rfl
  | some r => rfl

/-- A first call of `parseAPIFileRecursively` on a path that does not open. -/
theorem parseAPIFileRecursively_noOpen (fuel : Nat) (fs : FS) (p : List Char) (acc : ParseAcc)
    (hp : p ∉ acc.processedFiles)
    (hl : fs.lookup p = none ∨ fs.lookup p = some Entry.locked) :
    parseAPIFileRecursively (fuel + 1) fs p acc =
      some ({ acc with processedFiles := p :: acc.processedFiles },
        some (ParseError.openFailed p)) := by
  rw [parseAPIFileRecursively]
  rw [if_neg (by simpa using hp)]
  rcases hl with hl | hl <;> simp only [hl]

/-- C10. A readable document in which no line opens a grouped import block, no
line matches the single-line import pattern and no line opens a grouped type
block yields no descriptor and no error, whatever else its lines hold (so a
record in the ungrouped form `type Name { ... }` yields nothing); and a line
met outside a grouped type block that does not open one changes neither the
descriptors nor the scan state. -/
theorem parse_no_import_no_type_block (fs : FS) (root : List Char) (lines : List (List Char))
    (hroot : fs.lookup root = some (Entry.file lines false))
    (hlines : ∀ l ∈ lines, NoImport l ∧ NoTypeOpen l) :
    parseAPIFileForValidateStructs fs root = some ([], none) ∧
    ∀ (line : List Char) (st : ScanState) (acc : ParseAcc),
      st.inTypeBlock = false → HasPrefix line "type (".toList = false →
      scanDecl line st acc = (st, acc) := by
  refine ⟨?_, fun line st acc ht hl => scanDecl_outside line st acc ht hl⟩
  unfold parseAPIFileForValidateStructs
  rw [parseAPIFileRecursively_file _ fs root _ lines false (by simp) hroot]
  rw [scanLines_outside _ fs root lines ScanState.init _ hlines rfl rfl]
  rfl

theorem parse_no_import_no_type_block_witness :
    parseAPIFileForValidateStructs [("user.api".toList, Entry.file ungroupedDoc false)]
      "user.api".toList = some ([], none) ∧
    scanDecl "Name string `validate:\"required\"`".toList ScanState.init ParseAcc.empty =
      (ScanState.init, ParseAcc.empty) :=
  ⟨(parse_no_import_no_type_block [("user.api".toList, Entry.file ungroupedDoc false)]
      "user.api".toList ungroupedDoc (by decide) (by decide)).1,
   (parse_no_import_no_type_block [("user.api".toList, Entry.file ungroupedDoc false)]
      "user.api".toList ungroupedDoc (by decide) (by decide)).2 _ ScanState.init ParseAcc.empty
      (by decide) (by decide)⟩

theorem scanDecl_uniform (line : List Char) (st : ScanState) :
    ∃ st1 new, ∀ acc, scanDecl line st acc =
      (st1, { acc with validateStructs := acc.validateStructs ++ new }) := by
  have hnil : ∀ (s : ScanState) (f : ParseAcc → ScanState × ParseAcc),
      (∀ acc, f acc = (s, acc)) → ∃ st1 new, ∀ acc, f acc =
        (st1, { acc with validateStructs := acc.validateStructs ++ new }) :=
    fun s f hf => ⟨s, [], fun acc => by rw [hf acc]; simp⟩
  have hbody : ∃ st1 new, ∀ acc, scanBody line st acc =
      (st1, { acc with validateStructs := acc.validateStructs ++ new }) := by
    unfold scanBody
    rcases hs : st.inStruct with _ | _
    · exact hnil st _ (fun acc => rfl)
    · rcases hc : st.currentStruct with _ | cur
      · exact hnil st _ (fun acc => rfl)
      · simp only
        by_cases hb : st.braceCount + (Count line '{' - Count line '}') ≤ 0
        · by_cases hf : cur.Fields.length > 0
          · exact ⟨_, [cur], fun acc => by rw [if_pos hb, if_pos hf]⟩
          · exact hnil _ _ (fun acc => by rw [if_pos hb, if_neg hf])
        · rcases hp : parseFieldLine line with _ | f
          · exact hnil _ _ (fun acc => by rw [if_neg hb])
          · exact hnil _ _ (fun acc => by rw [if_neg hb])
  unfold scanDecl
  by_cases h1 : HasPrefix line "type (".toList = true
  · exact hnil _ _ (fun acc => by rw [if_pos h1])
  · by_cases h2 : (st.inTypeBlock && line == ")".toList) = true
    · exact hnil _ _ (fun acc => by rw [if_neg h1, if_pos h2])
    · by_cases h3 : (!st.inTypeBlock) = true
      · exact hnil _ _ (fun acc => by rw [if_neg h1, if_neg h2, if_pos h3])
      · unfold scanStruct
        by_cases h4 : (Contains line '{' && !st.inStruct) = true
        · by_cases h5 : extractStructName line ≠ []
          · exact hnil _ _ (fun acc => by
              rw [if_neg h1, if_neg h2, if_neg h3, if_pos h4]; simp only; rw [if_pos h5])
          · obtain ⟨s1, new, hh⟩ := hbody
            exact ⟨s1, new, fun acc => by
              rw [if_neg h1, if_neg h2, if_neg h3, if_pos h4]; simp only; rw [if_neg h5]
              exact hh acc⟩
        · obtain ⟨s1, new, hh⟩ := hbody
          exact ⟨s1, new, fun acc => by
            rw [if_neg h1, if_neg h2, if_neg h3, if_neg h4]; exact hh acc⟩

theorem resolveImportPath_sameBut (root : List Char) (fs1 fs2 : FS) (h : SameBut root fs1 fs2)
    (ip cur : List Char) : resolveImportPath fs1 ip cur = resolveImportPath fs2 ip cur := by
  unfold resolveImportPath
  simp only [h.2]

theorem parseImportLine_sameBut (root : List Char) (fs1 fs2 : FS) (h : SameBut root fs1 fs2)
    (line cur : List Char) : parseImportLine fs1 line cur = parseImportLine fs2 line cur := by
  unfold parseImportLine
  split <;> simp [resolveImportPath_sameBut root fs1 fs2 h]

theorem parseImportPathFromLine_sameBut (root : List Char) (fs1 fs2 : FS)
    (h : SameBut root fs1 fs2) (line cur : List Char) :
    parseImportPathFromLine fs1 line cur = parseImportPathFromLine fs2 line cur := by
  unfold parseImportPathFromLine
  split <;> simp [resolveImportPath_sameBut root fs1 fs2 h]

theorem scanLine_sim (fs1 fs2 : FS) (root : List Char) (r1 r2 : Recur)
    (hfs : SameBut root fs1 fs2) (hr : RecurSim fs1 root r1 r2) (p raw : List Char)
    (st : ScanState) (a b : ParseAcc) (hab : AccSim fs1 root a b) :
    (scanLine r1 fs1 p raw st a = none ∧ scanLine r2 fs2 p raw st b = none) ∨
    (∃ st1 a1 b1, scanLine r1 fs1 p raw st a = some (st1, a1) ∧
      scanLine r2 fs2 p raw st b = some (st1, b1) ∧ AccSim fs1 root a1 b1) := by
  have himp : ∀ q, (scanImport r1 q st a = none ∧ scanImport r2 q st b = none) ∨
      (∃ st1 a1 b1, scanImport r1 q st a = some (st1, a1) ∧
        scanImport r2 q st b = some (st1, b1) ∧ AccSim fs1 root a1 b1) := by
    intro q
    unfold scanImport
    rcases hr q a b hab with ⟨h1, h2⟩ | ⟨a1, e1, b1, e2, h1, h2, h3⟩
    · rw [h1, h2]; exact Or.inl ⟨rfl, rfl⟩
    · rw [h1, h2]; exact Or.inr ⟨st, a1, b1, rfl, rfl, h3⟩
  unfold scanLine
  simp only
  rw [← parseImportLine_sameBut root fs1 fs2 hfs, ← parseImportPathFromLine_sameBut root fs1 fs2 hfs]
  split
  · exact Or.inr ⟨_, a, b, rfl, rfl, hab⟩
  · split
    · exact Or.inr ⟨_, a, b, rfl, rfl, hab⟩
    · split
      · split
        · exact himp _
        · exact Or.inr ⟨_, a, b, rfl, rfl, hab⟩
      · split
        · exact himp _
        · obtain ⟨s1, new, hh⟩ := scanDecl_uniform (TrimSpace raw) st
          rw [hh a, hh b]
          refine Or.inr ⟨s1, _, _, rfl, rfl, ?_⟩
          obtain ⟨h1, h2, h3, h4⟩ := hab
          exact ⟨by simp [h1], h2, h3, h4⟩

theorem scanLines_sim (fs1 fs2 : FS) (root : List Char) (r1 r2 : Recur)
    (hfs : SameBut root fs1 fs2) (hr : RecurSim fs1 root r1 r2) (p : List Char)
    (lines : List (List Char)) (st : ScanState) (a b : ParseAcc) (hab : AccSim fs1 root a b) :
    (scanLines r1 fs1 p lines st a = none ∧ scanLines r2 fs2 p lines st b = none) ∨
    (∃ st1 a1 b1, scanLines r1 fs1 p lines st a = some (st1, a1) ∧
      scanLines r2 fs2 p lines st b = some (st1, b1) ∧ AccSim fs1 root a1 b1) := by
  induction lines generalizing st a b with
  | nil => exact Or.inr ⟨st, a, b, rfl, rfl, hab⟩
  | cons raw rest ih =>
    simp only [scanLines]
    rcases scanLine_sim fs1 fs2 root r1 r2 hfs hr p raw st a b hab with
      ⟨h1, h2⟩ | ⟨s1, a1, b1, h1, h2, h3⟩
    · rw [h1, h2]; exact Or.inl ⟨rfl, rfl⟩
    · rw [h1, h2]; exact ih s1 a1 b1 h3

theorem parseAPIFileRecursively_sim (fs1 fs2 : FS) (root : List Char) (hfs : SameBut root fs1 fs2)
    (fuel : Nat) :
    RecurSim fs1 root (parseAPIFileRecursively fuel fs1) (parseAPIFileRecursively fuel fs2) := by
  induction fuel with
  | zero => intro q a b _; exact Or.inl ⟨rfl, rfl⟩
  | succ n ih =>
    intro q a b hab
    obtain ⟨h1, h2, h3, h4⟩ := hab
    by_cases hqa : q ∈ a.processedFiles
    · by_cases hqb : q ∈ b.processedFiles
      · refine Or.inr ⟨a, none, b, none, ?_, ?_, h1, h2, h3, h4⟩
        · simp [parseAPIFileRecursively, hqa]
        · simp [parseAPIFileRecursively, hqb]
      · have hno : ¬ Opens fs1 q := fun ho => hqb ((h4 q ho).mp hqa)
        have hne : q ≠ root := fun he => hqb (he ▸ h3)
        have hl2 : fs2.lookup q = none ∨ fs2.lookup q = some Entry.locked := by
          rw [← hfs.1 q hne]
          rcases hl : fs1.lookup q with _ | e
          · exact Or.inl rfl
          · cases e with
            | file lines se => exact absurd ⟨lines, se, hl⟩ hno
            | locked => exact Or.inr rfl
        refine Or.inr ⟨a, none, _, _, ?_, parseAPIFileRecursively_noOpen n fs2 q b hqb hl2,
          h1, h2, List.mem_cons_of_mem _ h3, ?_⟩
        · simp [parseAPIFileRecursively, hqa]
        · intro p hp
          have hpq : p ≠ q := fun he => hno (he ▸ hp)
          simp [hpq, h4 p hp]
    · have hne : q ≠ root := fun he => hqa (he ▸ h2)
      by_cases hqb : q ∈ b.processedFiles
      · have hno : ¬ Opens fs1 q := fun ho => hqa ((h4 q ho).mpr hqb)
        have hl1 : fs1.lookup q = none ∨ fs1.lookup q = some Entry.locked := by
          rcases hl : fs1.lookup q with _ | e
          · exact Or.inl rfl
          · cases e with
            | file lines se => exact absurd ⟨lines, se, hl⟩ hno
            | locked => exact Or.inr rfl
        refine Or.inr ⟨_, _, b, none, parseAPIFileRecursively_noOpen n fs1 q a hqa hl1, ?_,
          h1, List.mem_cons_of_mem _ h2, h3, ?_⟩
        · simp [parseAPIFileRecursively, hqb]
        · intro p hp
          have hpq : p ≠ q := fun he => hno (he ▸ hp)
          simp [hpq, h4 p hp]
      · have hab2 : AccSim fs1 root { a with processedFiles := q :: a.processedFiles }
            { b with processedFiles := q :: b.processedFiles } := by
          refine ⟨h1, List.mem_cons_of_mem _ h2, List.mem_cons_of_mem _ h3, ?_⟩
          intro p hp
          simp [h4 p hp]
        rcases hl : fs1.lookup q with _ | e
        · refine Or.inr ⟨_, _, _, _, parseAPIFileRecursively_noOpen n fs1 q a hqa (Or.inl hl),
            parseAPIFileRecursively_noOpen n fs2 q b hqb (Or.inl (by rw [← hfs.1 q hne]; exact hl)),
            hab2⟩
        · cases e with
          | locked =>
            refine Or.inr ⟨_, _, _, _, parseAPIFileRecursively_noOpen n fs1 q a hqa (Or.inr hl),
              parseAPIFileRecursively_noOpen n fs2 q b hqb
                (Or.inr (by rw [← hfs.1 q hne]; exact hl)), hab2⟩
          | file lines se =>
            rw [parseAPIFileRecursively_file n fs1 q a lines se hqa hl,
              parseAPIFileRecursively_file n fs2 q b lines se hqb (by rw [← hfs.1 q hne]; exact hl)]
            rcases scanLines_sim fs1 fs2 root _ _ hfs ih q lines ScanState.init _ _ hab2 with
              ⟨e1, e2⟩ | ⟨s1, a1, b1, e1, e2, e3⟩
            · rw [e1, e2]; exact Or.inl ⟨rfl, rfl⟩
            · rw [e1, e2]; exact Or.inr ⟨a1, _, b1, _, rfl, rfl, e3⟩

theorem scanDecl_importFlag (line : List Char) (st : ScanState) (acc : ParseAcc) :
    (scanDecl line st acc).1.inImportBlock = st.inImportBlock := by
  rcases scanDecl_cases line st acc with ⟨_, b, hs⟩ | ⟨_, _, _, _, hs⟩ | ⟨cur, _, _, hs, _⟩ |
      ⟨cur, f, _, _, _, hs, _⟩ | ⟨_, hs⟩ <;> rw [hs]

theorem scanLine_import (recur : Recur) (fs : FS) (p raw : List Char) (st : ScanState)
    (acc : ParseAcc) (h : importTarget fs p st.inImportBlock raw ≠ []) :
    scanLine recur fs p raw st acc =
      scanImport recur (importTarget fs p st.inImportBlock raw) st acc := by
  unfold importTarget at h ⊢
  unfold scanLine
  simp only at h ⊢
  split
  · rename_i h1; rw [if_pos h1] at h; exact absurd rfl h
  · rename_i h1
    rw [if_neg h1] at h
    split
    · rename_i h2; rw [if_pos h2] at h; exact absurd rfl h
    · rename_i h2
      rw [if_neg h2] at h
      split
      · rename_i h3; rw [if_pos h3] at h; rw [if_pos h]
      · rename_i h3; rw [if_neg h3] at h; rw [if_pos h]

theorem scanLine_importFlag (recur : Recur) (fs : FS) (p raw : List Char) (st st1 : ScanState)
    (acc acc1 : ParseAcc) (h : scanLine recur fs p raw st acc = some (st1, acc1)) :
    st1.inImportBlock = nextImportFlag (TrimSpace raw) st.inImportBlock := by
  unfold scanLine at h
  unfold nextImportFlag
  simp only at h
  split at h
  · rename_i h1
    simp only [Option.some.injEq, Prod.mk.injEq] at h
    rw [if_pos h1, ← h.1]
  · rename_i h1
    rw [if_neg h1]
    split at h
    · rename_i h2
      simp only [Option.some.injEq, Prod.mk.injEq] at h
      rw [if_pos h2, ← h.1]
    · rename_i h2
      rw [if_neg h2]
      split at h
      · split at h
        · unfold scanImport at h
          split at h
          · exact absurd h (by simp)
          · simp only [Option.some.injEq, Prod.mk.injEq] at h
            rw [← h.1]
        · simp only [Option.some.injEq, Prod.mk.injEq] at h
          rw [← h.1]
      · split at h
        · unfold scanImport at h
          split at h
          · exact absurd h (by simp)
          · simp only [Option.some.injEq, Prod.mk.injEq] at h
            rw [← h.1]
        · simp only [Option.some.injEq] at h
          have := scanDecl_importFlag (TrimSpace raw) st acc
          rw [h] at this
          exact this

theorem scanLines_importFlag (recur : Recur) (fs : FS) (p : List Char)
    (lines : List (List Char)) (st st1 : ScanState) (acc acc1 : ParseAcc)
    (h : scanLines recur fs p lines st acc = some (st1, acc1)) :
    st1.inImportBlock = importFlagAfter lines st.inImportBlock := by
  induction lines generalizing st acc with
  | nil =>
    simp only [scanLines, Option.some.injEq, Prod.mk.injEq] at h
    rw [← h.1]; rfl
  | cons raw rest ih =>
    simp only [scanLines] at h
    cases hl : scanLine recur fs p raw st acc with
    | none => rw [hl] at h; exact absurd h (by simp)
    | some r =>
      obtain ⟨s2, a2⟩ := r
      rw [hl] at h
      rw [ih s2 a2 h, scanLine_importFlag recur fs p raw st s2 acc a2 hl]
      rfl

theorem parseAPIFileForValidateStructs_readable (fs : FS) (root : List Char)
    (lines : List (List Char)) (h : fs.lookup root = some (Entry.file lines false)) :
    parseAPIFileForValidateStructs fs root =
      (scanLines (parseAPIFileRecursively fs.length fs) fs root lines ScanState.init
        { validateStructs := [], processedFiles := [root] }).map
        (fun r => (r.2.validateStructs, none)) := by
  unfold parseAPIFileForValidateStructs
  rw [parseAPIFileRecursively_file _ fs root _ lines false (by simp) h]
  cases scanLines (parseAPIFileRecursively fs.length fs) fs root lines ScanState.init
    { validateStructs := [], processedFiles := [root] } with
  | none => rfl
  | some r => rfl

theorem parseAPIFileForValidateStructs_readable_some (fs : FS) (root : List Char)
    (lines : List (List Char)) (h : fs.lookup root = some (Entry.file lines false)) :
    ∃ recs, parseAPIFileForValidateStructs fs root = some (recs, none) := by
  obtain ⟨acc, e, _, htop⟩ := parseAPIFileForValidateStructs_run fs root
  rw [parseAPIFileForValidateStructs_readable fs root lines h] at htop
  rw [parseAPIFileForValidateStructs_readable fs root lines h]
  cases hs : scanLines (parseAPIFileRecursively fs.length fs) fs root lines ScanState.init
    { validateStructs := [], processedFiles := [root] } with
  | none => rw [hs] at htop; exact absurd htop (by simp)
  | some r => exact ⟨_, rfl⟩

theorem sameBut_replace (root : List Char) (e1 e2 : Entry) (rest : FS) :
    SameBut root ((root, e1) :: rest) ((root, e2) :: rest) := by
  constructor
  · intro p hp
    have : (p == root) = false := by simpa using hp
    simp [List.lookup_cons, this]
  · intro p
    unfold statOk
    by_cases hp : p = root
    · subst hp; simp [List.lookup_cons]
    · have : (p == root) = false := by simpa using hp
      simp [List.lookup_cons, this]

/-- An import of a path that does not open only marks the path as processed. -/
theorem scanImport_noOpen (fuel : Nat) (fs : FS) (root q : List Char) (st : ScanState)
    (a b : ParseAcc) (hab : AccSim fs root a b)
    (hq : fs.lookup q = none ∨ fs.lookup q = some Entry.locked) :
    ∃ a1, scanImport (parseAPIFileRecursively (fuel + 1) fs) q st a = some (st, a1) ∧
      AccSim fs root a1 b := by
  have hno : ¬ Opens fs q := by
    rintro ⟨lines, e, hl⟩
    rcases hq with hq | hq <;> rw [hq] at hl <;> cases hl
  unfold scanImport
  by_cases hqa : q ∈ a.processedFiles
  · refine ⟨a, ?_, hab⟩
    simp [parseAPIFileRecursively, hqa]
  · rw [parseAPIFileRecursively_noOpen fuel fs q a hqa hq]
    refine ⟨_, rfl, hab.1, List.mem_cons_of_mem _ hab.2.1, hab.2.2.1, ?_⟩
    intro p hp
    have hpq : p ≠ q := fun he => hno (he ▸ hp)
    simp [hpq, hab.2.2.2 p hp]

theorem parse_skip_unopenable_import (rest : FS) (root pre_l : List Char)
    (pre post : List (List Char)) (q : List Char)
    (hq : importTarget ((root, Entry.file (pre ++ pre_l :: post) false) :: rest) root
      (importFlagAfter pre false) pre_l = q)
    (hne : q ≠ [])
    (hl : List.lookup q ((root, Entry.file (pre ++ pre_l :: post) false) :: rest) = none ∨
      List.lookup q ((root, Entry.file (pre ++ pre_l :: post) false) :: rest) =
        some Entry.locked) :
    parseAPIFileForValidateStructs ((root, Entry.file (pre ++ pre_l :: post) false) :: rest) root =
      parseAPIFileForValidateStructs ((root, Entry.file (pre ++ post) false) :: rest) root := by
  rw [parseAPIFileForValidateStructs_readable _ root (pre ++ pre_l :: post) (by simp [List.lookup_cons]),
    parseAPIFileForValidateStructs_readable _ root (pre ++ post) (by simp [List.lookup_cons])]
  have hfs := sameBut_replace root (Entry.file (pre ++ pre_l :: post) false)
    (Entry.file (pre ++ post) false) rest
  simp only [List.length_cons]
  have hsim := parseAPIFileRecursively_sim _ _ root hfs (rest.length + 1)
  have h0 : AccSim ((root, Entry.file (pre ++ pre_l :: post) false) :: rest) root
      { validateStructs := [], processedFiles := [root] }
      { validateStructs := [], processedFiles := [root] } :=
    ⟨rfl, by simp, by simp, fun _ _ => Iff.rfl⟩
  rw [scanLines_append, scanLines_append]
  rcases scanLines_sim _ _ root _ _ hfs hsim root pre ScanState.init _ _ h0 with
    ⟨e1, e2⟩ | ⟨s1, a1, b1, e1, e2, e3⟩
  · rw [e1, e2]; rfl
  · rw [e1, e2]
    simp only [Option.some_bind, scanLines]
    have hflag : s1.inImportBlock = importFlagAfter pre false :=
      scanLines_importFlag _ _ _ _ _ _ _ _ e1
    rw [← hflag] at hq
    rw [scanLine_import _ _ _ _ _ _ (by rw [hq]; exact hne), hq]
    obtain ⟨a2, ha2, hsim2⟩ := scanImport_noOpen rest.length _ root q s1 a1 b1 e3 hl
    rw [ha2]
    simp only
    rcases scanLines_sim _ _ root _ _ hfs hsim root post s1 a2 b1 hsim2 with
      ⟨e4, e5⟩ | ⟨s3, a3, b3, e4, e5, e6⟩
    · rw [e4, e5]
    · rw [e4, e5]
      simp only [Option.map_some', e6.1]

theorem scanLines_extends (fuel : Nat) (fs : FS) (p : List Char) (lines : List (List Char))
    (st st1 : ScanState) (acc acc1 : ParseAcc)
    (h : scanLines (parseAPIFileRecursively fuel fs) fs p lines st acc = some (st1, acc1)) :
    Extends acc acc1 :=
  scanLines_invariant (parseAPIFileRecursively fuel fs) fs p (fun _ a => Extends acc a)
    (fun _ _ _ hh => hh)
    (fun _ a q a1 e1 hh hr => hh.trans (parseAPIFileRecursively_extends fuel fs q a a1 e1 hr).1)
    (fun line s a hh => hh.trans (scanDecl_extends line s a))
    lines st acc st1 acc1 (Extends.refl acc) h

theorem scanDecl_fields (line : List Char) (st : ScanState) (acc : ParseAcc)
    (cur : ValidateStruct) (hs : st.inStruct = true) (hc : st.currentStruct = some cur) :
    ((scanDecl line st acc).1.currentStruct = some cur ∧ (scanDecl line st acc).2 = acc) ∨
    (∃ f, parseFieldLine line = some f ∧
      (scanDecl line st acc).1.currentStruct =
        some { Name := cur.Name, Fields := cur.Fields ++ [f] } ∧
      (scanDecl line st acc).2 = acc) ∨
    ((scanDecl line st acc).1.currentStruct = none ∧
      (scanDecl line st acc).2.processedFiles = acc.processedFiles ∧
      (scanDecl line st acc).2.validateStructs =
        acc.validateStructs ++ (if cur.Fields.length > 0 then [cur] else [])) := by
  rcases scanDecl_cases line st acc with ⟨ha, b, hst⟩ | ⟨_, hns, _⟩ | ⟨c, _, hcur, hst, ha⟩ |
      ⟨c, f, _, hcur, hf, hst, ha⟩ | ⟨ha, hst⟩
  · exact Or.inl ⟨by rw [hst]; exact hc, ha⟩
  · rw [hs] at hns; cases hns
  · rw [hc] at hcur
    simp only [Option.some.injEq] at hcur
    subst hcur
    refine Or.inr (Or.inr ⟨by rw [hst], ?_, ?_⟩)
    · rw [ha]; split <;> rfl
    · rw [ha]; split <;> simp
  · rw [hc] at hcur
    simp only [Option.some.injEq] at hcur
    subst hcur
    exact Or.inr (Or.inl ⟨f, hf, by rw [hst], ha⟩)
  · exact Or.inl ⟨by rw [hst]; exact hc, ha⟩

theorem scanLines_userDoc (recur : Recur) (fs : FS) (root : List Char) :
    scanLines recur fs root userDoc ScanState.init
      { validateStructs := [], processedFiles := [root] } =
    some ({ ScanState.init with braceCount := 0 },
      { validateStructs := [userRecord], processedFiles := [root] }) := by
  rfl

/-- C1. For every table and every root path whose file holds the document
`type (`, `User {`, the field line of `Name` with the tags
`validate:"required" json:"name"`, the field line of `Age` with the tag
`json:"age"`, `}`, `)`, the parse returns no error and exactly one
descriptor: `User`, with the single field `Name` of type `string`, rule
`required` and json key `name`; no field of a returned descriptor is named
`Age`. -/
theorem parse_user_example (fs : FS) (root : List Char)
    (hroot : fs.lookup root = some (Entry.file userDoc false)) :
    ∃ recs, parseAPIFileForValidateStructs fs root = some (recs, none) ∧
      recs = [{ Name := "User".toList,
                Fields := [{ Name := "Name".toList, Typ := "string".toList,
                             ValidateRule := "required".toList,
                             JsonTag := "name".toList }] }] ∧
      ∀ s ∈ recs, ∀ f ∈ s.Fields, f.Name ≠ "Age".toList := by
  refine ⟨[userRecord], ?_, rfl, ?_⟩
  · rw [parseAPIFileForValidateStructs_readable fs root userDoc hroot, scanLines_userDoc]
    rfl
  · intro s hs f hf
    simp only [List.mem_singleton] at hs
    rw [hs] at hf
    simp only [userRecord, List.mem_singleton] at hf
    rw [hf]
    decide

theorem parse_user_example_witness :
    ∃ recs, parseAPIFileForValidateStructs [("user.api".toList, Entry.file userDoc false)]
        "user.api".toList = some (recs, none) ∧
      recs = [{ Name := "User".toList,
                Fields := [{ Name := "Name".toList, Typ := "string".toList,
                             ValidateRule := "required".toList,
                             JsonTag := "name".toList }] }] ∧
      ∀ s ∈ recs, ∀ f ∈ s.Fields, f.Name ≠ "Age".toList :=
  parse_user_example [("user.api".toList, Entry.file userDoc false)] "user.api".toList
    (by decide)

theorem nameCount_append (n : List Char) (l1 l2 : List (List Char)) :
    nameCount n (l1 ++ l2) = nameCount n l1 + nameCount n l2 := by
  unfold nameCount; exact List.countP_append _ _ _

theorem nameCount_nil (n : List Char) : nameCount n [] = 0 := rfl

theorem nodup_of_nameCount_le_one (l : List (List Char)) :
    l.Nodup ↔ ∀ n, nameCount n l ≤ 1 := by
  rw [List.nodup_iff_count_le_one]
  constructor
  · intro h n
    have := h n
    simpa [nameCount, List.count, beq_iff_eq] using this
  · intro h n
    have := h n
    simpa [nameCount, List.count, beq_iff_eq] using this

/-- C7, as stated, fails: a document that declares two qualifying records
named `A` yields two descriptors named `A`. -/
theorem parse_names_not_distinct :
    parseAPIFileForValidateStructs [("dup.api".toList, Entry.file dupDoc false)] "dup.api".toList =
      some ([⟨"A".toList, [⟨"X".toList, "int".toList, "required".toList, []⟩]⟩,
             ⟨"A".toList, [⟨"Y".toList, "int".toList, "required".toList, []⟩]⟩], none) ∧
    ¬ ∀ recs e, parseAPIFileForValidateStructs [("dup.api".toList, Entry.file dupDoc false)]
        "dup.api".toList = some (recs, e) → (outNames recs).Nodup := by
  refine ⟨by decide, fun h => ?_⟩
  have := h _ _ (by decide :
    parseAPIFileForValidateStructs [("dup.api".toList, Entry.file dupDoc false)] "dup.api".toList =
      some ([⟨"A".toList, [⟨"X".toList, "int".toList, "required".toList, []⟩]⟩,
             ⟨"A".toList, [⟨"Y".toList, "int".toList, "required".toList, []⟩]⟩], none))
  revert this
  decide

/-- C2, at the failing input.  The record `A` has a field and no validate tag.
Written on one line and followed by the record `B`, it is returned, with the
field of `B`, and `B` is not; written over three lines it is discarded and
`B` is returned. -/
theorem one_line_record_not_discarded :
    parseAPIFileForValidateStructs [("r.api".toList, Entry.file oneLineDoc false)]
      "r.api".toList =
      some ([⟨"A".toList, [⟨"Y".toList, "string".toList, "required".toList, []⟩]⟩], none) ∧
    parseAPIFileForValidateStructs [("r.api".toList, Entry.file manyLineDoc false)]
      "r.api".toList =
      some ([⟨"B".toList, [⟨"Y".toList, "string".toList, "required".toList, []⟩]⟩], none) := by
  constructor <;> decide

/-- C3, at the failing input.  `a.api` and `b.api` import one another and
declare one qualifying record each.  Called on the spelling `./a.api` the
parse returns three descriptors, the record of `a.api` twice; called on the
spelling `a.api` it returns two. -/
theorem cyclic_import_unclean_root_three_records :
    parseAPIFileForValidateStructs cycleFS "./a.api".toList =
      some ([⟨"A".toList, [⟨"X".toList, "int".toList, "required".toList, []⟩]⟩,
             ⟨"B".toList, [⟨"Y".toList, "int".toList, "required".toList, []⟩]⟩,
             ⟨"A".toList, [⟨"X".toList, "int".toList, "required".toList, []⟩]⟩], none) ∧
    parseAPIFileForValidateStructs cycleFS "a.api".toList =
      some ([⟨"B".toList, [⟨"Y".toList, "int".toList, "required".toList, []⟩]⟩,
             ⟨"A".toList, [⟨"X".toList, "int".toList, "required".toList, []⟩]⟩], none) := by
  constructor <;> decide

/-- C9, at the failing inputs.  The path `missing.api` does not exist.  With
the import line the parse returns the record `User`; without it, the record
`Empty` with the field of `User`.  The path `x}.api` does not exist either.
With its import line inside the body of `User` the parse returns nothing;
without it, the record `User`. -/
theorem missing_import_line_not_inert :
    statOk [("r.api".toList, Entry.file missingImportDoc false)] "missing.api".toList = false ∧
    parseAPIFileForValidateStructs [("r.api".toList, Entry.file missingImportDoc false)]
      "r.api".toList =
      some ([⟨"User".toList, [⟨"Name".toList, "string".toList, "required".toList, []⟩]⟩], none) ∧
    parseAPIFileForValidateStructs [("r.api".toList, Entry.file missingImportDocRemoved false)]
      "r.api".toList =
      some ([⟨"Empty".toList, [⟨"Name".toList, "string".toList, "required".toList, []⟩]⟩], none) ∧
    statOk [("r.api".toList, Entry.file braceImportDoc false)] "x\x7d.api".toList = false ∧
    parseAPIFileForValidateStructs [("r.api".toList, Entry.file braceImportDoc false)]
      "r.api".toList = some ([], none) ∧
    parseAPIFileForValidateStructs [("r.api".toList, Entry.file braceImportDocRemoved false)]
      "r.api".toList =
      some ([⟨"User".toList, [⟨"Name".toList, "string".toList, "required".toList, []⟩]⟩], none) := by
  refine ⟨by decide, by decide, by decide, by decide, by decide, by decide⟩

theorem parse_terminates_each_path_once_witness :
    (∃ r, parseAPIFileForValidateStructs cycleFS "a.api".toList = some r) ∧
    parseAPIFileRecursively 1 cycleFS "b.api".toList
        { validateStructs := [], processedFiles := ["b.api".toList, "a.api".toList] } =
      some ({ validateStructs := [], processedFiles := ["b.api".toList, "a.api".toList] }, none) :=
  ⟨(parse_terminates_each_path_once cycleFS "a.api".toList).1,
   (parse_terminates_each_path_once cycleFS "a.api".toList).2.2 0 "b.api".toList
      { validateStructs := [], processedFiles := ["b.api".toList, "a.api".toList] }
      (by decide)⟩

theorem tryDown_hit {α : Type} (f : Nat → Option α) (lo n : Nat) (r : α) (hlo : lo ≤ n)
    (h : f n = some r) : tryDown f lo n = some r := by
  cases n with
  | zero =>
    have : lo = 0 := by omega
    simp [tryDown, this, h]
  | succ k =>
    rw [tryDown, if_neg (by omega), h]

theorem tryDown_miss {α : Type} (f : Nat → Option α) (lo n : Nat) (hlo : lo ≤ n + 1)
    (h : f (n + 1) = none) : tryDown f lo (n + 1) = tryDown f lo n := by
  rw [tryDown, if_neg (by omega), h]

theorem spanLen_append (p : Char → Bool) (xs rest : List Char) (hxs : ∀ c ∈ xs, p c = true)
    (hrest : ∀ d ds, rest = d :: ds → p d = false) : spanLen p (xs ++ rest) = xs.length := by
  induction xs with
  | nil =>
    cases rest with
    | nil => rfl
    | cons d ds => simp [spanLen, hrest d ds rfl]
  | cons c cs ih =>
    have ih2 := ih (fun c hc => hxs c (by simp [hc]))
    simp only [List.cons_append, spanLen, hxs c (by simp), if_true, List.length_cons]
    exact congrArg (· + 1) ih2

theorem matchHere_star (p : Char → Bool) (re : List Atom) (xs rest : List Char)
    (r : List (List Char)) (hxs : ∀ c ∈ xs, p c = true)
    (hrest : ∀ d ds, rest = d :: ds → p d = false) (h : matchHere re rest = some r) :
    matchHere (Atom.star p :: re) (xs ++ rest) = some r := by
  rw [matchHere, spanLen_append p xs rest hxs hrest]
  exact tryDown_hit _ 0 _ r (Nat.zero_le _) (by simp [h])

theorem matchHere_plus (p : Char → Bool) (re : List Atom) (xs rest : List Char)
    (r : List (List Char)) (hne : xs ≠ []) (hxs : ∀ c ∈ xs, p c = true)
    (hrest : ∀ d ds, rest = d :: ds → p d = false) (h : matchHere re rest = some r) :
    matchHere (Atom.plus p :: re) (xs ++ rest) = some r := by
  rw [matchHere, spanLen_append p xs rest hxs hrest]
  refine tryDown_hit _ 1 _ r ?_ (by simp [h])
  cases xs with
  | nil => exact absurd rfl hne
  | cons c cs => simp

theorem matchHere_lits (w : List Char) (re : List Atom) (s : List Char) :
    matchHere (lits w ++ re) s =
      if HasPrefix s w = true then matchHere re (s.drop w.length) else none := by
  induction w generalizing s with
  | nil => simp [lits, HasPrefix]
  | cons c cs ih =>
    cases s with
    | nil => simp [lits, matchHere, HasPrefix, List.isPrefixOf]
    | cons d ds =>
      have ih2 := ih ds
      simp only [lits, List.map_cons, List.cons_append, matchHere, HasPrefix,
        List.isPrefixOf, List.length_cons, List.drop_succ_cons, Bool.and_eq_true, beq_iff_eq]
        at ih2 ⊢
      by_cases hdc : d = c
      · subst hdc
        simp only [if_true, true_and]
        exact ih2
      · have hcd : ¬ c = d := fun h => hdc h.symm
        simp [hdc, hcd]

theorem findMatch_hit (re : List Atom) (s : List Char) (r : List (List Char))
    (h : matchHere re s = some r) : findMatch re s = some r := by
  cases s with
  | nil => simpa [findMatch] using h
  | cons c cs => simp [findMatch, h]

theorem findMatch_skip (re : List Atom) (a s : List Char)
    (h : ∀ i, i < a.length → matchHere re ((a ++ s).drop i) = none) :
    findMatch re (a ++ s) = findMatch re s := by
  induction a with
  | nil => rfl
  | cons c cs ih =>
    have h0 := h 0 (by simp)
    simp only [List.drop_zero] at h0
    simp only [List.cons_append] at h0 ⊢
    rw [findMatch, h0]
    exact ih (fun i hi => by
      have := h (i + 1) (by simp; omega)
      simpa using this)

theorem findMatch_none (re : List Atom) (s : List Char)
    (h : ∀ i, i ≤ s.length → matchHere re (s.drop i) = none) : findMatch re s = none := by
  have h1 := findMatch_skip re s [] (fun i hi => by
    simpa using h i (by omega))
  have h2 := h s.length (Nat.le_refl _)
  simp only [List.append_nil] at h1
  rw [h1, findMatch]
  simpa using h2

theorem between_append (xs rest : List Char) : between (xs ++ rest) rest = xs := by
  simp [between]

theorem isPrefixOf_append_right (w x y : List Char) (h : w.length ≤ x.length) :
    w.isPrefixOf (x ++ y) = w.isPrefixOf x := by
  induction w generalizing x with
  | nil => simp [List.isPrefixOf]
  | cons c cs ih =>
    cases x with
    | nil => simp at h
    | cons d ds =>
      have ih2 := ih ds (by simpa using h)
      simp only [List.cons_append, List.isPrefixOf]
      exact congrArg (fun t => (c == d && t)) ih2

theorem isPrefixOf_self_append (w y : List Char) : w.isPrefixOf (w ++ y) = true := by
  induction w with
  | nil => simp [List.isPrefixOf]
  | cons c cs ih => simp [List.isPrefixOf, ih]

theorem findMatch_keyValue (key a v b : List Char) (hfirst : FirstAt key a)
    (hv : ∀ c ∈ v, notQuote c = true) :
    FindStringSubmatch (keyValueRe key) (a ++ (key ++ (v ++ '"' :: b))) = some [v] := by
  have hskip : findMatch (keyValueRe key) (a ++ (key ++ (v ++ '"' :: b))) =
      findMatch (keyValueRe key) (key ++ (v ++ '"' :: b)) := by
    apply findMatch_skip
    intro i hi
    rw [keyValueRe, matchHere_lits]
    have h1 : (a ++ (key ++ (v ++ '"' :: b))).drop i =
        (a ++ key).drop i ++ (v ++ '"' :: b) := by
      rw [← List.append_assoc, List.drop_append_of_le_length (by simp; omega)]
    have h2 : HasPrefix ((a ++ (key ++ (v ++ '"' :: b))).drop i) key = false := by
      rw [h1]
      unfold HasPrefix
      rw [isPrefixOf_append_right _ _ _ (by simp; omega)]
      exact hfirst i hi
    rw [h2]
    simp
  have hhere : matchHere (keyValueRe key) (key ++ (v ++ '"' :: b)) =
      some [v ++ '"' :: b, '"' :: b] := by
    rw [keyValueRe, matchHere_lits]
    have h3 : HasPrefix (key ++ (v ++ '"' :: b)) key = true := isPrefixOf_self_append _ _
    rw [h3, if_pos rfl, List.drop_left]
    have hs : matchHere [Atom.star notQuote, Atom.gClose, Atom.ch '"'] (v ++ '"' :: b) =
        some ['"' :: b] :=
      matchHere_star notQuote _ v ('"' :: b) ['"' :: b] hv
        (fun d ds hd => by
          simp only [List.cons.injEq] at hd
          rw [← hd.1]; decide)
        rfl
    show Option.map (fun r => (v ++ '"' :: b) :: r)
      (matchHere [Atom.star notQuote, Atom.gClose, Atom.ch '"'] (v ++ '"' :: b)) = _
    rw [hs]
    rfl
  unfold FindStringSubmatch
  rw [hskip, findMatch_hit _ _ _ hhere]
  simp [groups, between_append]

theorem findMatch_keyAbsent (key s : List Char) (h : Absent key s) :
    FindStringSubmatch (keyValueRe key) s = none := by
  unfold FindStringSubmatch
  rw [findMatch_none]
  · rfl
  · intro i hi
    rw [keyValueRe, matchHere_lits, h i (by omega)]
    simp

theorem extractValidateFromTags_first (a v b : List Char)
    (hfirst : FirstAt "validate:\"".toList a) (hv : ∀ c ∈ v, notQuote c = true) :
    extractValidateFromTags (a ++ ("validate:\"".toList ++ (v ++ '"' :: b))) = v := by
  unfold extractValidateFromTags
  have := findMatch_keyValue "validate:\"".toList a v b hfirst hv
  rw [show validateRe = keyValueRe "validate:\"".toList from rfl, this]

theorem extractValidateFromTags_absent (s : List Char) (h : Absent "validate:\"".toList s) :
    extractValidateFromTags s = [] := by
  unfold extractValidateFromTags
  rw [show validateRe = keyValueRe "validate:\"".toList from rfl, findMatch_keyAbsent _ _ h]

theorem extractJsonFromTags_first (a v b : List Char)
    (hfirst : FirstAt "json:\"".toList a) (hv : ∀ c ∈ v, notQuote c = true) :
    extractJsonFromTags (a ++ ("json:\"".toList ++ (v ++ '"' :: b))) = v := by
  unfold extractJsonFromTags
  have := findMatch_keyValue "json:\"".toList a v b hfirst hv
  rw [show jsonRe = keyValueRe "json:\"".toList from rfl, this]

theorem extractJsonFromTags_absent (s : List Char) (h : Absent "json:\"".toList s) :
    extractJsonFromTags s = [] := by
  unfold extractJsonFromTags
  rw [show jsonRe = keyValueRe "json:\"".toList from rfl, findMatch_keyAbsent _ _ h]

theorem isSpace_cases (c : Char) (h : isSpace c = true) :
    c = '\t' ∨ c = '\n' ∨ c = '\x0c' ∨ c = '\r' ∨ c = ' ' := by
  simpa [isSpace, or_assoc] using h

theorem isTypePrefix_cases (c : Char) (h : isTypePrefix c = true) :
    c = '*' ∨ c = '[' ∨ c = ']' := by
  simpa [isTypePrefix, or_assoc] using h

theorem isWord_of_isSpace (c : Char) (h : isSpace c = true) : isWord c = false := by
  rcases isSpace_cases c h with h | h | h | h | h <;> subst h <;> decide

theorem isTypePrefix_of_isSpace (c : Char) (h : isSpace c = true) : isTypePrefix c = false := by
  rcases isSpace_cases c h with h | h | h | h | h <;> subst h <;> decide

theorem isWord_of_isTypePrefix (c : Char) (h : isTypePrefix c = true) : isWord c = false := by
  rcases isTypePrefix_cases c h with h | h | h <;> subst h <;> decide

theorem isSpace_of_isTypePrefix (c : Char) (h : isTypePrefix c = true) : isSpace c = false := by
  rcases isTypePrefix_cases c h with h | h | h <;> subst h <;> decide

theorem isSpace_of_isWord (c : Char) (h : isWord c = true) : isSpace c = false := by
  cases hs : isSpace c with
  | false => rfl
  | true => rw [isWord_of_isSpace c hs] at h; cases h

theorem isTypePrefix_of_isWord (c : Char) (h : isWord c = true) : isTypePrefix c = false := by
  cases hs : isTypePrefix c with
  | false => rfl
  | true => rw [isWord_of_isTypePrefix c hs] at h; cases h

theorem findMatch_fieldRe (ident ws pre word ws2 tag : List Char)
    (h : FieldShape ident ws pre word ws2 tag) :
    FindStringSubmatch fieldRe (fieldLine ident ws pre word ws2 tag) =
      some [ident, pre ++ word, tag] := by
  have h7 : matchHere [Atom.star notBacktick, Atom.gClose, Atom.ch '\x60'] (tag ++ ['\x60']) =
      some [['\x60']] :=
    matchHere_star notBacktick _ tag ['\x60'] _ h.tag_plain
      (fun d ds hd => by
        simp only [List.cons.injEq] at hd
        rw [← hd.1]; decide)
      rfl
  have h6 : matchHere [Atom.ch '\x60', Atom.gOpen, Atom.star notBacktick, Atom.gClose,
      Atom.ch '\x60'] ('\x60' :: (tag ++ ['\x60'])) = some [tag ++ ['\x60'], ['\x60']] := by
    show Option.map (fun r => (tag ++ ['\x60']) :: r)
      (matchHere [Atom.star notBacktick, Atom.gClose, Atom.ch '\x60'] (tag ++ ['\x60'])) = _
    rw [h7]; rfl
  have h4 : matchHere [Atom.star isSpace, Atom.ch '\x60', Atom.gOpen, Atom.star notBacktick,
      Atom.gClose, Atom.ch '\x60'] (ws2 ++ '\x60' :: (tag ++ ['\x60'])) =
      some [tag ++ ['\x60'], ['\x60']] :=
    matchHere_star isSpace _ ws2 _ _ h.ws2_space
      (fun d ds hd => by
        simp only [List.cons.injEq] at hd
        rw [← hd.1]; decide)
      h6
  have hhead3 : ∀ d ds, ws2 ++ '\x60' :: (tag ++ ['\x60']) = d :: ds → isWord d = false := by
    intro d ds hd
    cases hw : ws2 with
    | nil =>
      rw [hw] at hd
      simp only [List.nil_append, List.cons.injEq] at hd
      rw [← hd.1]; decide
    | cons x xs =>
      rw [hw] at hd
      simp only [List.cons_append, List.cons.injEq] at hd
      rw [← hd.1]
      exact isWord_of_isSpace x (h.ws2_space x (by rw [hw]; simp))
  have h2 : matchHere [Atom.plus isWord, Atom.gClose, Atom.star isSpace, Atom.ch '\x60',
      Atom.gOpen, Atom.star notBacktick, Atom.gClose, Atom.ch '\x60']
      (word ++ (ws2 ++ '\x60' :: (tag ++ ['\x60']))) =
      some [ws2 ++ '\x60' :: (tag ++ ['\x60']), tag ++ ['\x60'], ['\x60']] :=
    matchHere_plus isWord _ word _ _ h.word_ne h.word_word hhead3
      (by
        show Option.map (fun r => (ws2 ++ '\x60' :: (tag ++ ['\x60'])) :: r) (matchHere _ _) = _
        rw [h4]; rfl)
  have hhead2 : ∀ d ds, word ++ (ws2 ++ '\x60' :: (tag ++ ['\x60'])) = d :: ds →
      isTypePrefix d = false ∧ isSpace d = false := by
    intro d ds hd
    cases hw : word with
    | nil => exact absurd hw h.word_ne
    | cons x xs =>
      rw [hw] at hd
      simp only [List.cons_append, List.cons.injEq] at hd
      rw [← hd.1]
      have hx := h.word_word x (by rw [hw]; simp)
      exact ⟨isTypePrefix_of_isWord x hx, isSpace_of_isWord x hx⟩
  have h1 : matchHere [Atom.gOpen, Atom.star isTypePrefix, Atom.plus isWord, Atom.gClose,
      Atom.star isSpace, Atom.ch '\x60', Atom.gOpen, Atom.star notBacktick, Atom.gClose,
      Atom.ch '\x60'] (pre ++ (word ++ (ws2 ++ '\x60' :: (tag ++ ['\x60'])))) =
      some [pre ++ (word ++ (ws2 ++ '\x60' :: (tag ++ ['\x60']))),
        ws2 ++ '\x60' :: (tag ++ ['\x60']), tag ++ ['\x60'], ['\x60']] := by
    show Option.map (fun r => (pre ++ (word ++ (ws2 ++ '\x60' :: (tag ++ ['\x60'])))) :: r)
      (matchHere _ _) = _
    rw [matchHere_star isTypePrefix _ pre _ _ h.pre_prefix (fun d ds hd => (hhead2 d ds hd).1) h2]
    rfl
  have hhead1 : ∀ d ds, pre ++ (word ++ (ws2 ++ '\x60' :: (tag ++ ['\x60']))) = d :: ds →
      isSpace d = false := by
    intro d ds hd
    cases hp : pre with
    | nil =>
      rw [hp] at hd
      exact (hhead2 d ds hd).2
    | cons x xs =>
      rw [hp] at hd
      simp only [List.cons_append, List.cons.injEq] at hd
      rw [← hd.1]
      exact isSpace_of_isTypePrefix x (h.pre_prefix x (by rw [hp]; simp))
  have g1 : matchHere [Atom.gClose, Atom.plus isSpace, Atom.gOpen, Atom.star isTypePrefix,
      Atom.plus isWord, Atom.gClose, Atom.star isSpace, Atom.ch '\x60', Atom.gOpen,
      Atom.star notBacktick, Atom.gClose, Atom.ch '\x60']
      (ws ++ (pre ++ (word ++ (ws2 ++ '\x60' :: (tag ++ ['\x60']))))) =
      some [ws ++ (pre ++ (word ++ (ws2 ++ '\x60' :: (tag ++ ['\x60'])))),
        pre ++ (word ++ (ws2 ++ '\x60' :: (tag ++ ['\x60']))),
        ws2 ++ '\x60' :: (tag ++ ['\x60']), tag ++ ['\x60'], ['\x60']] := by
    show Option.map (fun r => (ws ++ (pre ++ (word ++ (ws2 ++ '\x60' :: (tag ++ ['\x60']))))) :: r)
      (matchHere _ _) = _
    rw [matchHere_plus isSpace _ ws _ _ h.ws_ne h.ws_space hhead1 h1]
    rfl
  have hhead0 : ∀ d ds, ws ++ (pre ++ (word ++ (ws2 ++ '\x60' :: (tag ++ ['\x60'])))) = d :: ds →
      isWord d = false := by
    intro d ds hd
    cases hw : ws with
    | nil => exact absurd hw h.ws_ne
    | cons x xs =>
      rw [hw] at hd
      simp only [List.cons_append, List.cons.injEq] at hd
      rw [← hd.1]
      exact isWord_of_isSpace x (h.ws_space x (by rw [hw]; simp))
  have g0 : matchHere fieldRe (fieldLine ident ws pre word ws2 tag) =
      some [fieldLine ident ws pre word ws2 tag,
        ws ++ (pre ++ (word ++ (ws2 ++ '\x60' :: (tag ++ ['\x60'])))),
        pre ++ (word ++ (ws2 ++ '\x60' :: (tag ++ ['\x60']))),
        ws2 ++ '\x60' :: (tag ++ ['\x60']), tag ++ ['\x60'], ['\x60']] := by
    show Option.map (fun r => (fieldLine ident ws pre word ws2 tag) :: r) (matchHere _ _) = _
    unfold fieldLine
    rw [matchHere_plus isWord _ ident _ _ h.ident_ne h.ident_word hhead0 g1]
    rfl
  unfold FindStringSubmatch
  rw [findMatch_hit _ _ _ g0]
  simp only [Option.map_some', groups, Option.some.injEq, List.cons.injEq, and_true]
  refine ⟨?_, ?_, ?_⟩
  · unfold fieldLine; exact between_append _ _
  · rw [← List.append_assoc]; exact between_append _ _
  · exact between_append _ _

theorem fieldLine_not_comment (ident ws pre word ws2 tag : List Char)
    (h : FieldShape ident ws pre word ws2 tag) :
    HasPrefix (fieldLine ident ws pre word ws2 tag) "//".toList = false := by
  cases hi : ident with
  | nil => exact absurd hi h.ident_ne
  | cons x xs =>
    have hx := h.ident_word x (by rw [hi]; simp)
    have hne : x ≠ '/' := by
      intro he
      rw [he] at hx
      revert hx
      decide
    unfold fieldLine HasPrefix
    simp only [String.toList, List.cons_append, List.isPrefixOf]
    have : ('/' == x) = false := by
      simpa using fun he : '/' = x => hne he.symm
    simp [this]

theorem parseFieldLine_fieldLine (ident ws pre word ws2 tag : List Char)
    (h : FieldShape ident ws pre word ws2 tag) :
    parseFieldLine (fieldLine ident ws pre word ws2 tag) =
      if extractValidateFromTags tag = [] then none
      else some { Name := ident, Typ := pre ++ word,
                  ValidateRule := extractValidateFromTags tag,
                  JsonTag := extractJsonFromTags tag } := by
  unfold parseFieldLine
  rw [fieldLine_not_comment _ _ _ _ _ _ h, findMatch_fieldRe _ _ _ _ _ _ h]
  simp

/-- C11, as stated, fails: the line `Name string` followed by the tag string
`validate:""` has the shape of a field line and its tag string holds a
validate key, yet `parseFieldLine` returns nothing. -/
theorem parseFieldLine_empty_rule_dropped :
    FieldShape "Name".toList " ".toList [] "string".toList " ".toList "validate:\"\"".toList ∧
    fieldLine "Name".toList " ".toList [] "string".toList " ".toList "validate:\"\"".toList =
      "Name string `validate:\"\"`".toList ∧
    parseFieldLine "Name string `validate:\"\"`".toList = none :=
  ⟨⟨by decide, by decide, by decide, by decide, by decide, by decide, by decide, by decide,
    by decide⟩, by decide, by decide⟩

/-- C12, at the failing inputs.  A tag string whose only key is `xvalidate`
yields a field, with the value of `xvalidate` as rule; the value of `myjson`
is taken as json key although a key `json` follows; and putting the key
`xvalidate` before `validate` changes the rule of the field. -/
theorem parseFieldLine_reads_keys_by_suffix :
    parseFieldLine "Name string `xvalidate:\"required\"`".toList =
      some { Name := "Name".toList, Typ := "string".toList,
             ValidateRule := "required".toList, JsonTag := [] } ∧
    parseFieldLine "Name string `myjson:\"m\" json:\"n\" validate:\"required\"`".toList =
      some { Name := "Name".toList, Typ := "string".toList,
             ValidateRule := "required".toList, JsonTag := "m".toList } ∧
    parseFieldLine "Name string `validate:\"required\"`".toList =
      some { Name := "Name".toList, Typ := "string".toList,
             ValidateRule := "required".toList, JsonTag := [] } ∧
    parseFieldLine "Name string `xvalidate:\"min=3\" validate:\"required\"`".toList =
      some { Name := "Name".toList, Typ := "string".toList,
             ValidateRule := "min=3".toList, JsonTag := [] } := by
  refine ⟨by decide, by decide, by decide, by decide⟩

theorem scanLine_plain (recur : Recur) (fs : FS) (p raw : List Char) (st : ScanState)
    (acc : ParseAcc) (h : PlainLine fs p raw) (hb : st.inImportBlock = false) :
    scanLine recur fs p raw st acc = some (scanDecl (TrimSpace raw) st acc) := by
  unfold scanLine
  simp only
  rw [if_neg (by rw [h.1]; simp), if_neg (by simp [hb]), if_neg (by simp [hb]), h.2.1]
  simp

theorem scanDecl_plain (fs : FS) (p raw : List Char) (st : ScanState) (acc : ParseAcc)
    (h : PlainLine fs p raw) (ht : st.inTypeBlock = true) :
    scanDecl (TrimSpace raw) st acc = scanStruct (TrimSpace raw) st acc := by
  unfold scanDecl
  rw [if_neg (by rw [h.2.2.1]; simp),
    if_neg (by
      intro hh
      simp only [Bool.and_eq_true, beq_iff_eq] at hh
      exact h.2.2.2 hh.2),
    if_neg (by simp [ht])]

theorem scanStruct_inside (line : List Char) (st : ScanState) (acc : ParseAcc)
    (cur : ValidateStruct) (hs : st.inStruct = true) (hc : st.currentStruct = some cur) :
    scanStruct line st acc =
      if st.braceCount + braceDelta line ≤ 0 then
        ({ st with currentStruct := none, inStruct := false,
                   braceCount := st.braceCount + braceDelta line },
         if cur.Fields.length > 0 then
           { acc with validateStructs := acc.validateStructs ++ [cur] }
         else acc)
      else
        match parseFieldLine line with
        | some f =>
          ({ st with braceCount := st.braceCount + braceDelta line,
                     currentStruct := some { cur with Fields := cur.Fields ++ [f] } }, acc)
        | none => ({ st with braceCount := st.braceCount + braceDelta line }, acc) := by
  unfold scanStruct
  rw [if_neg (by simp [hs])]
  unfold scanBody
  rw [hs, hc]
  rfl

theorem scanLines_body (recur : Recur) (fs : FS) (p : List Char) (body : List (List Char))
    (st : ScanState) (acc : ParseAcc) (name : List Char) (fields : List ValidateField)
    (hall : ∀ l ∈ body, PlainLine fs p l) (ht : st.inTypeBlock = true)
    (hb : st.inImportBlock = false) (hs : st.inStruct = true)
    (hc : st.currentStruct = some { Name := name, Fields := fields })
    (hopen : staysOpen st.braceCount body = true) :
    scanLines recur fs p body st acc =
      some ({ st with braceCount := depthAfter st.braceCount body,
                      currentStruct := some { Name := name,
                                              Fields := fields ++ bodyFields body } }, acc) := by
  induction body generalizing st fields with
  | nil =>
    simp only [scanLines, depthAfter, bodyFields, List.append_nil]
    rw [← hc]
  | cons raw rest ih =>
    have hpl := hall raw (by simp)
    simp only [staysOpen, Bool.and_eq_true, decide_eq_true_eq] at hopen
    simp only [scanLines]
    rw [scanLine_plain recur fs p raw st acc hpl hb, scanDecl_plain fs p raw st acc hpl ht,
      scanStruct_inside _ st acc _ hs hc, if_neg (by omega)]
    cases hf : parseFieldLine (TrimSpace raw) with
    | none =>
      simp only
      rw [ih { st with braceCount := st.braceCount + braceDelta (TrimSpace raw) } fields
        (fun l hl => hall l (by simp [hl])) ht hb hs hc hopen.2]
      simp [depthAfter, bodyFields, hf]
    | some f =>
      simp only
      rw [ih { st with braceCount := st.braceCount + braceDelta (TrimSpace raw),
                       currentStruct := some { Name := name, Fields := fields ++ [f] } }
        (fields ++ [f]) (fun l hl => hall l (by simp [hl])) ht hb hs rfl hopen.2]
      simp [depthAfter, bodyFields, hf]

theorem scanLines_record (recur : Recur) (fs : FS) (p opener closer : List Char)
    (body : List (List Char)) (st : ScanState) (acc : ParseAcc)
    (ht : st.inTypeBlock = true) (hb : st.inImportBlock = false) (hs : st.inStruct = false)
    (ho : PlainLine fs p opener) (hbrace : Contains (TrimSpace opener) '{' = true)
    (hname : extractStructName (TrimSpace opener) ≠ [])
    (hall : ∀ l ∈ body, PlainLine fs p l)
    (hopen : staysOpen (braceDelta (TrimSpace opener)) body = true)
    (hc : PlainLine fs p closer)
    (hclose : depthAfter (braceDelta (TrimSpace opener)) body + braceDelta (TrimSpace closer) ≤ 0) :
    scanLines recur fs p (opener :: (body ++ [closer])) st acc =
      some ({ st with currentStruct := none, inStruct := false,
                      braceCount := depthAfter (braceDelta (TrimSpace opener)) body +
                        braceDelta (TrimSpace closer) },
        if (bodyFields body).length > 0 then
          { acc with validateStructs := acc.validateStructs ++
              [{ Name := extractStructName (TrimSpace opener), Fields := bodyFields body }] }
        else acc) := by
  simp only [scanLines]
  rw [scanLine_plain recur fs p opener st acc ho hb, scanDecl_plain fs p opener st acc ho ht]
  have hopenStep : scanStruct (TrimSpace opener) st acc =
      ({ st with currentStruct := some { Name := extractStructName (TrimSpace opener),
                                         Fields := [] },
                 inStruct := true, braceCount := braceDelta (TrimSpace opener) }, acc) := by
    unfold scanStruct
    rw [if_pos (by simp [hbrace, hs])]
    simp only
    rw [if_pos hname]
    rfl
  rw [hopenStep]
  simp only
  rw [scanLines_append,
    scanLines_body recur fs p body
      { st with currentStruct := some { Name := extractStructName (TrimSpace opener),
                                        Fields := [] },
                inStruct := true, braceCount := braceDelta (TrimSpace opener) }
      acc (extractStructName (TrimSpace opener)) [] hall ht hb rfl rfl hopen]
  simp only [Option.some_bind, scanLines, List.nil_append]
  have hlast : ∀ s2 : ScanState,
      s2 = { st with
        currentStruct := some ⟨extractStructName (TrimSpace opener), bodyFields body⟩,
        inStruct := true,
        braceCount := depthAfter (braceDelta (TrimSpace opener)) body } →
      scanLine recur fs p closer s2 acc =
        some ({ st with currentStruct := none, inStruct := false,
                        braceCount := depthAfter (braceDelta (TrimSpace opener)) body +
                          braceDelta (TrimSpace closer) },
          if (bodyFields body).length > 0 then
            { acc with validateStructs := acc.validateStructs ++
                [{ Name := extractStructName (TrimSpace opener), Fields := bodyFields body }] }
          else acc) := by
    intro s2 hs2
    have h1 : s2.inImportBlock = false := by rw [hs2]; exact hb
    have h2 : s2.inTypeBlock = true := by rw [hs2]; exact ht
    have h3 : s2.inStruct = true := by rw [hs2]
    have h4 : s2.currentStruct =
        some ⟨extractStructName (TrimSpace opener), bodyFields body⟩ := by rw [hs2]
    have h5 : s2.braceCount = depthAfter (braceDelta (TrimSpace opener)) body := by rw [hs2]
    rw [scanLine_plain recur fs p closer s2 acc hc h1, scanDecl_plain fs p closer s2 acc hc h2,
      scanStruct_inside _ s2 acc _ h3 h4, if_pos (by rw [h5]; exact hclose), hs2]
  rw [hlast _ rfl]

/-- C19, as stated, fails: in this document the depth of the record `A` is 1
after its opening line, 1 after the field line and after the line `)`, and 0
after the line `}`, yet the record is never closed and the parse returns
nothing: the line `)` leaves the type block and the lines after it do not
reach the brace count. -/
theorem record_not_closed_after_paren :
    staysOpen (braceDelta (TrimSpace "A \x7b".toList))
      ["X int `validate:\"required\"`".toList, ")".toList] = true ∧
    depthAfter (braceDelta (TrimSpace "A \x7b".toList))
      ["X int `validate:\"required\"`".toList, ")".toList] +
      braceDelta (TrimSpace "\x7d".toList) = 0 ∧
    parseAPIFileForValidateStructs [("r.api".toList, Entry.file strayParenDoc false)]
      "r.api".toList = some ([], none) := by
  refine ⟨by decide, by decide, by decide⟩

/-- C19, amended.  Inside a grouped type block and outside a record, take an
opening line with an opening brace and a record name, then body lines, then a
closing line, all of which reach the record logic (none opens or closes a
block of the document and none is an import that resolves).  The depth starts
at the brace balance of the opening line and each line adds its own balance.
If the depth is above zero after every body line and zero or below after the
closing line, the scan of these lines ends outside a record, with the depth
so computed, and appends exactly one record when at least one body line is a
qualifying field line: the name of the opening line with the fields of the
body lines (those inside nested brace blocks included) in the order of the
lines.  The closing line itself gives no field. -/
theorem record_brace_depth (recur : Recur) (fs : FS) (p opener closer : List Char)
    (body : List (List Char)) (st : ScanState) (acc : ParseAcc)
    (ht : st.inTypeBlock = true) (hb : st.inImportBlock = false) (hs : st.inStruct = false)
    (ho : PlainLine fs p opener) (hbrace : Contains (TrimSpace opener) '{' = true)
    (hname : extractStructName (TrimSpace opener) ≠ [])
    (hall : ∀ l ∈ body, PlainLine fs p l)
    (hopen : staysOpen (braceDelta (TrimSpace opener)) body = true)
    (hc : PlainLine fs p closer)
    (hclose : depthAfter (braceDelta (TrimSpace opener)) body + braceDelta (TrimSpace closer) ≤ 0) :
    scanLines recur fs p (opener :: (body ++ [closer])) st acc =
      some ({ st with currentStruct := none, inStruct := false,
                      braceCount := depthAfter (braceDelta (TrimSpace opener)) body +
                        braceDelta (TrimSpace closer) },
        if (bodyFields body).length > 0 then
          { acc with validateStructs := acc.validateStructs ++
              [{ Name := extractStructName (TrimSpace opener), Fields := bodyFields body }] }
        else acc) :=
  scanLines_record recur fs p opener closer body st acc ht hb hs ho hbrace hname hall hopen hc
    hclose

theorem record_brace_depth_witness :
    scanLines (fun _ _ => none) [] "r.api".toList
      ("User \x7b".toList :: (nestedBody ++ ["\x7d".toList]))
      { ScanState.init with inTypeBlock := true } ParseAcc.empty =
    some ({ ScanState.init with inTypeBlock := true, braceCount := 0 },
      { validateStructs :=
          [{ Name := "User".toList,
             Fields := [⟨"Name".toList, "string".toList, "required".toList, []⟩,
                        ⟨"City".toList, "string".toList, "min=1".toList, []⟩] }],
        processedFiles := [] }) :=
  (record_brace_depth (fun _ _ => none) [] "r.api".toList "User \x7b".toList "\x7d".toList nestedBody
    { ScanState.init with inTypeBlock := true } ParseAcc.empty rfl rfl rfl (by decide)
    (by decide) (by decide) (by decide) (by decide) (by decide) (by decide)).trans (by decide)

theorem matchHere_importPathRe (path tail : List Char) (hne : path ≠ [])
    (hp : ∀ c ∈ path, notQuote c = true) :
    matchHere importPathRe ('"' :: (path ++ (".api".toList ++ '"' :: tail))) =
      some [path ++ (".api".toList ++ '"' :: tail), '"' :: tail] := by
  have hspan : spanLen notQuote (path ++ (".api".toList ++ '"' :: tail)) = path.length + 4 := by
    have := spanLen_append notQuote (path ++ ".api".toList) ('"' :: tail)
      (fun c hc => by
        simp only [List.mem_append] at hc
        rcases hc with hc | hc
        · exact hp c hc
        · revert c; decide)
      (fun d ds hd => by
        simp only [List.cons.injEq] at hd
        rw [← hd.1]; decide)
    simpa [List.append_assoc] using this
  have hdrop : ∀ k, (path ++ (".api".toList ++ '"' :: tail)).drop (path.length + k) =
      (".api".toList ++ '"' :: tail).drop k := fun k => List.drop_append k
  have hplus : matchHere (Atom.plus notQuote :: (lits ".api".toList ++ [Atom.gClose, Atom.ch '"']))
      (path ++ (".api".toList ++ '"' :: tail)) = some ['"' :: tail] := by
    rw [matchHere, hspan]
    have hlen : 1 ≤ path.length := by
      cases path with
      | nil => exact absurd rfl hne
      | cons c cs => simp
    rw [tryDown_miss _ 1 (path.length + 3) (by omega)
        (by rw [hdrop 4, matchHere_lits]; rfl),
      tryDown_miss _ 1 (path.length + 2) (by omega)
        (by rw [hdrop 3, matchHere_lits]; rfl),
      tryDown_miss _ 1 (path.length + 1) (by omega)
        (by rw [hdrop 2, matchHere_lits]; rfl),
      tryDown_miss _ 1 path.length (by omega)
        (by rw [hdrop 1, matchHere_lits]; rfl)]
    exact tryDown_hit _ 1 _ _ hlen (by
      have := hdrop 0
      simp only [Nat.add_zero, List.drop_zero] at this
      rw [this, matchHere_lits]; rfl)
  show Option.map (fun r => (path ++ (".api".toList ++ '"' :: tail)) :: r)
    (matchHere (Atom.plus notQuote :: (lits ".api".toList ++ [Atom.gClose, Atom.ch '"']))
      (path ++ (".api".toList ++ '"' :: tail))) = _
  rw [hplus]
  rfl

theorem findMatch_importLineRe (ws path tail : List Char) (h : ImportShape ws path) :
    FindStringSubmatch importLineRe (importLine ws path tail) = some [path ++ ".api".toList] := by
  have hhere : matchHere importLineRe (importLine ws path tail) =
      some [path ++ (".api".toList ++ '"' :: tail), '"' :: tail] := by
    unfold importLineRe importLine
    rw [List.append_assoc, matchHere_lits]
    have hpre : HasPrefix ("import".toList ++ (ws ++ '"' :: (path ++ (".api".toList ++ '"' :: tail))))
        "import".toList = true := by
      unfold HasPrefix
      rw [isPrefixOf_self_append]
    rw [hpre, if_pos rfl, List.drop_left]
    exact matchHere_plus isSpace _ ws _ _ h.ws_ne h.ws_space
      (fun d ds hd => by
        simp only [List.cons.injEq] at hd
        rw [← hd.1]; decide)
      (matchHere_importPathRe path tail h.path_ne h.path_plain)
  unfold FindStringSubmatch
  rw [findMatch_hit _ _ _ hhere]
  simp only [Option.map_some', groups, Option.some.injEq, List.cons.injEq, and_true]
  rw [show path ++ (".api".toList ++ '"' :: tail) = (path ++ ".api".toList) ++ '"' :: tail by
    simp [List.append_assoc]]
  exact between_append _ _

theorem isPrefixOf_append_left (w u x : List Char) :
    (w ++ u).isPrefixOf (w ++ x) = u.isPrefixOf x := by
  induction w with
  | nil => rfl
  | cons c cs ih => simp [List.isPrefixOf, ih]

theorem importLine_not_block (ws path tail : List Char) (h : ImportShape ws path) :
    HasPrefix (importLine ws path tail) "import (".toList = false := by
  unfold HasPrefix importLine
  rw [show "import (".toList = "import".toList ++ " (".toList from rfl, isPrefixOf_append_left]
  cases hw : ws with
  | nil => exact absurd hw h.ws_ne
  | cons c cs =>
    have hcs : ∀ x ∈ cs, isSpace x = true := fun x hx => h.ws_space x (by rw [hw]; simp [hx])
    cases hc2 : cs with
    | nil =>
      simp [List.isPrefixOf]
    | cons d ds =>
      have hd : isSpace d = true := hcs d (by rw [hc2]; simp)
      have hne : ('(' == d) = false := by
        have : d ≠ '(' := by
          intro he
          rw [he] at hd
          revert hd
          decide
        simpa using fun he : '(' = d => this he.symm
      simp [List.isPrefixOf, hne]

theorem importLine_not_paren (ws path tail : List Char) :
    ¬ (importLine ws path tail == ")".toList) = true := by
  simp [importLine]

theorem matchHere_importPathRe_head (c : Char) (s : List Char) (hc : c ≠ '"') :
    matchHere importPathRe (c :: s) = none := by
  show (if c = '"' then _ else none) = none
  rw [if_neg hc]

theorem findMatch_importPathRe (ws path tail : List Char) (h : ImportShape ws path) :
    FindStringSubmatch importPathRe (importLine ws path tail) = some [path ++ ".api".toList] := by
  have hskip : findMatch importPathRe (importLine ws path tail) =
      findMatch importPathRe ('"' :: (path ++ (".api".toList ++ '"' :: tail))) := by
    unfold importLine
    rw [← List.append_assoc]
    apply findMatch_skip
    intro i hi
    have hd : (("import".toList ++ ws) ++ '"' :: (path ++ (".api".toList ++ '"' :: tail))).drop i =
        ("import".toList ++ ws).drop i ++ '"' :: (path ++ (".api".toList ++ '"' :: tail)) :=
      List.drop_append_of_le_length (by omega)
    rw [hd]
    cases hx : ("import".toList ++ ws).drop i with
    | nil =>
      have := congrArg List.length hx
      simp only [List.length_drop, List.length_nil] at this
      omega
    | cons c cs =>
      have hmem : c ∈ "import".toList ++ ws :=
        List.mem_of_mem_drop (by rw [hx]; simp)
      have hcq : c ≠ '"' := by
        simp only [List.mem_append] at hmem
        rcases hmem with hm | hm
        · have hall : ∀ x ∈ "import".toList, x ≠ '"' := by decide
          exact hall c hm
        · intro he
          have := h.ws_space c hm
          rw [he] at this
          revert this
          decide
      exact matchHere_importPathRe_head c _ hcq
  unfold FindStringSubmatch
  rw [hskip, findMatch_hit _ _ _ (matchHere_importPathRe path tail h.path_ne h.path_plain)]
  simp only [Option.map_some', groups, Option.some.injEq, List.cons.injEq, and_true]
  rw [show path ++ (".api".toList ++ '"' :: tail) = (path ++ ".api".toList) ++ '"' :: tail by
    simp [List.append_assoc]]
  exact between_append _ _

theorem importTarget_importLine (fs : FS) (p raw ws path tail : List Char) (flag : Bool)
    (hline : TrimSpace raw = importLine ws path tail) (h : ImportShape ws path) :
    resolveImportPath fs (path ++ ".api".toList) p = importTarget fs p flag raw := by
  symm
  unfold importTarget
  simp only
  rw [hline, if_neg (by rw [importLine_not_block ws path tail h]; simp),
    if_neg (by
      intro hh
      simp only [Bool.and_eq_true] at hh
      exact importLine_not_paren ws path tail hh.2)]
  unfold parseImportPathFromLine parseImportLine
  rw [findMatch_importPathRe ws path tail h, findMatch_importLineRe ws path tail h]
  simp

theorem splitSlash_plain (name : List Char) (h : '/' ∉ name) : splitSlash name = [name] := by
  induction name with
  | nil => rfl
  | cons c cs ih =>
    have hc : c ≠ '/' := fun he => h (by simp [he])
    have hcs : '/' ∉ cs := fun hm => h (by simp [hm])
    simp only [splitSlash, if_neg hc, ih hcs]

theorem splitSlash_ne_nil (t : List Char) : splitSlash t ≠ [] := by
  induction t with
  | nil => simp [splitSlash]
  | cons c cs ih =>
    simp only [splitSlash]
    split
    · simp
    · split <;> simp

theorem splitSlash_cons (c : Char) (cs : List Char) :
    splitSlash (c :: cs) =
      if c = '/' then [] :: splitSlash cs
      else match splitSlash cs with
        | [] => [[c]]
        | h :: t => (c :: h) :: t := rfl

theorem splitSlash_append (t name : List Char) (h : '/' ∉ name) :
    splitSlash (t ++ '/' :: name) = splitSlash t ++ [name] := by
  induction t with
  | nil => simp [splitSlash, splitSlash_plain name h]
  | cons c cs ih =>
    rw [List.cons_append, splitSlash_cons, splitSlash_cons, ih]
    by_cases hc : c = '/'
    · rw [if_pos hc, if_pos hc]; rfl
    · rw [if_neg hc, if_neg hc]
      cases hs : splitSlash cs with
      | nil => exact absurd hs (splitSlash_ne_nil cs)
      | cons x xs => rfl

theorem cleanStep_plain (rooted : Bool) (out : List (List Char)) (name : List Char)
    (h : PlainName name) : cleanStep rooted out name = name :: out := by
  unfold cleanStep
  rw [if_neg (by
    intro hh
    rcases hh with hh | hh
    · exact h.1 hh
    · exact h.2.2.1 hh), if_neg h.2.2.2]

theorem intercalate_append_singleton (xs : List (List Char)) (y : List Char) :
    ['/'].intercalate (xs ++ [y]) =
      (if xs = [] then [] else ['/'].intercalate xs ++ ['/']) ++ y := by
  induction xs with
  | nil => simp [List.intercalate]
  | cons x rest ih =>
    rw [if_neg (by simp)]
    cases rest with
    | nil => simp [List.intercalate, List.intersperse]
    | cons z zs =>
      rw [if_neg (by simp)] at ih
      have h1 : ['/'].intercalate (x :: (z :: zs ++ [y])) =
          x ++ ['/'] ++ ['/'].intercalate (z :: zs ++ [y]) := by
        simp [List.intercalate, List.intersperse]
      have h2 : ['/'].intercalate (x :: z :: zs) = x ++ ['/'] ++ ['/'].intercalate (z :: zs) := by
        simp [List.intercalate, List.intersperse]
      show ['/'].intercalate (x :: (z :: zs ++ [y])) = ['/'].intercalate (x :: z :: zs) ++ ['/'] ++ y
      rw [h1, ih, h2]
      simp [List.append_assoc]

/-- `Clean` keeps a plain last element: the cleaned path is a text that
depends on what stands before the last slash, followed by the element. -/
theorem Clean_append_name (t : List Char) :
    ∃ pre : List Char, ∀ name, PlainName name → Clean (t ++ '/' :: name) = pre ++ name := by
  have hhead : ∀ name : List Char, (t ++ '/' :: name).head? = (t ++ ['/']).head? := by
    intro name
    cases t <;> rfl
  refine ⟨(if ((t ++ ['/']).head? == some '/') = true then ['/'] else []) ++
    (if ((splitSlash t).foldl (cleanStep ((t ++ ['/']).head? == some '/')) []).reverse = []
      then []
      else ['/'].intercalate
        ((splitSlash t).foldl (cleanStep ((t ++ ['/']).head? == some '/')) []).reverse ++ ['/']),
    ?_⟩
  intro name hn
  have hne : ∀ pre : List Char, pre ++ name ≠ [] := fun pre hh =>
    hn.1 (List.append_eq_nil.mp hh).2
  unfold Clean
  rw [if_neg (by simp)]
  simp only
  rw [hhead name, splitSlash_append t name hn.2.1, List.foldl_append]
  simp only [List.foldl_cons, List.foldl_nil]
  rw [cleanStep_plain _ _ name hn, List.reverse_cons, intercalate_append_singleton]
  by_cases hr : ((t ++ ['/']).head? == some '/') = true
  · rw [if_pos hr, if_pos hr]; rfl
  · rw [if_neg hr, if_neg hr, if_neg (hne _)]; rfl

theorem JoinList_typesDir (dir : List Char) :
    ∃ t, JoinList [dir, "internal".toList, "types".toList] = Clean (t ++ '/' :: "types".toList) := by
  unfold JoinList
  by_cases hd : dir = []
  · refine ⟨"internal".toList, ?_⟩
    rw [if_pos hd]
    rfl
  · refine ⟨dir ++ '/' :: "internal".toList, ?_⟩
    rw [if_neg hd]
    simp [List.intercalate, List.intersperse]

theorem Clean_ne_nil (path : List Char) : Clean path ≠ [] := by
  unfold Clean
  split
  · simp
  · simp only
    split
    · simp
    · split
      · simp
      · assumption

theorem Join_of_ne_nil (a b : List Char) (h : a ≠ []) : Join a b = Clean (a ++ '/' :: b) := by
  unfold Join
  rw [if_pos h]

/-- The paths `Generate` works with: the types directory and the three files
in it are four different paths, for every plugin directory. -/
theorem output_paths_distinct (dir : List Char) :
    ∃ pre : List Char, ∃ pre0 : List Char,
      JoinList [dir, "internal".toList, "types".toList] = pre0 ++ "types".toList ∧
      Join (JoinList [dir, "internal".toList, "types".toList]) "validate.go".toList =
        pre ++ "validate.go".toList ∧
      Join (JoinList [dir, "internal".toList, "types".toList]) "translator.go".toList =
        pre ++ "translator.go".toList ∧
      Join (JoinList [dir, "internal".toList, "types".toList]) "translator_custom.go".toList =
        pre ++ "translator_custom.go".toList := by
  obtain ⟨t, ht⟩ := JoinList_typesDir dir
  obtain ⟨pre0, hpre0⟩ := Clean_append_name t
  obtain ⟨pre, hpre⟩ := Clean_append_name (JoinList [dir, "internal".toList, "types".toList])
  have hne : JoinList [dir, "internal".toList, "types".toList] ≠ [] := by
    rw [ht]; exact Clean_ne_nil _
  refine ⟨pre, pre0, ?_, ?_, ?_, ?_⟩
  · rw [ht]; exact hpre0 _ (by decide)
  · rw [Join_of_ne_nil _ _ hne]; exact hpre _ (by decide)
  · rw [Join_of_ne_nil _ _ hne]; exact hpre _ (by decide)
  · rw [Join_of_ne_nil _ _ hne]; exact hpre _ (by decide)

theorem lookup_setNode_self (k : List Char) (n : Node) (d : Disk) :
    (setNode k n d).lookup k = some n := by
  induction d with
  | nil => simp [setNode, List.lookup]
  | cons e rest ih =>
    obtain ⟨k2, v⟩ := e
    unfold setNode
    by_cases h : (k == k2) = true
    · rw [if_pos h]
      simp [List.lookup, h]
    · rw [if_neg h]
      have h2 : (k == k2) = false := by simpa using h
      simp only [List.lookup, h2]
      exact ih

theorem lookup_setNode_ne (k p : List Char) (n : Node) (d : Disk) (h : p ≠ k) :
    (setNode k n d).lookup p = d.lookup p := by
  induction d with
  | nil =>
    have h2 : (p == k) = false := by simpa using h
    simp [setNode, List.lookup, h2]
  | cons e rest ih =>
    obtain ⟨k2, v⟩ := e
    unfold setNode
    by_cases hk : (k == k2) = true
    · rw [if_pos hk]
      have hk2 : k = k2 := by simpa using hk
      have h2 : (p == k2) = false := by simpa [hk2] using h
      simp [List.lookup, h2]
    · rw [if_neg hk]
      cases hp : (p == k2) with
      | true => simp [List.lookup, hp]
      | false => simp only [List.lookup, hp]; exact ih

theorem setNode_same (k : List Char) (n : Node) (d : Disk) (h : d.lookup k = some n) :
    setNode k n d = d := by
  induction d with
  | nil => simp [List.lookup] at h
  | cons e rest ih =>
    obtain ⟨k2, v⟩ := e
    unfold setNode
    cases hk : (k == k2) with
    | true =>
      simp only [List.lookup, hk] at h
      simp only [if_true]
      cases h
      rfl
    | false =>
      simp only [List.lookup, hk] at h
      simp only [Bool.false_eq_true, if_false]
      rw [ih h]

theorem WriteFile_frame (d d2 : Disk) (k x p : List Char) (e : Bool)
    (hW : WriteFile d k x = (d2, e)) (h : p ≠ k) : d2.lookup p = d.lookup p := by
  unfold WriteFile at hW
  split at hW
  · cases hW; exact lookup_setNode_ne k p _ d h
  · cases hW; exact lookup_setNode_ne k p _ d h
  · cases hW; rfl

theorem WriteFile_false (d d2 : Disk) (k x : List Char)
    (hW : WriteFile d k x = (d2, false)) : d2.lookup k = some (Node.file x true) := by
  unfold WriteFile at hW
  split at hW
  · cases hW; exact lookup_setNode_self k _ d
  · cases hW; exact lookup_setNode_self k _ d
  · cases hW

theorem WriteFile_true (d d2 : Disk) (k x : List Char)
    (hW : WriteFile d k x = (d2, true)) : d2 = d := by
  unfold WriteFile at hW
  split at hW
  · cases hW
  · cases hW
  · cases hW; rfl

theorem WriteFile_again (d : Disk) (k x : List Char)
    (h : d.lookup k = some (Node.file x true)) : WriteFile d k x = (d, false) := by
  unfold WriteFile
  rw [h]
  simp only []
  rw [setNode_same k _ d h]

theorem WriteFile_congr_true (d d2 d3 : Disk) (k x : List Char)
    (hW : WriteFile d k x = (d2, true)) (h : d3.lookup k = d.lookup k) :
    WriteFile d3 k x = (d3, true) := by
  unfold WriteFile at hW ⊢
  rw [h]
  split at hW
  · cases hW
  · cases hW
  · rfl

theorem Stat_congr (d d2 : Disk) (p : List Char) (h : d2.lookup p = d.lookup p) :
    Stat d2 p = Stat d p := by
  unfold Stat; rw [h]

theorem dirExists_congr (d d2 : Disk) (p : List Char) (h : d2.lookup p = d.lookup p) :
    dirExists d2 p = dirExists d p := by
  unfold dirExists; rw [Stat_congr d d2 p h]

theorem fileExists_congr (d d2 : Disk) (p : List Char) (h : d2.lookup p = d.lookup p) :
    fileExists d2 p = fileExists d p := by
  unfold fileExists; rw [Stat_congr d d2 p h]

theorem fileExists_of_file (d : Disk) (p x : List Char) (w : Bool)
    (h : d.lookup p = some (Node.file x w)) : fileExists d p = true := by
  unfold fileExists Stat; rw [h]

/-- The types directory and the three files written into it are pairwise
different paths. -/
theorem output_paths_ne (dir : List Char) :
    JoinList [dir, "internal".toList, "types".toList] ≠
        Join (JoinList [dir, "internal".toList, "types".toList]) "validate.go".toList ∧
    JoinList [dir, "internal".toList, "types".toList] ≠
        Join (JoinList [dir, "internal".toList, "types".toList]) "translator.go".toList ∧
    JoinList [dir, "internal".toList, "types".toList] ≠
        Join (JoinList [dir, "internal".toList, "types".toList]) "translator_custom.go".toList ∧
    Join (JoinList [dir, "internal".toList, "types".toList]) "validate.go".toList ≠
        Join (JoinList [dir, "internal".toList, "types".toList]) "translator.go".toList ∧
    Join (JoinList [dir, "internal".toList, "types".toList]) "validate.go".toList ≠
        Join (JoinList [dir, "internal".toList, "types".toList]) "translator_custom.go".toList ∧
    Join (JoinList [dir, "internal".toList, "types".toList]) "translator.go".toList ≠
        Join (JoinList [dir, "internal".toList, "types".toList]) "translator_custom.go".toList := by
  obtain ⟨pre, pre0, h0, h1, h2, h3⟩ := output_paths_distinct dir
  rw [h1, h2, h3, h0]
  have hlast : ∀ (a b x y : List Char) (c e : Char), c ≠ e →
      a ++ (x ++ [c]) ≠ b ++ (y ++ [e]) := by
    intro a b x y c e hce hh
    have h5 := congrArg List.getLast? hh
    rw [← List.append_assoc, ← List.append_assoc, List.getLast?_concat,
      List.getLast?_concat] at h5
    exact hce (Option.some.inj h5)
  refine ⟨?_, ?_, ?_, ?_, ?_, ?_⟩
  · exact hlast pre0 pre "type".toList "validate.g".toList 's' 'o' (by decide)
  · exact hlast pre0 pre "type".toList "translator.g".toList 's' 'o' (by decide)
  · exact hlast pre0 pre "type".toList "translator_custom.g".toList 's' 'o' (by decide)
  · intro hh; exact absurd (List.append_cancel_left hh) (by decide)
  · intro hh; exact absurd (List.append_cancel_left hh) (by decide)
  · intro hh; exact absurd (List.append_cancel_left hh) (by decide)

/-- The writes of `Generate` with the paths and contents named. -/
theorem writeOutputs_eq (g : ValidateGenerator) (disk : Disk) (recs : List ValidateStruct) :
    writeOutputs g disk recs =
      match dirExists disk (typesDirOf g) with
      | none => (disk, Outcome.panicked)
      | some false =>
        (disk, Outcome.returned (some (GenerateError.typesDirNotFound (typesDirOf g))))
      | some true =>
        match WriteFile disk (validateFileOf g) (validateContent g recs) with
        | (disk1, true) => (disk1, Outcome.returned (some GenerateError.validateFileFailed))
        | (disk1, false) =>
          if g.options.EnableTranslator then
            match WriteFile disk1 (translatorFileOf g) renderTranslatorTemplate with
            | (disk2, true) => (disk2, Outcome.returned (some GenerateError.translatorFileFailed))
            | (disk2, false) =>
              if !fileExists disk2 (customTranslatorFileOf g) then
                match WriteFile disk2 (customTranslatorFileOf g) renderCustomTranslatorTemplate with
                | (disk3, true) =>
                  (disk3, Outcome.returned (some GenerateError.customTemplateFailed))
                | (disk3, false) => (disk3, Outcome.returned none)
              else (disk2, Outcome.returned none)
          else (disk1, Outcome.returned none) := rfl

theorem paths_ne (g : ValidateGenerator) :
    typesDirOf g ≠ validateFileOf g ∧ typesDirOf g ≠ translatorFileOf g ∧
    typesDirOf g ≠ customTranslatorFileOf g ∧ validateFileOf g ≠ translatorFileOf g ∧
    validateFileOf g ≠ customTranslatorFileOf g ∧
    translatorFileOf g ≠ customTranslatorFileOf g :=
  output_paths_ne g.plugin.Dir

/-- Writing a second time changes nothing: stated for any four pairwise
different paths `T`, `V`, `R`, `C` in the places of the types directory and
the three files. -/
theorem emit_idem (en : Bool) (T V R C cv cr cc : List Char) (err : GenerateError)
    (hTV : T ≠ V) (hTR : T ≠ R) (hTC : T ≠ C) (hVR : V ≠ R) (hVC : V ≠ C) (hRC : R ≠ C)
    (F : Disk → Disk × Outcome)
    (hF : ∀ disk, F disk =
      match dirExists disk T with
      | none => (disk, Outcome.panicked)
      | some false => (disk, Outcome.returned (some err))
      | some true =>
        match WriteFile disk V cv with
        | (disk1, true) => (disk1, Outcome.returned (some GenerateError.validateFileFailed))
        | (disk1, false) =>
          if en then
            match WriteFile disk1 R cr with
            | (disk2, true) => (disk2, Outcome.returned (some GenerateError.translatorFileFailed))
            | (disk2, false) =>
              if !fileExists disk2 C then
                match WriteFile disk2 C cc with
                | (disk3, true) =>
                  (disk3, Outcome.returned (some GenerateError.customTemplateFailed))
                | (disk3, false) => (disk3, Outcome.returned none)
              else (disk2, Outcome.returned none)
          else (disk1, Outcome.returned none))
    (d : Disk) : F (F d).1 = F d := by
  cases hD : dirExists d T with
  | none =>
    have h1 : F d = (d, Outcome.panicked) := by rw [hF, hD]
    rw [h1]; exact h1
  | some b =>
    cases b with
    | false =>
      have h1 : F d = (d, Outcome.returned (some err)) := by rw [hF, hD]
      rw [h1]; exact h1
    | true =>
      rcases hA : WriteFile d V cv with ⟨dA, eA⟩
      cases eA with
      | true =>
        have hdA : dA = d := WriteFile_true d dA V cv hA
        subst hdA
        have h1 : F dA = (dA, Outcome.returned (some GenerateError.validateFileFailed)) := by
          rw [hF, hD]; simp only [hA]
        rw [h1]; exact h1
      | false =>
        have hAV := WriteFile_false d dA V cv hA
        have hAf := fun p (hp : p ≠ V) => WriteFile_frame d dA V cv p false hA hp
        have hDA : dirExists dA T = some true := by
          rw [dirExists_congr d dA T (hAf T hTV)]; exact hD
        have hA2 : WriteFile dA V cv = (dA, false) := WriteFile_again dA V cv hAV
        cases en with
        | false =>
          have h1 : F d = (dA, Outcome.returned none) := by
            rw [hF, hD]; simp only [hA]; rfl
          have h2 : F dA = (dA, Outcome.returned none) := by
            rw [hF, hDA]; simp only [hA2]; rfl
          rw [h1]; exact h2
        | true =>
          rcases hB : WriteFile dA R cr with ⟨dB, eB⟩
          cases eB with
          | true =>
            have hdB : dB = dA := WriteFile_true dA dB R cr hB
            subst hdB
            have h1 : F d = (dB, Outcome.returned (some GenerateError.translatorFileFailed)) := by
              rw [hF, hD]; simp only [hA, if_true, hB]
            have h2 : F dB = (dB, Outcome.returned (some GenerateError.translatorFileFailed)) := by
              rw [hF, hDA]; simp only [hA2, if_true, hB]
            rw [h1]; exact h2
          | false =>
            have hBR := WriteFile_false dA dB R cr hB
            have hBf := fun p (hp : p ≠ R) => WriteFile_frame dA dB R cr p false hB hp
            have hDB : dirExists dB T = some true := by
              rw [dirExists_congr dA dB T (hBf T hTR)]; exact hDA
            have hBV : dB.lookup V = some (Node.file cv true) := by
              rw [hBf V hVR]; exact hAV
            have hB1 : WriteFile dB V cv = (dB, false) := WriteFile_again dB V cv hBV
            have hB2 : WriteFile dB R cr = (dB, false) := WriteFile_again dB R cr hBR
            cases hE : fileExists dB C with
            | true =>
              have h1 : F d = (dB, Outcome.returned none) := by
                rw [hF, hD]; simp only [hA, if_true, hB, hE]; rfl
              have h2 : F dB = (dB, Outcome.returned none) := by
                rw [hF, hDB]; simp only [hB1, if_true, hB2, hE]; rfl
              rw [h1]; exact h2
            | false =>
              rcases hC : WriteFile dB C cc with ⟨dC, eC⟩
              cases eC with
              | true =>
                have hdC : dC = dB := WriteFile_true dB dC C cc hC
                subst hdC
                have h1 : F d =
                    (dC, Outcome.returned (some GenerateError.customTemplateFailed)) := by
                  rw [hF, hD]; simp only [hA, if_true, hB, hE, hC]; rfl
                have h2 : F dC =
                    (dC, Outcome.returned (some GenerateError.customTemplateFailed)) := by
                  rw [hF, hDB]; simp only [hB1, if_true, hB2, hE, hC]; rfl
                rw [h1]; exact h2
              | false =>
                have hCC := WriteFile_false dB dC C cc hC
                have hCf := fun p (hp : p ≠ C) => WriteFile_frame dB dC C cc p false hC hp
                have hDC : dirExists dC T = some true := by
                  rw [dirExists_congr dB dC T (hCf T hTC)]; exact hDB
                have hCV : dC.lookup V = some (Node.file cv true) := by
                  rw [hCf V hVC]; exact hBV
                have hCR : dC.lookup R = some (Node.file cr true) := by
                  rw [hCf R hRC]; exact hBR
                have hC1 : WriteFile dC V cv = (dC, false) := WriteFile_again dC V cv hCV
                have hC2 : WriteFile dC R cr = (dC, false) := WriteFile_again dC R cr hCR
                have hE2 : fileExists dC C = true := fileExists_of_file dC C cc true hCC
                have h1 : F d = (dC, Outcome.returned none) := by
                  rw [hF, hD]; simp only [hA, if_true, hB, hE, hC]; rfl
                have h2 : F dC = (dC, Outcome.returned none) := by
                  rw [hF, hDC]; simp only [hC1, if_true, hC2, hE2]; rfl
                rw [h1]; exact h2

/-- What the writes leave behind, for any four pairwise different paths in
the places of the types directory and the three files. -/
theorem emit_facts (en : Bool) (T V R C cv cr cc : List Char) (err : GenerateError)
    (hVR : V ≠ R) (hVC : V ≠ C) (hRC : R ≠ C)
    (F : Disk → Disk × Outcome)
    (hF : ∀ disk, F disk =
      match dirExists disk T with
      | none => (disk, Outcome.panicked)
      | some false => (disk, Outcome.returned (some err))
      | some true =>
        match WriteFile disk V cv with
        | (disk1, true) => (disk1, Outcome.returned (some GenerateError.validateFileFailed))
        | (disk1, false) =>
          if en then
            match WriteFile disk1 R cr with
            | (disk2, true) => (disk2, Outcome.returned (some GenerateError.translatorFileFailed))
            | (disk2, false) =>
              if !fileExists disk2 C then
                match WriteFile disk2 C cc with
                | (disk3, true) =>
                  (disk3, Outcome.returned (some GenerateError.customTemplateFailed))
                | (disk3, false) => (disk3, Outcome.returned none)
              else (disk2, Outcome.returned none)
          else (disk1, Outcome.returned none))
    (d d1 : Disk) (o : Outcome) (h : F d = (d1, o)) :
    (∀ p, p ≠ V → p ≠ R → p ≠ C → d1.lookup p = d.lookup p) ∧
    (fileExists d C = true → d1.lookup C = d.lookup C) ∧
    (d1.lookup C = d.lookup C ∨
      (fileExists d C = false ∧ en = true ∧ d1.lookup C = some (Node.file cc true))) ∧
    (en = false → d1.lookup R = d.lookup R ∧ d1.lookup C = d.lookup C) ∧
    (o = Outcome.returned none →
      dirExists d T = some true ∧
      d1.lookup V = some (Node.file cv true) ∧
      (en = true → d1.lookup R = some (Node.file cr true)) ∧
      (en = true → fileExists d C = false → d1.lookup C = some (Node.file cc true))) ∧
    (dirExists d T = some false → d1 = d ∧ o = Outcome.returned (some err)) ∧
    (dirExists d T = none → d1 = d ∧ o = Outcome.panicked) := by
  cases hD : dirExists d T with
  | none =>
    have h1 : F d = (d, Outcome.panicked) := by rw [hF, hD]
    rw [h1] at h; cases h
    exact ⟨fun _ _ _ _ => rfl, fun _ => rfl, Or.inl rfl, fun _ => ⟨rfl, rfl⟩,
      fun ho => (by cases ho), fun hh => (by cases hh), fun _ => ⟨rfl, rfl⟩⟩
  | some b =>
    cases b with
    | false =>
      have h1 : F d = (d, Outcome.returned (some err)) := by rw [hF, hD]
      rw [h1] at h; cases h
      exact ⟨fun _ _ _ _ => rfl, fun _ => rfl, Or.inl rfl, fun _ => ⟨rfl, rfl⟩,
        fun ho => (by cases ho), fun _ => ⟨rfl, rfl⟩, fun hh => (by cases hh)⟩
    | true =>
      rcases hA : WriteFile d V cv with ⟨dA, eA⟩
      cases eA with
      | true =>
        have hdA : dA = d := WriteFile_true d dA V cv hA
        subst hdA
        have h1 : F dA = (dA, Outcome.returned (some GenerateError.validateFileFailed)) := by
          rw [hF, hD]; simp only [hA]
        rw [h1] at h; cases h
        exact ⟨fun _ _ _ _ => rfl, fun _ => rfl, Or.inl rfl, fun _ => ⟨rfl, rfl⟩,
          fun ho => (by cases ho), fun hh => (by cases hh), fun hh => (by cases hh)⟩
      | false =>
        have hAV := WriteFile_false d dA V cv hA
        have hAf := fun p (hp : p ≠ V) => WriteFile_frame d dA V cv p false hA hp
        cases en with
        | false =>
          have h1 : F d = (dA, Outcome.returned none) := by
            rw [hF, hD]; simp only [hA]; rfl
          rw [h1] at h; cases h
          exact ⟨fun p hp _ _ => hAf p hp, fun _ => hAf C hVC.symm, Or.inl (hAf C hVC.symm),
            fun _ => ⟨hAf R hVR.symm, hAf C hVC.symm⟩,
            fun _ => ⟨rfl, hAV, fun hh => (by cases hh), fun hh => (by cases hh)⟩,
            fun hh => (by cases hh), fun hh => (by cases hh)⟩
        | true =>
          rcases hB : WriteFile dA R cr with ⟨dB, eB⟩
          cases eB with
          | true =>
            have hdB : dB = dA := WriteFile_true dA dB R cr hB
            subst hdB
            have h1 : F d = (dB, Outcome.returned (some GenerateError.translatorFileFailed)) := by
              rw [hF, hD]; simp only [hA, if_true, hB]
            rw [h1] at h; cases h
            exact ⟨fun p hp _ _ => hAf p hp, fun _ => hAf C hVC.symm, Or.inl (hAf C hVC.symm),
              fun hh => (by cases hh), fun ho => (by cases ho),
              fun hh => (by cases hh), fun hh => (by cases hh)⟩
          | false =>
            have hBR := WriteFile_false dA dB R cr hB
            have hBf := fun p (hp : p ≠ R) => WriteFile_frame dA dB R cr p false hB hp
            have hBV : dB.lookup V = some (Node.file cv true) := by
              rw [hBf V hVR]; exact hAV
            have hBC : dB.lookup C = d.lookup C := by
              rw [hBf C hRC.symm]; exact hAf C hVC.symm
            have hEd : fileExists dB C = fileExists d C := fileExists_congr d dB C hBC
            cases hE : fileExists dB C with
            | true =>
              have h1 : F d = (dB, Outcome.returned none) := by
                rw [hF, hD]; simp only [hA, if_true, hB, hE]; rfl
              rw [h1] at h; cases h
              refine ⟨fun p hpV hpR _ => ?_, fun _ => hBC, Or.inl hBC,
                fun hh => (by cases hh),
                fun _ => ⟨rfl, hBV, fun _ => hBR, fun _ hh => ?_⟩,
                fun hh => (by cases hh), fun hh => (by cases hh)⟩
              · rw [hBf p hpR]; exact hAf p hpV
              · rw [← hEd, hE] at hh; cases hh
            | false =>
              rcases hC : WriteFile dB C cc with ⟨dC, eC⟩
              cases eC with
              | true =>
                have hdC : dC = dB := WriteFile_true dB dC C cc hC
                subst hdC
                have h1 : F d =
                    (dC, Outcome.returned (some GenerateError.customTemplateFailed)) := by
                  rw [hF, hD]; simp only [hA, if_true, hB, hE, hC]; rfl
                rw [h1] at h; cases h
                refine ⟨fun p hpV hpR _ => ?_, fun _ => hBC, Or.inl hBC,
                  fun hh => (by cases hh), fun ho => (by cases ho),
                  fun hh => (by cases hh), fun hh => (by cases hh)⟩
                rw [hBf p hpR]; exact hAf p hpV
              | false =>
                have hCC := WriteFile_false dB dC C cc hC
                have hCf := fun p (hp : p ≠ C) => WriteFile_frame dB dC C cc p false hC hp
                have hCV : dC.lookup V = some (Node.file cv true) := by
                  rw [hCf V hVC]; exact hBV
                have hCR : dC.lookup R = some (Node.file cr true) := by
                  rw [hCf R hRC]; exact hBR
                have h1 : F d = (dC, Outcome.returned none) := by
                  rw [hF, hD]; simp only [hA, if_true, hB, hE, hC]; rfl
                rw [h1] at h; cases h
                refine ⟨fun p hpV hpR hpC => ?_, fun hh => ?_,
                  Or.inr ⟨(by rw [← hEd]; exact hE), rfl, hCC⟩,
                  fun hh => (by cases hh),
                  fun _ => ⟨rfl, hCV, fun _ => hCR, fun _ _ => hCC⟩,
                  fun hh => (by cases hh), fun hh => (by cases hh)⟩
                · rw [hCf p hpC, hBf p hpR]; exact hAf p hpV
                · rw [← hEd, hE] at hh; cases hh

theorem writeOutputs_facts (g : ValidateGenerator) (d d1 : Disk) (recs : List ValidateStruct)
    (o : Outcome) (h : writeOutputs g d recs = (d1, o)) :
    (∀ p, p ≠ validateFileOf g → p ≠ translatorFileOf g → p ≠ customTranslatorFileOf g →
      d1.lookup p = d.lookup p) ∧
    (fileExists d (customTranslatorFileOf g) = true →
      d1.lookup (customTranslatorFileOf g) = d.lookup (customTranslatorFileOf g)) ∧
    (d1.lookup (customTranslatorFileOf g) = d.lookup (customTranslatorFileOf g) ∨
      (fileExists d (customTranslatorFileOf g) = false ∧ g.options.EnableTranslator = true ∧
        d1.lookup (customTranslatorFileOf g) =
          some (Node.file renderCustomTranslatorTemplate true))) ∧
    (g.options.EnableTranslator = false →
      d1.lookup (translatorFileOf g) = d.lookup (translatorFileOf g) ∧
      d1.lookup (customTranslatorFileOf g) = d.lookup (customTranslatorFileOf g)) ∧
    (o = Outcome.returned none →
      dirExists d (typesDirOf g) = some true ∧
      d1.lookup (validateFileOf g) = some (Node.file (validateContent g recs) true) ∧
      (g.options.EnableTranslator = true →
        d1.lookup (translatorFileOf g) = some (Node.file renderTranslatorTemplate true)) ∧
      (g.options.EnableTranslator = true → fileExists d (customTranslatorFileOf g) = false →
        d1.lookup (customTranslatorFileOf g) =
          some (Node.file renderCustomTranslatorTemplate true))) ∧
    (dirExists d (typesDirOf g) = some false →
      d1 = d ∧ o = Outcome.returned (some (GenerateError.typesDirNotFound (typesDirOf g)))) ∧
    (dirExists d (typesDirOf g) = none → d1 = d ∧ o = Outcome.panicked) := by
  obtain ⟨_, _, _, hVR, hVC, hRC⟩ := paths_ne g
  exact emit_facts g.options.EnableTranslator _ _ _ _ _ _ _ _ hVR hVC hRC
    (fun disk => writeOutputs g disk recs) (fun disk => writeOutputs_eq g disk recs) d d1 o h

theorem writeOutputs_idem (g : ValidateGenerator) (d : Disk) (recs : List ValidateStruct) :
    writeOutputs g (writeOutputs g d recs).1 recs = writeOutputs g d recs := by
  obtain ⟨hTV, hTR, hTC, hVR, hVC, hRC⟩ := paths_ne g
  exact emit_idem g.options.EnableTranslator _ _ _ _ _ _ _ _ hTV hTR hTC hVR hVC hRC
    (fun disk => writeOutputs g disk recs) (fun disk => writeOutputs_eq g disk recs) d

theorem Generate_of_records (g : ValidateGenerator) (w : World) (recs : List ValidateStruct)
    (hp : parseAPIFileForValidateStructs w.docs g.plugin.ApiFilePath = some (recs, none))
    (hne : recs ≠ []) :
    Generate g w =
      some ({ w with disk := (writeOutputs g w.disk recs).1 }, (writeOutputs g w.disk recs).2) := by
  unfold Generate
  rw [hp]
  simp only []
  rw [if_neg (by simpa using hne)]

theorem Generate_of_no_records (g : ValidateGenerator) (w : World)
    (hp : parseAPIFileForValidateStructs w.docs g.plugin.ApiFilePath = some ([], none)) :
    Generate g w = some (w, Outcome.returned none) := by
  unfold Generate
  rw [hp]
  rfl

/-- A call of `Generate` returns; it leaves the schema documents as they are,
and it either leaves the output tree as it is or performs the writes for a
non-empty list of descriptors. -/
theorem Generate_cases (g : ValidateGenerator) (w : World) :
    ∃ w1 o, Generate g w = some (w1, o) ∧ w1.docs = w.docs ∧
      (w1 = w ∨ ∃ recs, recs ≠ [] ∧
        parseAPIFileForValidateStructs w.docs g.plugin.ApiFilePath = some (recs, none) ∧
        writeOutputs g w.disk recs = (w1.disk, o)) := by
  obtain ⟨acc, e, _, hp⟩ := parseAPIFileForValidateStructs_run w.docs g.plugin.ApiFilePath
  cases e with
  | some err =>
    refine ⟨w, Outcome.returned (some (GenerateError.parseFailed err)), ?_, rfl, Or.inl rfl⟩
    unfold Generate
    rw [hp]
  | none =>
    simp only [] at hp
    by_cases hz : acc.validateStructs = []
    · rw [hz] at hp
      exact ⟨w, _, Generate_of_no_records g w hp, rfl, Or.inl rfl⟩
    · exact ⟨_, _, Generate_of_records g w _ hp hz, rfl, Or.inr ⟨_, hz, hp, rfl⟩⟩

theorem execRange_validate (structs : List ValidateStruct) :
    execRange
      [Part.text "\n// Validate 验证".toList false,
       Part.name,
       Part.text "结构体\nfunc (r *".toList false,
       Part.name,
       Part.text ") Validate() error \x7b\n\treturn validate.Struct(r)\n\x7d\n".toList true]
      structs = (structs.map (fun s => validateMethod s.Name)).flatten := by
  induction structs with
  | nil => rfl
  | cons s rest ih =>
    rw [execRange, ih, List.map_cons, List.flatten_cons]
    congr 1
    simp only [execParts, emitText, validateMethod, List.append_assoc, List.append_nil,
      Bool.false_eq_true, if_false, if_true]
    congr 4

/-- C13. Customization preservation: every call of `Generate` returns, and
for every schema and every output tree, the node at `translator_custom.go`
is after the call what it was before when the file existed (`os.Stat` gave
anything but "does not exist"); when the node is not what it was, the file
was absent, the translator option is on, and the node is a regular file
holding the fixed stub text. -/
theorem custom_translator_preserved (g : ValidateGenerator) (w : World) :
    ∃ w1 o, Generate g w = some (w1, o) ∧
      (fileExists w.disk (customTranslatorFileOf g) = true →
        w1.disk.lookup (customTranslatorFileOf g) = w.disk.lookup (customTranslatorFileOf g)) ∧
      (w1.disk.lookup (customTranslatorFileOf g) ≠ w.disk.lookup (customTranslatorFileOf g) →
        fileExists w.disk (customTranslatorFileOf g) = false ∧
        g.options.EnableTranslator = true ∧
        w1.disk.lookup (customTranslatorFileOf g) =
          some (Node.file renderCustomTranslatorTemplate true)) := by
  obtain ⟨w1, o, h, _, hc⟩ := Generate_cases g w
  refine ⟨w1, o, h, ?_, ?_⟩
  · intro hex
    rcases hc with hc | ⟨recs, _, _, hw⟩
    · rw [hc]
    · exact (writeOutputs_facts g w.disk w1.disk recs o hw).2.1 hex
  · intro hne
    rcases hc with hc | ⟨recs, _, _, hw⟩
    · rw [hc] at hne; exact absurd rfl hne
    · rcases (writeOutputs_facts g w.disk w1.disk recs o hw).2.2.1 with h1 | h1
      · exact absurd h1 hne
      · exact h1

/-- C13, on a schema with one record and a customised stub in place: the stub
keeps its content. -/
theorem custom_translator_preserved_witness :
    ∃ w1 o, Generate (sampleGenerator true) { docs := oneRecordDocs, disk := customisedDisk } =
        some (w1, o) ∧
      w1.disk.lookup "out/internal/types/translator_custom.go".toList =
        some (Node.file "// mine".toList true) := by
  obtain ⟨w1, o, h, hkeep, _⟩ :=
    custom_translator_preserved (sampleGenerator true)
      { docs := oneRecordDocs, disk := customisedDisk }
  exact ⟨w1, o, h, hkeep (by decide)⟩

/-- C14. Emission is idempotent: every call of `Generate` returns, and a
second call with the same generator on the state the first call left returns
the same outcome and leaves that state, the whole output tree with
`validate.go` and `translator.go` in it, as it is. -/
theorem generate_idempotent (g : ValidateGenerator) (w : World) :
    ∃ w1 o, Generate g w = some (w1, o) ∧ Generate g w1 = some (w1, o) := by
  obtain ⟨w1, o, h, hdocs, hc⟩ := Generate_cases g w
  refine ⟨w1, o, h, ?_⟩
  rcases hc with hc | ⟨recs, hne, hp, hw⟩
  · rw [hc]; rw [hc] at h; exact h
  · rw [← hdocs] at hp
    rw [Generate_of_records g w1 recs hp hne]
    have h2 := writeOutputs_idem g w.disk recs
    rw [hw] at h2
    simp only [] at h2
    rw [h2]

/-- C14, on a schema with one record, the translator option on and an
earlier `validate.go` in the types directory. -/
theorem generate_idempotent_witness :
    ∃ w1 o, Generate (sampleGenerator true) { docs := oneRecordDocs, disk := staleDisk } =
        some (w1, o) ∧
      Generate (sampleGenerator true) w1 = some (w1, o) :=
  generate_idempotent (sampleGenerator true) { docs := oneRecordDocs, disk := staleDisk }

/-- C15. The validation file: for every list of descriptors, `renderTemplate`
gives the header (package clause, validator import, declaration of the
shared instance), then one `Validate` method per descriptor in the order of
the list, each with the name of its descriptor as receiver type and a body
that calls `validate.Struct`, then a newline.  There are as many methods as
descriptors, and the header declares the shared instance once. -/
theorem renderTemplate_header_then_methods (data : TemplateData) :
    renderTemplate data =
        validateHeader data.Package ++
          (data.Structs.map (fun s => validateMethod s.Name)).flatten ++ ['\n'] ∧
      (data.Structs.map (fun s => validateMethod s.Name)).length = data.Structs.length ∧
      occurrences "var validate".toList validateHeaderText = 1 ∧
      occurrences "import".toList validateHeaderText = 1 ∧
      (∀ name : List Char,
        validateMethod name =
          "\n// Validate 验证".toList ++ name ++ "结构体\nfunc (r *".toList ++ name ++
            ") Validate() error \x7b\n\treturn validate.Struct(r)\n\x7d".toList) := by
  refine ⟨?_, by simp, by decide, by decide, fun _ => rfl⟩
  unfold renderTemplate validateTemplate
  simp only [execBlocks]
  rw [execRange_validate]
  simp only [validateHeader, List.append_assoc, List.append_nil]
  congr 2

set_option maxRecDepth 4000 in
/-- C15, for the descriptors `A` and `B` in this order. -/
theorem renderTemplate_header_then_methods_witness :
    renderTemplate
        { Package := "types".toList, EnableTranslator := false,
          Structs := [{ Name := "A".toList, Fields := [] }, { Name := "B".toList, Fields := [] }] } =
      ("package types\n\nimport (\n\t\"github.com/go-playground/validator/v10\"\n)\n\n" ++
        "// 共享的validator实例\nvar validate = validator.New()\n" ++
        "// Validate 验证A结构体\nfunc (r *A) Validate() error \x7b\n" ++
        "\treturn validate.Struct(r)\n\x7d\n" ++
        "// Validate 验证B结构体\nfunc (r *B) Validate() error \x7b\n" ++
        "\treturn validate.Struct(r)\n\x7d\n").toList :=
  (renderTemplate_header_then_methods
    { Package := "types".toList, EnableTranslator := false,
      Structs := [{ Name := "A".toList, Fields := [] },
                  { Name := "B".toList, Fields := [] }] }).1.trans rfl

/-- C16. No record, no output: when the parse succeeds with no descriptor,
`Generate` returns nil and leaves the file system as it is, whatever the
translator option and whatever the output tree holds. -/
theorem generate_no_records_noop (g : ValidateGenerator) (w : World)
    (hp : parseAPIFileForValidateStructs w.docs g.plugin.ApiFilePath = some ([], none)) :
    Generate g w = some (w, Outcome.returned none) :=
  Generate_of_no_records g w hp

/-- C16, on a schema without a record, with the translator option on and
with an empty output tree. -/
theorem generate_no_records_noop_witness :
    parseAPIFileForValidateStructs noRecordDocs "a.api".toList = some ([], none) ∧
      Generate (sampleGenerator true) { docs := noRecordDocs, disk := [] } =
        some ({ docs := noRecordDocs, disk := [] }, Outcome.returned none) :=
  ⟨by decide,
    generate_no_records_noop (sampleGenerator true) { docs := noRecordDocs, disk := [] }
      (by decide)⟩

/-- C18. Output artifacts by option: when the parse gives at least one
descriptor and `Generate` returns nil, `validate.go` is a regular file with
the rendered content, whatever it was before; with the translator option off
the nodes at `translator.go` and `translator_custom.go` are what they were;
with the option on `translator.go` is a regular file with the translator
text.  A generator made without options has the option off. -/
theorem generate_artifacts_by_option (g : ValidateGenerator) (w w1 : World)
    (recs : List ValidateStruct)
    (hp : parseAPIFileForValidateStructs w.docs g.plugin.ApiFilePath = some (recs, none))
    (hne : recs ≠ [])
    (h : Generate g w = some (w1, Outcome.returned none)) :
    w1.disk.lookup (validateFileOf g) = some (Node.file (validateContent g recs) true) ∧
      (g.options.EnableTranslator = false →
        w1.disk.lookup (translatorFileOf g) = w.disk.lookup (translatorFileOf g) ∧
        w1.disk.lookup (customTranslatorFileOf g) =
          w.disk.lookup (customTranslatorFileOf g)) ∧
      (g.options.EnableTranslator = true →
        w1.disk.lookup (translatorFileOf g) =
          some (Node.file renderTranslatorTemplate true)) ∧
      (∀ p : Plugin, (NewValidateGenerator p none).options.EnableTranslator = false) := by
  rw [Generate_of_records g w recs hp hne] at h
  have hw : writeOutputs g w.disk recs = (w1.disk, Outcome.returned none) := by
    have h2 := Option.some.inj h
    have h3 := congrArg (fun r : World × Outcome => r.1.disk) h2
    have h4 := congrArg (fun r : World × Outcome => r.2) h2
    simp only [] at h3 h4
    exact Prod.ext h3 h4
  have hf := writeOutputs_facts g w.disk w1.disk recs _ hw
  have hs := hf.2.2.2.2.1 rfl
  exact ⟨hs.2.1, hf.2.2.2.1, hs.2.2.1, fun _ => rfl⟩

/-- C18, on a schema with one record and an earlier `validate.go`: with the
option off the file is replaced by the rendered text and no translator file
appears; with the option on `translator.go` holds the translator text. -/
theorem generate_artifacts_by_option_witness :
    (∃ w1, Generate (sampleGenerator false) { docs := oneRecordDocs, disk := staleDisk } =
        some (w1, Outcome.returned none) ∧
      w1.disk.lookup "out/internal/types/validate.go".toList =
        some (Node.file
          ("package types\n\nimport (\n\t\"github.com/go-playground/validator/v10\"\n)\n\n" ++
            "// 共享的validator实例\nvar validate = validator.New()\n" ++
            "// Validate 验证A结构体\nfunc (r *A) Validate() error \x7b\n" ++
            "\treturn validate.Struct(r)\n\x7d\n").toList true) ∧
      w1.disk.lookup "out/internal/types/translator.go".toList = none ∧
      w1.disk.lookup "out/internal/types/translator_custom.go".toList = none) ∧
    (∃ w1, Generate (sampleGenerator true) { docs := oneRecordDocs, disk := staleDisk } =
        some (w1, Outcome.returned none) ∧
      w1.disk.lookup "out/internal/types/translator.go".toList =
        some (Node.file renderTranslatorTemplate true)) := by
  have hp : parseAPIFileForValidateStructs oneRecordDocs "a.api".toList =
      some ([{ Name := "A".toList,
               Fields := [{ Name := "X".toList, Typ := "int".toList,
                            ValidateRule := "required".toList, JsonTag := [] }] }], none) := by
    decide
  refine ⟨⟨_, Generate_of_records (sampleGenerator false)
      { docs := oneRecordDocs, disk := staleDisk } _ hp (by decide), ?_⟩,
    ⟨_, Generate_of_records (sampleGenerator true)
      { docs := oneRecordDocs, disk := staleDisk } _ hp (by decide), ?_⟩⟩
  · have h := generate_artifacts_by_option (sampleGenerator false)
      { docs := oneRecordDocs, disk := staleDisk } _ _ hp (by decide)
      (Generate_of_records (sampleGenerator false)
        { docs := oneRecordDocs, disk := staleDisk } _ hp (by decide))
    exact ⟨h.1.trans rfl, (h.2.1 rfl).1.trans (by decide),
      (h.2.1 rfl).2.trans (by decide)⟩
  · exact (generate_artifacts_by_option (sampleGenerator true)
      { docs := oneRecordDocs, disk := staleDisk } _ _ hp (by decide)
      (Generate_of_records (sampleGenerator true)
        { docs := oneRecordDocs, disk := staleDisk } _ hp (by decide))).2.2.1 rfl

theorem resolveImportPath_statOk (fs1 fs2 : FS) (h : ∀ p, statOk fs1 p = statOk fs2 p)
    (ip cur : List Char) : resolveImportPath fs1 ip cur = resolveImportPath fs2 ip cur := by
  unfold resolveImportPath
  simp only [h]

theorem parseImportLine_statOk (fs1 fs2 : FS) (h : ∀ p, statOk fs1 p = statOk fs2 p)
    (line cur : List Char) : parseImportLine fs1 line cur = parseImportLine fs2 line cur := by
  unfold parseImportLine
  split <;> simp [resolveImportPath_statOk fs1 fs2 h]

theorem parseImportPathFromLine_statOk (fs1 fs2 : FS) (h : ∀ p, statOk fs1 p = statOk fs2 p)
    (line cur : List Char) :
    parseImportPathFromLine fs1 line cur = parseImportPathFromLine fs2 line cur := by
  unfold parseImportPathFromLine
  split <;> simp [resolveImportPath_statOk fs1 fs2 h]

theorem scanLine_statOk (r : Recur) (fs1 fs2 : FS) (h : ∀ p, statOk fs1 p = statOk fs2 p)
    (p raw : List Char) (st : ScanState) (acc : ParseAcc) :
    scanLine r fs1 p raw st acc = scanLine r fs2 p raw st acc := by
  unfold scanLine
  simp only [parseImportLine_statOk fs1 fs2 h, parseImportPathFromLine_statOk fs1 fs2 h]

theorem scanLines_statOk (r : Recur) (fs1 fs2 : FS) (h : ∀ p, statOk fs1 p = statOk fs2 p)
    (p : List Char) (lines : List (List Char)) (st : ScanState) (acc : ParseAcc) :
    scanLines r fs1 p lines st acc = scanLines r fs2 p lines st acc := by
  induction lines generalizing st acc with
  | nil => rfl
  | cons raw rest ih =>
    simp only [scanLines, scanLine_statOk r fs1 fs2 h]
    cases scanLine r fs2 p raw st acc with
    | none => rfl
    | some x => exact ih x.1 x.2

theorem not_opens_lookup (fs : FS) (q : List Char) (h : ¬ Opens fs q) :
    fs.lookup q = none ∨ fs.lookup q = some Entry.locked := by
  rcases hl : fs.lookup q with _ | e
  · exact Or.inl rfl
  · cases e with
    | file lines se => exact absurd ⟨lines, se, hl⟩ h
    | locked => exact Or.inr rfl

/-- On tables whose documents scan alike the recursive parse is the same
function, for every amount of fuel. -/
theorem parseAPIFileRecursively_alike (fs1 fs2 : FS) (h : ScanAlike fs1 fs2) (fuel : Nat) :
    parseAPIFileRecursively fuel fs1 = parseAPIFileRecursively fuel fs2 := by
  induction fuel with
  | zero => funext q acc; rfl
  | succ n ih =>
    funext q acc
    by_cases hq : q ∈ acc.processedFiles
    · simp [parseAPIFileRecursively, hq]
    · rcases h.2 q with ⟨h1, h2⟩ | ⟨l1, l2, e, h1, h2, hs⟩
      · rw [parseAPIFileRecursively_noOpen n fs1 q acc hq (not_opens_lookup fs1 q h1),
          parseAPIFileRecursively_noOpen n fs2 q acc hq (not_opens_lookup fs2 q h2)]
      · rw [parseAPIFileRecursively_file n fs1 q acc l1 e hq h1,
          parseAPIFileRecursively_file n fs2 q acc l2 e hq h2, ← ih,
          ← scanLines_statOk _ fs1 fs2 h.1]
        have hh := hs (parseAPIFileRecursively n fs1)
          { acc with processedFiles := q :: acc.processedFiles }
        cases ha : scanLines (parseAPIFileRecursively n fs1) fs1 q l1 ScanState.init
            { acc with processedFiles := q :: acc.processedFiles } with
        | none =>
          rw [ha] at hh
          cases hb : scanLines (parseAPIFileRecursively n fs1) fs1 q l2 ScanState.init
              { acc with processedFiles := q :: acc.processedFiles } with
          | none => rfl
          | some y => rw [hb] at hh; exact absurd hh (by simp)
        | some x =>
          rw [ha] at hh
          cases hb : scanLines (parseAPIFileRecursively n fs1) fs1 q l2 ScanState.init
              { acc with processedFiles := q :: acc.processedFiles } with
          | none => rw [hb] at hh; exact absurd hh (by simp)
          | some y =>
            rw [hb] at hh
            simp only [Option.map_some', Option.some.injEq] at hh ⊢
            rw [hh]

/-- Tables whose documents scan alike give the same result from every root. -/
theorem parseAPIFileForValidateStructs_alike (fs1 fs2 : FS) (h : ScanAlike fs1 fs2)
    (root : List Char) :
    parseAPIFileForValidateStructs fs1 root = parseAPIFileForValidateStructs fs2 root := by
  obtain ⟨a1, e1, hr1, ht1⟩ := parseAPIFileForValidateStructs_run fs1 root
  obtain ⟨a2, e2, hr2, ht2⟩ := parseAPIFileForValidateStructs_run fs2 root
  have g1 := parseAPIFileRecursively_fuel_add _ (fs2.length + 1) fs1 root _ _ hr1
  have g2 := parseAPIFileRecursively_fuel_add _ (fs1.length + 1) fs2 root _ _ hr2
  rw [parseAPIFileRecursively_alike fs1 fs2 h,
    show fs1.length + 1 + (fs2.length + 1) = fs2.length + 1 + (fs1.length + 1) by omega, g2] at g1
  simp only [Option.some.injEq, Prod.mk.injEq] at g1
  rw [ht1, ht2, g1.1, g1.2]

theorem trimLeft_spaces_append (a x : List Char) (ha : ∀ c ∈ a, isUnicodeSpace c = true) :
    trimLeft (a ++ x) = trimLeft x := by
  induction a with
  | nil => rfl
  | cons c cs ih =>
    have hc : isUnicodeSpace c = true := ha c (by simp)
    rw [List.cons_append, trimLeft, if_pos hc]
    exact ih (fun d hd => ha d (by simp [hd]))

theorem trimLeft_suffix (s : List Char) : trimLeft s <:+ s := by
  induction s with
  | nil => exact List.suffix_refl _
  | cons c cs ih =>
    rw [trimLeft]
    split
    · exact ih.trans (List.suffix_cons c cs)
    · exact List.suffix_refl _

theorem trimLeft_head (s : List Char) (c : Char) (rest : List Char)
    (h : trimLeft s = c :: rest) : isUnicodeSpace c = false := by
  induction s with
  | nil => simp [trimLeft] at h
  | cons d ds ih =>
    rw [trimLeft] at h
    split at h
    · exact ih h
    · rename_i hd
      cases h
      simpa using hd

theorem trimLeft_of_head (s : List Char)
    (h : ∀ c rest, s = c :: rest → isUnicodeSpace c = false) : trimLeft s = s := by
  cases s with
  | nil => rfl
  | cons c cs =>
    rw [trimLeft, if_neg (by rw [h c cs rfl]; simp)]

theorem trimLeft_idem (s : List Char) : trimLeft (trimLeft s) = trimLeft s :=
  trimLeft_of_head _ (fun c rest h => trimLeft_head s c rest h)

/-- Trimming a trimmed text changes nothing. -/
theorem TrimSpace_idem (s : List Char) : TrimSpace (TrimSpace s) = TrimSpace s := by
  unfold TrimSpace
  have hpre : (trimLeft (trimLeft s).reverse).reverse <+: trimLeft s := by
    have := trimLeft_suffix (trimLeft s).reverse
    rw [← List.reverse_prefix, List.reverse_reverse] at this
    exact this
  have h1 : trimLeft (trimLeft (trimLeft s).reverse).reverse =
      (trimLeft (trimLeft s).reverse).reverse := by
    apply trimLeft_of_head
    intro c rest hc
    obtain ⟨t, ht⟩ := hpre
    rw [hc] at ht
    exact trimLeft_head s c (rest ++ t) (by rw [← ht]; rfl)
  rw [h1, List.reverse_reverse, trimLeft_idem]

theorem trimLeft_reverse_append_spaces (l b : List Char)
    (hb : ∀ c ∈ b, isUnicodeSpace c = true) :
    trimLeft (trimLeft (l ++ b)).reverse = trimLeft (trimLeft l).reverse := by
  induction l with
  | nil =>
    have h0 : trimLeft b = [] := by
      have := trimLeft_spaces_append b [] hb
      rw [List.append_nil] at this
      exact this
    rw [List.nil_append, h0]
    rfl
  | cons c cs ih =>
    rw [List.cons_append, trimLeft, trimLeft]
    by_cases hc : isUnicodeSpace c = true
    · rw [if_pos hc, if_pos hc]; exact ih
    · rw [if_neg hc, if_neg hc]
      rw [show c :: (cs ++ b) = (c :: cs) ++ b from rfl, List.reverse_append]
      exact trimLeft_spaces_append b.reverse _ (fun d hd => hb d (List.mem_reverse.mp hd))

/-- White space added before and after a text does not change its trimmed
text. -/
theorem TrimSpace_pad (a l b : List Char) (ha : ∀ c ∈ a, isUnicodeSpace c = true)
    (hb : ∀ c ∈ b, isUnicodeSpace c = true) : TrimSpace (a ++ (l ++ b)) = TrimSpace l := by
  unfold TrimSpace
  rw [trimLeft_spaces_append a (l ++ b) ha, trimLeft_reverse_append_spaces l b hb]

theorem scanLine_trim (r : Recur) (fs : FS) (p raw : List Char) (st : ScanState)
    (acc : ParseAcc) :
    scanLine r fs p (TrimSpace raw) st acc = scanLine r fs p raw st acc := by
  unfold scanLine
  rw [TrimSpace_idem]

theorem scanLines_trim (r : Recur) (fs : FS) (p : List Char) (lines : List (List Char))
    (st : ScanState) (acc : ParseAcc) :
    scanLines r fs p (lines.map TrimSpace) st acc = scanLines r fs p lines st acc := by
  induction lines generalizing st acc with
  | nil => rfl
  | cons raw rest ih =>
    simp only [List.map_cons, scanLines, scanLine_trim]
    cases scanLine r fs p raw st acc with
    | none => rfl
    | some x => exact ih x.1 x.2

theorem lookup_trimFS (fs : FS) (p : List Char) :
    (trimFS fs).lookup p = (fs.lookup p).map trimEntry := by
  induction fs with
  | nil => rfl
  | cons x rest ih =>
    obtain ⟨k, v⟩ := x
    unfold trimFS at ih ⊢
    simp only [List.map_cons, List.lookup]
    cases p == k with
    | true => rfl
    | false => exact ih

theorem scanAlike_trimFS (fs : FS) : ScanAlike fs (trimFS fs) := by
  refine ⟨fun p => ?_, fun q => ?_⟩
  · unfold statOk
    rw [lookup_trimFS]
    cases fs.lookup p <;> rfl
  · rcases hl : fs.lookup q with _ | e
    · refine Or.inl ⟨fun ⟨l, e, h⟩ => (by rw [hl] at h; cases h), fun ⟨l, e, h⟩ => ?_⟩
      rw [lookup_trimFS, hl] at h
      cases h
    · cases e with
      | locked =>
        refine Or.inl ⟨fun ⟨l, e, h⟩ => (by rw [hl] at h; cases h), fun ⟨l, e, h⟩ => ?_⟩
        rw [lookup_trimFS, hl] at h
        cases h
      | file lines se =>
        refine Or.inr ⟨lines, lines.map TrimSpace, se, rfl, ?_, fun r acc => ?_⟩
        · rw [lookup_trimFS, hl]; rfl
        · rw [scanLines_trim]

theorem parseAPIFileForValidateStructs_trimFS (fs : FS) (root : List Char) :
    parseAPIFileForValidateStructs fs root = parseAPIFileForValidateStructs (trimFS fs) root :=
  parseAPIFileForValidateStructs_alike fs (trimFS fs) (scanAlike_trimFS fs) root

theorem parseFieldLine_comment (line : List Char) (h : HasPrefix line "//".toList = true) :
    parseFieldLine line = none := by
  unfold parseFieldLine
  rw [if_pos h]

theorem comment_shape (line : List Char) (h : HasPrefix line "//".toList = true) :
    ∃ rest, line = '/' :: '/' :: rest := by
  unfold HasPrefix at h
  obtain ⟨t, ht⟩ := List.isPrefixOf_iff_prefix.mp h
  exact ⟨t, ht.symm⟩

theorem Count_of_not_contains (line : List Char) (c : Char) (h : Contains line c = false) :
    Count line c = 0 := by
  unfold Contains at h
  unfold Count
  have hm : c ∉ line := by
    intro hm
    have := List.elem_eq_true_of_mem hm
    rw [h] at this
    cases this
  rw [List.count_eq_zero_of_not_mem hm]
  rfl

theorem scanDecl_depth (line : List Char) (st : ScanState) (acc : ParseAcc)
    (hinv : DepthInv st) (hpos : Contains line '{' = true → 0 < braceDelta line) :
    DepthInv (scanDecl line st acc).1 := by
  unfold scanDecl
  split
  · exact hinv
  · split
    · exact hinv
    · split
      · exact hinv
      · unfold scanStruct
        have hbody : DepthInv (scanBody line st acc).1 := by
          unfold scanBody
          split
          · simp only
            split
            · intro hh; cases hh
            · rename_i hgt
              split
              · intro _; simp only; omega
              · intro _; simp only; omega
          · exact hinv
        split
        · rename_i hc
          simp only
          split
          · intro _
            simp only [Bool.and_eq_true] at hc
            exact hpos hc.1
          · exact hbody
        · exact hbody

theorem scanLine_depth (r : Recur) (fs : FS) (p raw : List Char) (st st1 : ScanState)
    (acc acc1 : ParseAcc) (h : scanLine r fs p raw st acc = some (st1, acc1))
    (hinv : DepthInv st)
    (hpos : Contains (TrimSpace raw) '{' = true → 0 < braceDelta (TrimSpace raw)) :
    DepthInv st1 := by
  rcases scanLine_cases r fs p raw st st1 acc acc1 h with ⟨_, b, hs⟩ | ⟨hs, _⟩ | ⟨_, hd⟩
  · rw [hs]; exact hinv
  · rw [hs]; exact hinv
  · have := scanDecl_depth (TrimSpace raw) st acc hinv hpos
    rw [← hd] at this
    exact this

theorem scanLines_depth (r : Recur) (fs : FS) (p : List Char) (lines : List (List Char))
    (st st1 : ScanState) (acc acc1 : ParseAcc)
    (h : scanLines r fs p lines st acc = some (st1, acc1)) (hinv : DepthInv st)
    (hpos : ∀ l ∈ lines, Contains (TrimSpace l) '{' = true → 0 < braceDelta (TrimSpace l)) :
    DepthInv st1 := by
  induction lines generalizing st acc with
  | nil =>
    simp only [scanLines, Option.some.injEq, Prod.mk.injEq] at h
    rw [← h.1]; exact hinv
  | cons raw rest ih =>
    simp only [scanLines] at h
    cases hl : scanLine r fs p raw st acc with
    | none => rw [hl] at h; exact absurd h (by simp)
    | some x =>
      obtain ⟨s2, a2⟩ := x
      rw [hl] at h
      exact ih s2 a2 h (scanLine_depth r fs p raw st s2 acc a2 hl hinv (hpos raw (by simp)))
        (fun l hm => hpos l (by simp [hm]))

/-- A comment line without a brace that is not read as an import leaves the
loop variables and the shared values as they are, in every state in which an
open record has a depth above zero. -/
theorem scanLine_comment (r : Recur) (fs : FS) (p c : List Char) (st : ScanState)
    (acc : ParseAcc) (hc : HasPrefix (TrimSpace c) "//".toList = true)
    (ho : Contains (TrimSpace c) '{' = false) (hcl : Contains (TrimSpace c) '}' = false)
    (hi1 : parseImportLine fs (TrimSpace c) p = [])
    (hi2 : parseImportPathFromLine fs (TrimSpace c) p = []) (hinv : DepthInv st) :
    scanLine r fs p c st acc = some (st, acc) := by
  obtain ⟨rest, hline⟩ := comment_shape _ hc
  have hfield := parseFieldLine_comment _ hc
  have hco := Count_of_not_contains _ _ ho
  have hcc := Count_of_not_contains _ _ hcl
  unfold scanLine
  simp only [hi1, hi2]
  rw [hline] at ho hco hcc hfield ⊢
  have h1 : HasPrefix ('/' :: '/' :: rest) "import (".toList = false := by
    simp [HasPrefix, String.toList, List.isPrefixOf]
  have h2 : HasPrefix ('/' :: '/' :: rest) "type (".toList = false := by
    simp [HasPrefix, String.toList, List.isPrefixOf]
  have h3 : ('/' :: '/' :: rest == ")".toList) = false := by
    simp [String.toList]
  rw [h1]
  simp only [h3, Bool.and_false, Bool.false_eq_true, if_false, ne_eq, not_true_eq_false]
  have hdecl : scanDecl ('/' :: '/' :: rest) st acc = (st, acc) := by
    unfold scanDecl
    rw [h2]
    simp only [h3, Bool.and_false, Bool.false_eq_true, if_false]
    split
    · rfl
    · unfold scanStruct
      rw [ho]
      simp only [Bool.false_and, Bool.false_eq_true, if_false]
      unfold scanBody
      split
      · rename_i cur hs hcur
        simp only [hco, hcc, hfield]
        have hpos := hinv hs
        rw [if_neg (by omega)]
        simp only [sub_self, add_zero]
      · rfl
  split
  · rfl
  · rw [hdecl]

theorem scanLines_delete_comment (r : Recur) (fs : FS) (p c : List Char)
    (pre post : List (List Char)) (acc : ParseAcc)
    (hc : HasPrefix (TrimSpace c) "//".toList = true)
    (ho : Contains (TrimSpace c) '{' = false) (hcl : Contains (TrimSpace c) '}' = false)
    (hi1 : parseImportLine fs (TrimSpace c) p = [])
    (hi2 : parseImportPathFromLine fs (TrimSpace c) p = [])
    (hpos : ∀ l ∈ pre, Contains (TrimSpace l) '{' = true → 0 < braceDelta (TrimSpace l)) :
    scanLines r fs p (pre ++ c :: post) ScanState.init acc =
      scanLines r fs p (pre ++ post) ScanState.init acc := by
  rw [scanLines_append, scanLines_append]
  cases hpre : scanLines r fs p pre ScanState.init acc with
  | none => rfl
  | some x =>
    obtain ⟨st, a⟩ := x
    have hinv : DepthInv st :=
      scanLines_depth r fs p pre ScanState.init st acc a hpre (fun hh => by cases hh) hpos
    simp only [Option.some_bind, scanLines]
    rw [scanLine_comment r fs p c st a hc ho hcl hi1 hi2 hinv]

theorem scanAlike_delete_comment (fs1 fs2 : FS) (d c : List Char) (pre post : List (List Char))
    (e : Bool) (h1 : fs1.lookup d = some (Entry.file (pre ++ c :: post) e))
    (h2 : fs2.lookup d = some (Entry.file (pre ++ post) e))
    (hrest : ∀ p, p ≠ d → fs1.lookup p = fs2.lookup p)
    (hc : HasPrefix (TrimSpace c) "//".toList = true)
    (ho : Contains (TrimSpace c) '{' = false) (hcl : Contains (TrimSpace c) '}' = false)
    (hi1 : parseImportLine fs1 (TrimSpace c) d = [])
    (hi2 : parseImportPathFromLine fs1 (TrimSpace c) d = [])
    (hpos : ∀ l ∈ pre, Contains (TrimSpace l) '{' = true → 0 < braceDelta (TrimSpace l)) :
    ScanAlike fs1 fs2 := by
  refine ⟨fun p => ?_, fun q => ?_⟩
  · unfold statOk
    by_cases hp : p = d
    · rw [hp, h1, h2]; rfl
    · rw [hrest p hp]
  · by_cases hq : q = d
    · rw [hq]
      exact Or.inr ⟨_, _, e, h1, h2, fun r acc => by
        rw [scanLines_delete_comment r fs1 d c pre post acc hc ho hcl hi1 hi2 hpos]⟩
    · rcases hl : fs1.lookup q with _ | en
      · refine Or.inl ⟨fun ⟨l, se, h⟩ => (by rw [hl] at h; cases h), fun ⟨l, se, h⟩ => ?_⟩
        rw [← hrest q hq, hl] at h
        cases h
      · cases en with
        | locked =>
          refine Or.inl ⟨fun ⟨l, se, h⟩ => (by rw [hl] at h; cases h), fun ⟨l, se, h⟩ => ?_⟩
          rw [← hrest q hq, hl] at h
          cases h
        | file lines se =>
          exact Or.inr ⟨lines, lines, se, rfl, by rw [← hrest q hq, hl], fun _ _ => rfl⟩

/-- C21, as stated, fails.  Deleting the comment line `// }` from the body
of the record `A` changes the result from no descriptor to the descriptor
`A`: the closing brace in the comment is counted and closes the record before
its field is read.  Deleting the comment line that holds an import of
`other.api` changes the result from the descriptor `B` of that document to
no descriptor: the import written in the comment is followed. -/
theorem comment_line_deletion_changes_result :
    HasPrefix (TrimSpace "// \x7d".toList) "//".toList = true ∧
    braceCommentDoc.eraseIdx 2 = braceCommentDocDeleted ∧
    parseAPIFileForValidateStructs [("r.api".toList, Entry.file braceCommentDoc false)]
      "r.api".toList = some ([], none) ∧
    parseAPIFileForValidateStructs [("r.api".toList, Entry.file braceCommentDocDeleted false)]
      "r.api".toList =
      some ([{ Name := "A".toList,
               Fields := [{ Name := "X".toList, Typ := "int".toList,
                            ValidateRule := "required".toList, JsonTag := [] }] }], none) ∧
    HasPrefix (TrimSpace "// import \"other.api\"".toList) "//".toList = true ∧
    parseAPIFileForValidateStructs (commentedImportFS ["// import \"other.api\"".toList])
      "main.api".toList =
      some ([{ Name := "B".toList,
               Fields := [{ Name := "Y".toList, Typ := "int".toList,
                            ValidateRule := "gt=0".toList, JsonTag := [] }] }], none) ∧
    parseAPIFileForValidateStructs (commentedImportFS []) "main.api".toList =
      some ([], none) := by
  refine ⟨by decide, by decide, by decide, by decide, by decide, by decide, by decide⟩

/-- C21, amended.  (1) A line that begins with `//` is never a field:
`parseFieldLine` returns nothing for it, whatever follows the two slashes.
(2) Take two file systems that differ in one document only, the second
lacking one line `c` of the first.  If `c`, trimmed, begins with `//`, holds
no brace and is not read as an import (neither import pattern finds in it a
path that exists), and every line before `c` in the document that holds an
opening brace has more opening than closing braces, then
`parseAPIFileForValidateStructs` gives the same result on both, from every
root. -/
theorem comment_line_deletion_inert :
    (∀ line : List Char, HasPrefix line "//".toList = true → parseFieldLine line = none) ∧
    (∀ (fs1 fs2 : FS) (root d c : List Char) (pre post : List (List Char)) (e : Bool),
      fs1.lookup d = some (Entry.file (pre ++ c :: post) e) →
      fs2.lookup d = some (Entry.file (pre ++ post) e) →
      (∀ p, p ≠ d → fs1.lookup p = fs2.lookup p) →
      HasPrefix (TrimSpace c) "//".toList = true →
      Contains (TrimSpace c) '{' = false → Contains (TrimSpace c) '}' = false →
      parseImportLine fs1 (TrimSpace c) d = [] →
      parseImportPathFromLine fs1 (TrimSpace c) d = [] →
      (∀ l ∈ pre, Contains (TrimSpace l) '{' = true → 0 < braceDelta (TrimSpace l)) →
      parseAPIFileForValidateStructs fs1 root = parseAPIFileForValidateStructs fs2 root) := by
  refine ⟨parseFieldLine_comment, ?_⟩
  intro fs1 fs2 root d c pre post e h1 h2 hrest hc ho hcl hi1 hi2 hpos
  exact parseAPIFileForValidateStructs_alike fs1 fs2
    (scanAlike_delete_comment fs1 fs2 d c pre post e h1 h2 hrest hc ho hcl hi1 hi2 hpos) root

/-- C21, amended, on a comment line that holds a whole field with a validate
tag, and on a record with a comment line in its body. -/
theorem comment_line_deletion_inert_witness :
    parseFieldLine "// Name string \x60validate:\"required\"\x60".toList = none ∧
    parseAPIFileForValidateStructs (plainCommentFS ["  // the \"key\" of the record".toList])
        "r.api".toList =
      parseAPIFileForValidateStructs (plainCommentFS []) "r.api".toList ∧
    parseAPIFileForValidateStructs (plainCommentFS []) "r.api".toList =
      some ([{ Name := "A".toList,
               Fields := [{ Name := "X".toList, Typ := "int".toList,
                            ValidateRule := "required".toList, JsonTag := [] }] }], none) :=
  ⟨comment_line_deletion_inert.1 _ (by decide),
    comment_line_deletion_inert.2 (plainCommentFS ["  // the \"key\" of the record".toList])
      (plainCommentFS []) "r.api".toList "r.api".toList "  // the \"key\" of the record".toList
      ["type (".toList, "A \x7b".toList]
      ["X int \x60validate:\"required\"\x60".toList, "\x7d".toList, ")".toList] false
      (by decide) (by decide)
      (fun p hp => by
        have hne : (p == "r.api".toList) = false := by simpa using hp
        simp only [plainCommentFS, List.lookup, hne])
      (by decide) (by decide) (by decide) (by decide) (by decide) (by decide),
    by decide⟩

/-- C23, at the failing input.  `dirExists` gives true exactly when
`os.Stat` succeeds on a directory and false when `os.Stat` says the path does
not exist or succeeds on something else; but when `os.Stat` fails with an
error other than "does not exist" it does not return: `info` is nil and
`info.IsDir()` panics.  `Generate` on a schema with one record, with such a
types directory, panics and leaves the file system as it is. -/
theorem dirExists_panics_on_other_error :
    (∀ (disk : Disk) (p : List Char),
      (dirExists disk p = some true ↔ Stat disk p = StatResult.info true) ∧
      (Stat disk p = StatResult.notExist → dirExists disk p = some false) ∧
      (Stat disk p = StatResult.info false → dirExists disk p = some false) ∧
      (Stat disk p = StatResult.otherError → dirExists disk p = none)) ∧
    Stat [("out/internal/types".toList, Node.noStat)] "out/internal/types".toList =
      StatResult.otherError ∧
    dirExists [("out/internal/types".toList, Node.noStat)] "out/internal/types".toList = none ∧
    Generate (sampleGenerator false)
        { docs := oneRecordDocs, disk := [("out/internal/types".toList, Node.noStat)] } =
      some ({ docs := oneRecordDocs, disk := [("out/internal/types".toList, Node.noStat)] },
        Outcome.panicked) := by
  refine ⟨fun disk p => ?_, by decide, by decide, by decide⟩
  unfold dirExists
  cases Stat disk p with
  | info isDir => cases isDir <;> simp
  | notExist => simp
  | otherError => simp

theorem Generate_typesDir_false (g : ValidateGenerator) (w : World)
    (recs : List ValidateStruct)
    (hp : parseAPIFileForValidateStructs w.docs g.plugin.ApiFilePath = some (recs, none))
    (hne : recs ≠ [])
    (hd : Stat w.disk (typesDirOf g) = StatResult.notExist ∨
      Stat w.disk (typesDirOf g) = StatResult.info false) :
    Generate g w =
      some (w, Outcome.returned (some (GenerateError.typesDirNotFound (typesDirOf g)))) := by
  have hdir : dirExists w.disk (typesDirOf g) = some false := by
    unfold dirExists
    rcases hd with hd | hd <;> rw [hd]
  rw [Generate_of_records g w recs hp hne]
  rcases hw : writeOutputs g w.disk recs with ⟨d1, o⟩
  have hf := (writeOutputs_facts g w.disk d1 recs o hw).2.2.2.2.2.1 hdir
  rw [hf.1, hf.2]

theorem Generate_typesDir_panics (g : ValidateGenerator) (w : World)
    (recs : List ValidateStruct)
    (hp : parseAPIFileForValidateStructs w.docs g.plugin.ApiFilePath = some (recs, none))
    (hne : recs ≠ []) (hd : Stat w.disk (typesDirOf g) = StatResult.otherError) :
    Generate g w = some (w, Outcome.panicked) := by
  have hdir : dirExists w.disk (typesDirOf g) = none := by
    unfold dirExists
    rw [hd]
  rw [Generate_of_records g w recs hp hne]
  rcases hw : writeOutputs g w.disk recs with ⟨d1, o⟩
  have hf := (writeOutputs_facts g w.disk d1 recs o hw).2.2.2.2.2.2 hdir
  rw [hf.1, hf.2]

/-- C17, at the failing input.  With at least one descriptor, `Generate`
returns the error that names the types directory, and leaves the file system
as it is, when `os.Stat` says the directory does not exist or finds something
that is not a directory.  But the directory is also absent when `os.Stat`
fails in another way, as it does with "not a directory" when `out/internal`
is a regular file: then `Generate` does not return the error, it panics in
`dirExists`. -/
theorem generate_types_dir_absent_outcomes :
    (∀ (g : ValidateGenerator) (w : World) (recs : List ValidateStruct),
      parseAPIFileForValidateStructs w.docs g.plugin.ApiFilePath = some (recs, none) →
      recs ≠ [] →
      (Stat w.disk (typesDirOf g) = StatResult.notExist ∨
        Stat w.disk (typesDirOf g) = StatResult.info false) →
      Generate g w =
        some (w, Outcome.returned (some (GenerateError.typesDirNotFound (typesDirOf g))))) ∧
    (∀ (g : ValidateGenerator) (w : World) (recs : List ValidateStruct),
      parseAPIFileForValidateStructs w.docs g.plugin.ApiFilePath = some (recs, none) →
      recs ≠ [] → Stat w.disk (typesDirOf g) = StatResult.otherError →
      Generate g w = some (w, Outcome.panicked)) ∧
    typesDirOf (sampleGenerator true) = "out/internal/types".toList ∧
    Stat internalIsFileDisk "out/internal".toList = StatResult.info false ∧
    Stat internalIsFileDisk "out/internal/types".toList = StatResult.otherError ∧
    Generate (sampleGenerator true) { docs := oneRecordDocs, disk := internalIsFileDisk } =
      some ({ docs := oneRecordDocs, disk := internalIsFileDisk }, Outcome.panicked) ∧
    Generate (sampleGenerator true) { docs := oneRecordDocs, disk := [] } =
      some ({ docs := oneRecordDocs, disk := [] },
        Outcome.returned (some (GenerateError.typesDirNotFound "out/internal/types".toList))) := by
  refine ⟨Generate_typesDir_false, Generate_typesDir_panics, by decide, by decide, by decide,
    by decide, by decide⟩

/-- C11, amended.  Take a line made of an identifier, whitespace, a type token
(word characters after any number of `*`, `[`, `]`), optional whitespace and a
tag string between backticks.  The key `validate` of the tag string is the
text `validate:"` at the start of the tag string or after white space, with
no occurrence of that text before it; likewise the key `json`.  (1) If the
key `validate` has a non-empty payload `v` (text without double quote, closed
by a double quote), `parseFieldLine` returns the field with the identifier as
name, the type token as type and `v` as rule.  (2) The json key of that field
is the payload `j` of the key `json`, and (3) it is empty when the text
`json:"` does not occur in the tag string.  (4) If the text `validate:"` does
not occur in the tag string, or (5) the key `validate` has an empty payload,
`parseFieldLine` returns nothing.  Tag strings in which one of the two texts
occurs first inside a longer key are not covered. -/
theorem parseFieldLine_reads_keyed_tags (ident ws pre word ws2 tag : List Char)
    (h : FieldShape ident ws pre word ws2 tag) :
    (∀ a v b, tag = a ++ ("validate:\"".toList ++ (v ++ '"' :: b)) → KeyStart a →
      FirstAt "validate:\"".toList a → (∀ c ∈ v, notQuote c = true) → v ≠ [] →
      ∃ f, parseFieldLine (fieldLine ident ws pre word ws2 tag) = some f ∧
        f.Name = ident ∧ f.Typ = pre ++ word ∧ f.ValidateRule = v ∧
        (∀ a2 j b2, tag = a2 ++ ("json:\"".toList ++ (j ++ '"' :: b2)) → KeyStart a2 →
          FirstAt "json:\"".toList a2 → (∀ c ∈ j, notQuote c = true) → f.JsonTag = j) ∧
        (Absent "json:\"".toList tag → f.JsonTag = [])) ∧
    (Absent "validate:\"".toList tag →
      parseFieldLine (fieldLine ident ws pre word ws2 tag) = none) ∧
    (∀ a b, tag = a ++ ("validate:\"".toList ++ '"' :: b) → KeyStart a →
      FirstAt "validate:\"".toList a →
      parseFieldLine (fieldLine ident ws pre word ws2 tag) = none) := by
  refine ⟨?_, ?_, ?_⟩
  · intro a v b ht _ hf hv hne
    refine ⟨{ Name := ident, Typ := pre ++ word, ValidateRule := v,
              JsonTag := extractJsonFromTags tag }, ?_, rfl, rfl, rfl, ?_, ?_⟩
    · rw [parseFieldLine_fieldLine _ _ _ _ _ _ h]
      have hx : extractValidateFromTags tag = v := by
        rw [ht]; exact extractValidateFromTags_first a v b hf hv
      rw [hx, if_neg hne]
    · intro a2 j b2 ht2 _ hf2 hj
      show extractJsonFromTags tag = j
      rw [ht2]; exact extractJsonFromTags_first a2 j b2 hf2 hj
    · intro ha
      exact extractJsonFromTags_absent tag ha
  · intro ha
    rw [parseFieldLine_fieldLine _ _ _ _ _ _ h, extractValidateFromTags_absent tag ha, if_pos rfl]
  · intro a b ht _ hf
    rw [parseFieldLine_fieldLine _ _ _ _ _ _ h]
    have hx : extractValidateFromTags tag = [] := by
      rw [ht]
      exact extractValidateFromTags_first a [] b hf (fun c hc => by simp at hc)
    rw [hx, if_pos rfl]

/-- C11, amended, on `Items  []*Item` with the keys `json` and `validate`, on
a field with the key `json` alone, and on a field whose key `validate` has an
empty payload. -/
theorem parseFieldLine_reads_keyed_tags_witness :
    parseFieldLine "Items  []*Item \x60json:\"items\" validate:\"required,dive\"\x60".toList =
      some { Name := "Items".toList, Typ := "[]*Item".toList,
             ValidateRule := "required,dive".toList, JsonTag := "items".toList } ∧
    parseFieldLine "Age int \x60json:\"age\"\x60".toList = none ∧
    parseFieldLine "Name string \x60validate:\"\"\x60".toList = none := by
  have hshape : FieldShape "Items".toList "  ".toList "[]*".toList "Item".toList " ".toList
      "json:\"items\" validate:\"required,dive\"".toList :=
    ⟨by decide, by decide, by decide, by decide, by decide, by decide, by decide, by decide,
      by decide⟩
  obtain ⟨f, hf, hn, ht, hr, hj, _⟩ :=
    (parseFieldLine_reads_keyed_tags "Items".toList "  ".toList "[]*".toList "Item".toList
      " ".toList "json:\"items\" validate:\"required,dive\"".toList hshape).1
      "json:\"items\" ".toList "required,dive".toList [] (by decide)
      (Or.inr ⟨"json:\"items\"".toList, ' ', by decide, by decide⟩) (by decide) (by decide)
      (by decide)
  have hj2 := hj [] "items".toList " validate:\"required,dive\"".toList (by decide)
    (Or.inl rfl) (by decide) (by decide)
  refine ⟨?_, ?_, ?_⟩
  · have hline : fieldLine "Items".toList "  ".toList "[]*".toList "Item".toList " ".toList
        "json:\"items\" validate:\"required,dive\"".toList =
        "Items  []*Item \x60json:\"items\" validate:\"required,dive\"\x60".toList := by decide
    rw [← hline, hf]
    cases f
    simp only at hn ht hr hj2
    rw [hn, ht, hr, hj2]
    rfl
  · exact (parseFieldLine_reads_keyed_tags "Age".toList " ".toList [] "int".toList " ".toList
      "json:\"age\"".toList
      ⟨by decide, by decide, by decide, by decide, by decide, by decide, by decide, by decide,
        by decide⟩).2.1 (by decide)
  · exact (parseFieldLine_reads_keyed_tags "Name".toList " ".toList [] "string".toList
      " ".toList "validate:\"\"".toList
      ⟨by decide, by decide, by decide, by decide, by decide, by decide, by decide, by decide,
        by decide⟩).2.2 [] [] (by decide) (Or.inl rfl) (by decide)

theorem byteLen_blanks (n : Nat) : byteLen (List.replicate n ' ') = n := by
  induction n with
  | zero => rfl
  | succ k ih =>
    rw [List.replicate_succ]
    unfold byteLen at ih ⊢
    rw [List.map_cons, List.sum_cons, ih]
    have h1 : Char.utf8Size ' ' = 1 := by decide
    rw [h1]; omega

theorem byteLen_cons_blank (s : List Char) : byteLen (' ' :: s) = byteLen s + 1 := by
  unfold byteLen
  rw [List.map_cons, List.sum_cons]
  have h1 : Char.utf8Size ' ' = 1 := by decide
  rw [h1]; omega

theorem scanFile_of_fits (lines : List (List Char))
    (h : ∀ l ∈ lines, fitsScanner l = true) :
    scanFile lines = Entry.file (lines.map dropCR) false := by
  unfold scanFile
  have h1 : lines.takeWhile fitsScanner = lines := List.takeWhile_eq_self_iff.mpr h
  have h2 : lines.all fitsScanner = true := List.all_eq_true.mpr h
  rw [h1, h2]
  rfl

theorem scanFile_too_long (lines : List (List Char)) (long : List Char)
    (h : ∀ l ∈ lines, fitsScanner l = true) (hl : fitsScanner long = false) :
    scanFile (lines ++ [long]) = Entry.file (lines.map dropCR) true := by
  unfold scanFile
  have h1 : (lines ++ [long]).takeWhile fitsScanner = lines := by
    induction lines with
    | nil => simp [List.takeWhile, hl]
    | cons x xs ih =>
      have hx : fitsScanner x = true := h x (by simp)
      rw [List.cons_append, List.takeWhile_cons, hx]
      simp only [if_true]
      rw [ih (fun l hm => h l (by simp [hm]))]
  have h2 : (lines ++ [long]).all fitsScanner = false := by
    rw [List.all_append]
    simp [hl]
  rw [h1, h2]
  rfl

theorem byteLen_append (a b : List Char) : byteLen (a ++ b) = byteLen a + byteLen b := by
  unfold byteLen
  rw [List.map_append, List.sum_append]

theorem TrimSpace_dropCR (s : List Char) : TrimSpace (dropCR s) = TrimSpace s := by
  unfold dropCR
  split
  · rename_i r hr
    have hs : s = r.reverse ++ ['\r'] := by
      have := congrArg List.reverse hr
      rw [List.reverse_reverse] at this
      rw [this, List.reverse_cons]
    rw [hs]
    have hpad := TrimSpace_pad [] r.reverse ['\r'] (fun c hc => by simp at hc)
      (fun c hc => by
        simp only [List.mem_singleton] at hc
        rw [hc]; decide)
    rw [List.nil_append] at hpad
    exact hpad.symm
  · rfl

theorem TrimSpace_trailing_blanks (l : List Char) (n : Nat) :
    TrimSpace (l ++ List.replicate n ' ') = TrimSpace l := by
  have hpad := TrimSpace_pad [] l (List.replicate n ' ') (fun c hc => by simp at hc)
    (fun c hc => by
      rw [List.eq_of_mem_replicate hc]; decide)
  rw [List.nil_append] at hpad
  exact hpad

theorem trimEntry_readEntry (e : RawEntry) (h : entryFits e = true) :
    trimEntry (readEntry e) = asRead (trimRawEntry e) := by
  cases e with
  | locked => rfl
  | text lines =>
    show trimEntry (scanFile lines) = _
    rw [scanFile_of_fits lines (List.all_eq_true.mp h)]
    unfold trimEntry trimRawEntry asRead
    simp only [List.map_map, Entry.file.injEq, and_true]
    apply List.map_congr_left
    intro l _
    exact TrimSpace_dropCR l

theorem trimFS_readFS (raw : RawFS) (h : WithinLimit raw) :
    trimFS (readFS raw) = (trimRaw raw).map (fun pe => (pe.1, asRead pe.2)) := by
  induction raw with
  | nil => rfl
  | cons x rest ih =>
    unfold WithinLimit at h
    rw [List.all_cons, Bool.and_eq_true] at h
    have hx := trimEntry_readEntry x.2 h.1
    have hrest := ih h.2
    unfold trimFS readFS trimRaw at hrest ⊢
    simp only [List.map_cons, List.map_map] at hrest ⊢
    rw [hx]
    congr 1

/-- C22, as stated, fails.  The two stored documents differ only in the
number of blanks at the end of the field line of the record `A`, 65508 in the
first and 65509 in the second, which makes the line 65535 and 65536 bytes
long.  On the first the scanner yields every line and the parse returns the
record `A`; on the second the line no longer fits the buffer of the scanner,
which stops with an error, and the parse returns that error and no record. -/
theorem parse_whitespace_past_scanner_limit :
    trimRaw (paddedRecord 65508) = trimRaw (paddedRecord 65509) ∧
    parseAPIFileForValidateStructs (readFS (paddedRecord 65508)) "r.api".toList =
      some ([{ Name := "A".toList,
               Fields := [{ Name := "X".toList, Typ := "int".toList,
                            ValidateRule := "required".toList, JsonTag := [] }] }], none) ∧
    parseAPIFileForValidateStructs (readFS (paddedRecord 65509)) "r.api".toList =
      some ([], some (ParseError.readFailed "r.api".toList)) := by
  have hshort : ∀ l ∈ ["type (".toList, "A \x7b".toList], fitsScanner l = true := by decide
  have hshort2 : ∀ l ∈ ["\x7d".toList, ")".toList], fitsScanner l = true := by decide
  have hlen : ∀ n, byteLen ("X int \x60validate:\"required\"\x60".toList ++ List.replicate n ' ') =
      27 + n := by
    intro n
    rw [byteLen_append, byteLen_blanks]
    rfl
  have hfit : fitsScanner
      ("X int \x60validate:\"required\"\x60".toList ++ List.replicate 65508 ' ') = true := by
    unfold fitsScanner
    rw [hlen]
    decide
  have hlong : fitsScanner
      ("X int \x60validate:\"required\"\x60".toList ++ List.replicate 65509 ' ') = false := by
    unfold fitsScanner
    rw [hlen]
    decide
  refine ⟨?_, ?_, ?_⟩
  · unfold trimRaw paddedRecord
    simp only [List.map_cons, List.map_nil, trimRawEntry, TrimSpace_trailing_blanks]
  · rw [parseAPIFileForValidateStructs_trimFS]
    have hw : WithinLimit (paddedRecord 65508) := by
      unfold WithinLimit paddedRecord
      simp only [List.all_cons, List.all_nil, entryFits, hfit, Bool.and_true, Bool.true_and]
      decide
    rw [trimFS_readFS _ hw]
    unfold trimRaw paddedRecord
    simp only [List.map_cons, List.map_nil, trimRawEntry, TrimSpace_trailing_blanks]
    decide
  · have hread : readFS (paddedRecord 65509) =
        [("r.api".toList, Entry.file (["type (".toList, "A \x7b".toList].map dropCR) true)] := by
      unfold readFS paddedRecord
      simp only [List.map_cons, List.map_nil, readEntry]
      have hsplit : ["type (".toList, "A \x7b".toList,
          "X int \x60validate:\"required\"\x60".toList ++ List.replicate 65509 ' ',
          "\x7d".toList, ")".toList] =
          (["type (".toList, "A \x7b".toList] ++
            ["X int \x60validate:\"required\"\x60".toList ++ List.replicate 65509 ' ']) ++
            ["\x7d".toList, ")".toList] := rfl
      rw [hsplit]
      unfold scanFile
      have h1 : ((["type (".toList, "A \x7b".toList] ++
            ["X int \x60validate:\"required\"\x60".toList ++ List.replicate 65509 ' ']) ++
            ["\x7d".toList, ")".toList]).takeWhile fitsScanner =
          ["type (".toList, "A \x7b".toList] := by
        simp only [List.cons_append, List.nil_append, List.takeWhile_cons, hlong]
        rw [hshort _ (by simp), hshort _ (by simp)]
        simp
      have h2 : ((["type (".toList, "A \x7b".toList] ++
            ["X int \x60validate:\"required\"\x60".toList ++ List.replicate 65509 ' ']) ++
            ["\x7d".toList, ")".toList]).all fitsScanner = false := by
        simp only [List.all_append, List.all_cons, List.all_nil, hlong]
        simp
      rw [h1, h2]
      rfl
    rw [hread]
    decide

/-- C22, amended.  Indentation independence within the limit of the scanner:
two sets of stored documents that differ only in the white space at the
start and at the end of their lines (they are the same once every line is
trimmed), and in which every line fits the buffer of the scanner (fewer than
65536 bytes), give the same result of `parseAPIFileForValidateStructs` from
every root, the error and the descriptors with their fields and their order;
and white space added before and after a line leaves its trimmed text as it
was. -/
theorem parse_whitespace_independent_within_limit :
    (∀ (raw1 raw2 : RawFS) (root : List Char), trimRaw raw1 = trimRaw raw2 →
      WithinLimit raw1 → WithinLimit raw2 →
      parseAPIFileForValidateStructs (readFS raw1) root =
        parseAPIFileForValidateStructs (readFS raw2) root) ∧
    (∀ a l b : List Char, (∀ c ∈ a, isUnicodeSpace c = true) →
      (∀ c ∈ b, isUnicodeSpace c = true) → TrimSpace (a ++ (l ++ b)) = TrimSpace l) := by
  refine ⟨fun raw1 raw2 root h h1 h2 => ?_, TrimSpace_pad⟩
  rw [parseAPIFileForValidateStructs_trimFS (readFS raw1) root,
    parseAPIFileForValidateStructs_trimFS (readFS raw2) root, trimFS_readFS raw1 h1,
    trimFS_readFS raw2 h2, h]

/-- C22, amended, on a document with tabs, blanks and a carriage return
around its lines and on the same document without them. -/
theorem parse_whitespace_independent_within_limit_witness :
    parseAPIFileForValidateStructs
        (readFS [("user.api".toList, RawEntry.text indentedDoc)]) "user.api".toList =
      parseAPIFileForValidateStructs
        (readFS [("user.api".toList, RawEntry.text flushDoc)]) "user.api".toList ∧
    parseAPIFileForValidateStructs
        (readFS [("user.api".toList, RawEntry.text indentedDoc)]) "user.api".toList =
      some ([{ Name := "User".toList,
               Fields := [{ Name := "Name".toList, Typ := "string".toList,
                            ValidateRule := "required".toList,
                            JsonTag := "name".toList }] }], none) :=
  ⟨parse_whitespace_independent_within_limit.1
      [("user.api".toList, RawEntry.text indentedDoc)]
      [("user.api".toList, RawEntry.text flushDoc)] "user.api".toList (by decide)
      (by unfold WithinLimit; decide) (by unfold WithinLimit; decide),
    by decide⟩

theorem depthAfter_append (d : Int) (a b : List (List Char)) :
    depthAfter d (a ++ b) = depthAfter (depthAfter d a) b := by
  induction a generalizing d with
  | nil => rfl
  | cons x xs ih => simp only [List.cons_append, depthAfter]; exact ih _

theorem staysOpen_append (d : Int) (a b : List (List Char)) :
    staysOpen d (a ++ b) = (staysOpen d a && staysOpen (depthAfter d a) b) := by
  induction a generalizing d with
  | nil => simp [staysOpen, depthAfter]
  | cons x xs ih =>
    show (decide (0 < d + braceDelta (TrimSpace x)) &&
        staysOpen (d + braceDelta (TrimSpace x)) (xs ++ b)) =
      (decide (0 < d + braceDelta (TrimSpace x)) &&
        staysOpen (d + braceDelta (TrimSpace x)) xs &&
        staysOpen (depthAfter (d + braceDelta (TrimSpace x)) xs) b)
    rw [ih, Bool.and_assoc]

theorem bodyFields_append (a b : List (List Char)) :
    bodyFields (a ++ b) = bodyFields a ++ bodyFields b := by
  induction a with
  | nil => rfl
  | cons x xs ih =>
    show (match parseFieldLine (TrimSpace x) with
        | some f => f :: bodyFields (xs ++ b)
        | none => bodyFields (xs ++ b)) =
      (match parseFieldLine (TrimSpace x) with
        | some f => f :: bodyFields xs
        | none => bodyFields xs) ++ bodyFields b
    cases parseFieldLine (TrimSpace x) with
    | none => exact ih
    | some f => simp only [List.cons_append, ih]

theorem scanLine_opener (recur : Recur) (fs : FS) (p opener : List Char) (st : ScanState)
    (acc : ParseAcc) (hr : Ready st) (ho : PlainLine fs p opener)
    (hbrace : Contains (TrimSpace opener) '{' = true)
    (hname : extractStructName (TrimSpace opener) ≠ []) :
    scanLine recur fs p opener st acc =
      some ({ st with currentStruct := some { Name := extractStructName (TrimSpace opener),
                                              Fields := [] },
                      inStruct := true, braceCount := braceDelta (TrimSpace opener) }, acc) := by
  rw [scanLine_plain recur fs p opener st acc ho hr.2.1,
    scanDecl_plain fs p opener st acc ho hr.1]
  unfold scanStruct
  rw [if_pos (by simp [hbrace, hr.2.2])]
  simp only
  rw [if_pos hname]
  rfl

theorem scanLine_closer (recur : Recur) (fs : FS) (p closer : List Char) (st : ScanState)
    (acc : ParseAcc) (cur : ValidateStruct) (ht : st.inTypeBlock = true)
    (hb : st.inImportBlock = false) (hs : st.inStruct = true)
    (hc : st.currentStruct = some cur) (hp : PlainLine fs p closer)
    (hclose : st.braceCount + braceDelta (TrimSpace closer) ≤ 0) :
    scanLine recur fs p closer st acc =
      some ({ st with currentStruct := none, inStruct := false,
                      braceCount := st.braceCount + braceDelta (TrimSpace closer) },
        if cur.Fields.length > 0 then
          { acc with validateStructs := acc.validateStructs ++ [cur] }
        else acc) := by
  rw [scanLine_plain recur fs p closer st acc hp hb, scanDecl_plain fs p closer st acc hp ht,
    scanStruct_inside _ st acc cur hs hc, if_pos hclose]

/-- A record block with a field, scanned between two records: its descriptor
is appended to the output and the loop is between two records again. -/
theorem scanLines_block (recur : Recur) (fs : FS) (p opener closer : List Char)
    (body : List (List Char)) (st : ScanState) (acc : ParseAcc) (hr : Ready st)
    (hblock : RecordBlock fs p opener body closer) (hf : 0 < (bodyFields body).length) :
    ∃ st1, scanLines recur fs p (opener :: (body ++ [closer])) st acc =
        some (st1, { acc with validateStructs :=
          acc.validateStructs ++ [blockRecord opener body] }) ∧ Ready st1 := by
  refine ⟨{ st with currentStruct := none, inStruct := false,
                    braceCount := depthAfter (braceDelta (TrimSpace opener)) body +
                      braceDelta (TrimSpace closer) }, ?_, ⟨hr.1, hr.2.1, rfl⟩⟩
  rw [scanLines_record recur fs p opener closer body st acc hr.1 hr.2.1 hr.2.2
    hblock.opener_plain hblock.opener_brace hblock.opener_name hblock.body_plain
    hblock.body_open hblock.closer_plain hblock.closer_closes, if_pos hf]
  rfl

/-- A record block with a single-line import among its body lines: the line
of the import is followed when it is met, so what the recursive call appends
comes first and the descriptor of the block, with the fields read before and
after that line, comes after it. -/
theorem scanLines_block_import (recur : Recur) (fs : FS) (p opener closer raw q : List Char)
    (body1 body2 : List (List Char)) (st : ScanState) (acc acc2 : ParseAcc)
    (e : Option ParseError) (hr : Ready st)
    (hblock : RecordBlock fs p opener (body1 ++ body2) closer)
    (hf : 0 < (bodyFields (body1 ++ body2)).length)
    (hq : importTarget fs p false raw = q) (hne : q ≠ [])
    (hrec : recur q acc = some (acc2, e)) :
    ∃ st1, scanLines recur fs p (opener :: (body1 ++ raw :: (body2 ++ [closer]))) st acc =
        some (st1, { acc2 with validateStructs :=
          acc2.validateStructs ++ [blockRecord opener (body1 ++ body2)] }) ∧ Ready st1 := by
  have hopen := hblock.body_open
  rw [staysOpen_append, Bool.and_eq_true] at hopen
  have hclose := hblock.closer_closes
  rw [depthAfter_append] at hclose
  have hall1 : ∀ l ∈ body1, PlainLine fs p l := fun l hl => hblock.body_plain l (by simp [hl])
  have hall2 : ∀ l ∈ body2, PlainLine fs p l := fun l hl => hblock.body_plain l (by simp [hl])
  simp only [scanLines]
  rw [scanLine_opener recur fs p opener st acc hr hblock.opener_plain hblock.opener_brace
    hblock.opener_name]
  simp only
  rw [scanLines_append,
    scanLines_body recur fs p body1
      { st with currentStruct := some { Name := extractStructName (TrimSpace opener),
                                        Fields := [] },
                inStruct := true, braceCount := braceDelta (TrimSpace opener) }
      acc (extractStructName (TrimSpace opener)) [] hall1 hr.1 hr.2.1 rfl rfl hopen.1]
  simp only [Option.some_bind, scanLines, List.nil_append]
  rw [scanLine_import recur fs p raw _ acc (by
    show importTarget fs p st.inImportBlock raw ≠ []
    rw [hr.2.1, hq]; exact hne)]
  have hflag : importTarget fs p st.inImportBlock raw = q := by rw [hr.2.1, hq]
  simp only [hflag]
  unfold scanImport
  rw [hrec]
  simp only
  rw [scanLines_append,
    scanLines_body recur fs p body2
      { st with currentStruct := some { Name := extractStructName (TrimSpace opener),
                                        Fields := bodyFields body1 },
                inStruct := true,
                braceCount := depthAfter (braceDelta (TrimSpace opener)) body1 }
      acc2 (extractStructName (TrimSpace opener)) (bodyFields body1) hall2 hr.1 hr.2.1 rfl rfl
      hopen.2]
  simp only [Option.some_bind, scanLines]
  rw [scanLine_closer recur fs p closer
    { currentStruct := some { Name := extractStructName (TrimSpace opener),
                              Fields := bodyFields body1 ++ bodyFields body2 },
      inTypeBlock := st.inTypeBlock, inImportBlock := st.inImportBlock, inStruct := true,
      braceCount := depthAfter (depthAfter (braceDelta (TrimSpace opener)) body1) body2 } acc2
    { Name := extractStructName (TrimSpace opener),
      Fields := bodyFields body1 ++ bodyFields body2 } hr.1 hr.2.1 rfl rfl
    hblock.closer_plain hclose]
  rw [bodyFields_append] at hf
  rw [if_pos hf]
  refine ⟨{ currentStruct := none, inTypeBlock := st.inTypeBlock,
            inImportBlock := st.inImportBlock, inStruct := false,
            braceCount := depthAfter (depthAfter (braceDelta (TrimSpace opener)) body1) body2 +
              braceDelta (TrimSpace closer) }, ?_, ⟨hr.1, hr.2.1, rfl⟩⟩
  simp only [blockRecord, bodyFields_append]

theorem scanLine_typeOpen (recur : Recur) (fs : FS) (p raw : List Char) (st : ScanState)
    (acc : ParseAcc) (h : TypeOpen fs p raw) (hb : st.inImportBlock = false) :
    scanLine recur fs p raw st acc = some ({ st with inTypeBlock := true }, acc) := by
  obtain ⟨t, ht⟩ := List.isPrefixOf_iff_prefix.mp h.1
  have h1 : HasPrefix (TrimSpace raw) "import (".toList = false := by
    rw [← ht]
    rfl
  unfold scanLine
  simp only
  rw [if_neg (by rw [h1]; simp), if_neg (by simp [hb]), if_neg (by simp [hb]), h.2]
  simp only [ne_eq, not_true_eq_false, if_false]
  unfold scanDecl
  rw [if_pos h.1]

/-- The output of the parse of a readable root starts with what the scan of
any first run of its lines has emitted. -/
theorem parse_after_prefix (fs : FS) (root : List Char) (pre post : List (List Char))
    (st : ScanState) (acc : ParseAcc)
    (hroot : fs.lookup root = some (Entry.file (pre ++ post) false))
    (h : scanLines (parseAPIFileRecursively fs.length fs) fs root pre ScanState.init
      { validateStructs := [], processedFiles := [root] } = some (st, acc)) :
    ∃ later, parseAPIFileForValidateStructs fs root =
      some (acc.validateStructs ++ later, none) := by
  obtain ⟨recs, htop⟩ := parseAPIFileForValidateStructs_readable_some fs root _ hroot
  rw [parseAPIFileForValidateStructs_readable fs root _ hroot, scanLines_append, h] at htop
  rw [parseAPIFileForValidateStructs_readable fs root _ hroot, scanLines_append, h]
  simp only [Option.some_bind] at htop ⊢
  cases h2 : scanLines (parseAPIFileRecursively fs.length fs) fs root post st acc with
  | none => rw [h2] at htop; exact absurd htop (by simp)
  | some r2 =>
    obtain ⟨st3, acc3⟩ := r2
    obtain ⟨later, hlater⟩ := (scanLines_extends _ fs root post st st3 acc acc3 h2).1
    exact ⟨later, by simp [hlater]⟩

/-- The scan of a first run of the lines of a readable root returns. -/
theorem scan_prefix_some (fs : FS) (root : List Char) (pre post : List (List Char))
    (hroot : fs.lookup root = some (Entry.file (pre ++ post) false)) :
    ∃ st acc, scanLines (parseAPIFileRecursively fs.length fs) fs root pre ScanState.init
      { validateStructs := [], processedFiles := [root] } = some (st, acc) := by
  obtain ⟨recs, htop⟩ := parseAPIFileForValidateStructs_readable_some fs root _ hroot
  rw [parseAPIFileForValidateStructs_readable fs root _ hroot, scanLines_append] at htop
  cases h1 : scanLines (parseAPIFileRecursively fs.length fs) fs root pre ScanState.init
      { validateStructs := [], processedFiles := [root] } with
  | none => rw [h1] at htop; exact absurd htop (by simp)
  | some r => exact ⟨r.1, r.2, rfl⟩

theorem parse_cut_order (fs : FS) (root : List Char) (pre post : List (List Char))
    (hroot : fs.lookup root = some (Entry.file (pre ++ post) false)) :
    ∃ st1 acc1 st3 acc3 later,
      scanLines (parseAPIFileRecursively fs.length fs) fs root pre ScanState.init
        { validateStructs := [], processedFiles := [root] } = some (st1, acc1) ∧
      scanLines (parseAPIFileRecursively fs.length fs) fs root post st1 acc1 =
        some (st3, acc3) ∧
      acc3.validateStructs = acc1.validateStructs ++ later ∧
      parseAPIFileForValidateStructs fs root =
        some (acc1.validateStructs ++ later, none) := by
  revert hroot
  intro hroot
  obtain ⟨recs, htop⟩ := parseAPIFileForValidateStructs_readable_some fs root _ hroot
  rw [parseAPIFileForValidateStructs_readable fs root _ hroot, scanLines_append] at htop
  rw [parseAPIFileForValidateStructs_readable fs root _ hroot, scanLines_append]
  cases h1 : scanLines (parseAPIFileRecursively fs.length fs) fs root pre ScanState.init
    { validateStructs := [], processedFiles := [root] } with
  | none => rw [h1] at htop; exact absurd htop (by simp)
  | some r1 =>
    obtain ⟨st1, acc1⟩ := r1
    rw [h1] at htop
    simp only [Option.some_bind] at htop ⊢
    cases h2 : scanLines (parseAPIFileRecursively fs.length fs) fs root post st1 acc1 with
    | none => rw [h2] at htop; exact absurd htop (by simp)
    | some r2 =>
      obtain ⟨st3, acc3⟩ := r2
      obtain ⟨later, hlater⟩ := (scanLines_extends _ fs root post st1 st3 acc1 acc3 h2).1
      exact ⟨st1, acc1, st3, acc3, later, rfl, h2, hlater.symm, by simp [hlater]⟩

theorem parse_import_order (fs : FS) (root raw : List Char) (pre post : List (List Char))
    (q : List Char)
    (hroot : fs.lookup root = some (Entry.file (pre ++ raw :: post) false))
    (hq : q = importTarget fs root (importFlagAfter pre false) raw) (hne : q ≠ []) :
    ∃ st1 acc1 acc2 e st3 acc3 imported later,
      scanLines (parseAPIFileRecursively fs.length fs) fs root pre ScanState.init
        { validateStructs := [], processedFiles := [root] } = some (st1, acc1) ∧
      parseAPIFileRecursively fs.length fs q acc1 = some (acc2, e) ∧
      acc2.validateStructs = acc1.validateStructs ++ imported ∧
      scanLines (parseAPIFileRecursively fs.length fs) fs root post st1 acc2 =
        some (st3, acc3) ∧
      acc3.validateStructs = acc2.validateStructs ++ later ∧
      parseAPIFileForValidateStructs fs root =
        some (acc1.validateStructs ++ imported ++ later, none) := by
  revert hroot hq hne
  intro hroot hq hne
  have hq := hq.symm
  obtain ⟨recs, htop⟩ := parseAPIFileForValidateStructs_readable_some fs root _ hroot
  rw [parseAPIFileForValidateStructs_readable fs root _ hroot, scanLines_append] at htop
  rw [parseAPIFileForValidateStructs_readable fs root _ hroot, scanLines_append]
  cases h1 : scanLines (parseAPIFileRecursively fs.length fs) fs root pre ScanState.init
    { validateStructs := [], processedFiles := [root] } with
  | none => rw [h1] at htop; exact absurd htop (by simp)
  | some r1 =>
    obtain ⟨st1, acc1⟩ := r1
    rw [h1] at htop
    have hflag : st1.inImportBlock = importFlagAfter pre false :=
      scanLines_importFlag _ _ _ _ _ _ _ _ h1
    rw [← hflag] at hq
    simp only [Option.some_bind, scanLines] at htop ⊢
    rw [scanLine_import _ _ _ _ _ _ (by rw [hq]; exact hne), hq] at htop ⊢
    unfold scanImport at htop ⊢
    cases h2 : parseAPIFileRecursively fs.length fs q acc1 with
    | none => rw [h2] at htop; exact absurd htop (by simp)
    | some r2 =>
      obtain ⟨acc2, e⟩ := r2
      rw [h2] at htop
      simp only at htop ⊢
      cases h3 : scanLines (parseAPIFileRecursively fs.length fs) fs root post st1 acc2 with
      | none => rw [h3] at htop; exact absurd htop (by simp)
      | some r3 =>
        obtain ⟨st3, acc3⟩ := r3
        obtain ⟨imported, himp⟩ := (parseAPIFileRecursively_extends _ fs q acc1 acc2 e h2).1.1
        obtain ⟨later, hlater⟩ := (scanLines_extends _ fs root post st1 st3 acc2 acc3 h3).1
        exact ⟨st1, acc1, acc2, e, st3, acc3, imported, later, rfl, h2, himp.symm, h3,
          hlater.symm, by simp [← hlater, ← himp]⟩

/-- After the scan of a first run of the lines of a root that exists, the
recursive call returns on every path. -/
theorem recur_some_after_scan (fs : FS) (root : List Char) (en : Entry)
    (lines : List (List Char)) (st : ScanState) (acc : ParseAcc)
    (hroot : fs.lookup root = some en)
    (h : scanLines (parseAPIFileRecursively fs.length fs) fs root lines ScanState.init
      { validateStructs := [], processedFiles := [root] } = some (st, acc)) (q : List Char) :
    ∃ acc2 e, parseAPIFileRecursively fs.length fs q acc = some (acc2, e) := by
  apply parseAPIFileRecursively_isSome
  have h1 := unseen_mono fs _ _ (scanLines_extends _ fs root lines _ st _ acc h).2
  have h2 := unseen_cons_lt fs [] root en hroot (by simp)
  have h3 := unseen_le_length fs []
  simp only at h1
  omega

/-- C6, as stated, fails.  In `importInRecordDoc` the record `A` is declared
on the second line and the import of `other.api` stands on the fourth, inside
the body of `A`.  The record `C` of `other.api` is returned before `A`: the
line of the import is followed when it is met, and `A` is appended when its
closing brace is met, on the fifth line. -/
theorem parse_import_inside_record_order :
    parseAPIFileForValidateStructs
        (("main.api".toList, Entry.file importInRecordDoc false) :: lockedRest)
        "main.api".toList =
      some ([⟨"C".toList, [⟨"Z".toList, "int".toList, "gt=0".toList, []⟩]⟩,
             ⟨"A".toList, [⟨"X".toList, "int".toList, "required".toList, []⟩]⟩], none) := by
  decide

/-- C6, amended.  Descriptors come in the order in which their declarations
end in the text, never reordered; fields come in the order of their lines.
(1) For a readable root cut anywhere into a first and a second run of lines,
the output is what the scan of the first run has emitted followed by what the
scan of the second run appends.  (2) When the line after the first
run imports the path `q`, the output is what the first run has emitted, then
what the recursive parse of `q` appends (nothing if `q` was already
processed), then what the lines after the import append.  (3) For the record
being read, one line either leaves its fields as they are, or adds the field
parsed from that line at the end, or ends the record, which is then appended
with its fields in that order if it has any.  (4) Two record blocks that
follow one another between two records give their two descriptors in that
order, each with the fields of its body lines in the order of the lines.
(5) A record block with a single-line import among its body lines gives the
records the import appends first and its own descriptor after them: a record
that is open at the import ends after it. -/
theorem parse_output_order_by_closing (fs : FS) (root : List Char) :
    (∀ pre post : List (List Char),
      fs.lookup root = some (Entry.file (pre ++ post) false) →
      ∃ st1 acc1 st3 acc3 later,
        scanLines (parseAPIFileRecursively fs.length fs) fs root pre ScanState.init
          { validateStructs := [], processedFiles := [root] } = some (st1, acc1) ∧
        scanLines (parseAPIFileRecursively fs.length fs) fs root post st1 acc1 =
          some (st3, acc3) ∧
        acc3.validateStructs = acc1.validateStructs ++ later ∧
        parseAPIFileForValidateStructs fs root =
          some (acc1.validateStructs ++ later, none)) ∧
    (∀ (pre post : List (List Char)) (raw q : List Char),
      fs.lookup root = some (Entry.file (pre ++ raw :: post) false) →
      q = importTarget fs root (importFlagAfter pre false) raw → q ≠ [] →
      ∃ st1 acc1 acc2 e st3 acc3 imported later,
        scanLines (parseAPIFileRecursively fs.length fs) fs root pre ScanState.init
          { validateStructs := [], processedFiles := [root] } = some (st1, acc1) ∧
        parseAPIFileRecursively fs.length fs q acc1 = some (acc2, e) ∧
        acc2.validateStructs = acc1.validateStructs ++ imported ∧
        scanLines (parseAPIFileRecursively fs.length fs) fs root post st1 acc2 =
          some (st3, acc3) ∧
        acc3.validateStructs = acc2.validateStructs ++ later ∧
        parseAPIFileForValidateStructs fs root =
          some (acc1.validateStructs ++ imported ++ later, none)) ∧
    (∀ (line : List Char) (st : ScanState) (acc : ParseAcc) (cur : ValidateStruct),
      st.inStruct = true → st.currentStruct = some cur →
      ((scanDecl line st acc).1.currentStruct = some cur ∧ (scanDecl line st acc).2 = acc) ∨
      (∃ f, parseFieldLine line = some f ∧
        (scanDecl line st acc).1.currentStruct =
          some { Name := cur.Name, Fields := cur.Fields ++ [f] } ∧
        (scanDecl line st acc).2 = acc) ∨
      ((scanDecl line st acc).1.currentStruct = none ∧
        (scanDecl line st acc).2.processedFiles = acc.processedFiles ∧
        (scanDecl line st acc).2.validateStructs =
          acc.validateStructs ++ (if cur.Fields.length > 0 then [cur] else []))) ∧
    (∀ (pre post b1 b2 : List (List Char)) (o1 c1 o2 c2 : List Char),
      fs.lookup root =
        some (Entry.file (pre ++ ((o1 :: (b1 ++ [c1])) ++ ((o2 :: (b2 ++ [c2])) ++ post)))
          false) →
      RecordBlock fs root o1 b1 c1 → RecordBlock fs root o2 b2 c2 →
      0 < (bodyFields b1).length → 0 < (bodyFields b2).length →
      ∃ st1 acc1,
        scanLines (parseAPIFileRecursively fs.length fs) fs root pre ScanState.init
          { validateStructs := [], processedFiles := [root] } = some (st1, acc1) ∧
        (Ready st1 → ∃ later,
          parseAPIFileForValidateStructs fs root =
            some (acc1.validateStructs ++ blockRecord o1 b1 :: blockRecord o2 b2 :: later,
              none))) ∧
    (∀ (pre post body1 body2 : List (List Char)) (opener closer raw q : List Char),
      fs.lookup root =
        some (Entry.file
          (pre ++ ((opener :: (body1 ++ raw :: (body2 ++ [closer]))) ++ post)) false) →
      RecordBlock fs root opener (body1 ++ body2) closer →
      0 < (bodyFields (body1 ++ body2)).length →
      q = importTarget fs root false raw → q ≠ [] →
      ∃ st1 acc1,
        scanLines (parseAPIFileRecursively fs.length fs) fs root pre ScanState.init
          { validateStructs := [], processedFiles := [root] } = some (st1, acc1) ∧
        (Ready st1 → ∃ acc2 e imported later,
          parseAPIFileRecursively fs.length fs q acc1 = some (acc2, e) ∧
          acc2.validateStructs = acc1.validateStructs ++ imported ∧
          parseAPIFileForValidateStructs fs root =
            some (acc1.validateStructs ++ imported ++
              blockRecord opener (body1 ++ body2) :: later, none))) := by
  refine ⟨fun pre post h => parse_cut_order fs root pre post h,
    fun pre post raw q h hq hne => parse_import_order fs root raw pre post q h hq hne,
    fun line st acc cur hs hc => scanDecl_fields line st acc cur hs hc, ?_, ?_⟩
  · intro pre post b1 b2 o1 c1 o2 c2 hroot hb1 hb2 hf1 hf2
    obtain ⟨st1, acc1, h1⟩ := scan_prefix_some fs root pre _ hroot
    refine ⟨st1, acc1, h1, fun hr => ?_⟩
    obtain ⟨s2, h2, hr2⟩ := scanLines_block (parseAPIFileRecursively fs.length fs) fs root
      o1 c1 b1 st1 acc1 hr hb1 hf1
    obtain ⟨s3, h3, _⟩ := scanLines_block (parseAPIFileRecursively fs.length fs) fs root
      o2 c2 b2 s2
      { acc1 with validateStructs := acc1.validateStructs ++ [blockRecord o1 b1] } hr2 hb2 hf2
    have hscan : scanLines (parseAPIFileRecursively fs.length fs) fs root
        (pre ++ ((o1 :: (b1 ++ [c1])) ++ (o2 :: (b2 ++ [c2])))) ScanState.init
        { validateStructs := [], processedFiles := [root] } =
        some (s3, ⟨(acc1.validateStructs ++ [blockRecord o1 b1]) ++ [blockRecord o2 b2],
          acc1.processedFiles⟩) := by
      rw [scanLines_append, h1]
      simp only [Option.some_bind]
      rw [scanLines_append, h2]
      simp only [Option.some_bind]
      exact h3
    have hroot2 : fs.lookup root = some (Entry.file
        ((pre ++ ((o1 :: (b1 ++ [c1])) ++ (o2 :: (b2 ++ [c2])))) ++ post) false) := by
      rw [hroot]; simp [List.append_assoc]
    obtain ⟨later, hl⟩ := parse_after_prefix fs root _ post s3 _ hroot2 hscan
    refine ⟨later, ?_⟩
    rw [hl]
    simp [List.append_assoc]
  · intro pre post body1 body2 opener closer raw q hroot hb hf hq hne
    obtain ⟨st1, acc1, h1⟩ := scan_prefix_some fs root pre _ hroot
    refine ⟨st1, acc1, h1, fun hr => ?_⟩
    obtain ⟨acc2, e, hrec⟩ := recur_some_after_scan fs root _ pre st1 acc1 hroot h1 q
    obtain ⟨imported, himp⟩ :=
      (parseAPIFileRecursively_extends _ fs q acc1 acc2 e hrec).1.1
    obtain ⟨s2, h2, _⟩ := scanLines_block_import (parseAPIFileRecursively fs.length fs) fs root
      opener closer raw q body1 body2 st1 acc1 acc2 e hr hb hf hq.symm hne hrec
    have hscan : scanLines (parseAPIFileRecursively fs.length fs) fs root
        (pre ++ (opener :: (body1 ++ raw :: (body2 ++ [closer])))) ScanState.init
        { validateStructs := [], processedFiles := [root] } =
        some (s2, ⟨acc2.validateStructs ++ [blockRecord opener (body1 ++ body2)],
          acc2.processedFiles⟩) := by
      rw [scanLines_append, h1]
      simp only [Option.some_bind]
      exact h2
    have hroot2 : fs.lookup root = some (Entry.file
        ((pre ++ (opener :: (body1 ++ raw :: (body2 ++ [closer])))) ++ post) false) := by
      rw [hroot]; simp [List.append_assoc]
    obtain ⟨later, hl⟩ := parse_after_prefix fs root _ post s2 _ hroot2 hscan
    refine ⟨acc2, e, imported, later, hrec, himp.symm, ?_⟩
    rw [hl]
    simp [← himp, List.append_assoc]

/-- C6, amended, on the document with an import inside the record `A`
(records `C`, `A`), on two records in a row (records `A`, `B`), and on a
document with an import between two records (records `A`, `C`, `B`). -/
theorem parse_output_order_by_closing_witness :
    (∃ st1 acc1,
      scanLines (parseAPIFileRecursively 3
          (("main.api".toList, Entry.file importInRecordDoc false) :: lockedRest))
        (("main.api".toList, Entry.file importInRecordDoc false) :: lockedRest)
        "main.api".toList ["type (".toList] ScanState.init
        { validateStructs := [], processedFiles := ["main.api".toList] } = some (st1, acc1) ∧
      (Ready st1 → ∃ acc2 e imported later,
        parseAPIFileRecursively 3
          (("main.api".toList, Entry.file importInRecordDoc false) :: lockedRest)
          "other.api".toList acc1 = some (acc2, e) ∧
        acc2.validateStructs = acc1.validateStructs ++ imported ∧
        parseAPIFileForValidateStructs
          (("main.api".toList, Entry.file importInRecordDoc false) :: lockedRest)
          "main.api".toList =
          some (acc1.validateStructs ++ imported ++
            blockRecord "A \x7b".toList
              (["X int \x60validate:\"required\"\x60".toList] ++ []) :: later, none))) ∧
    blockRecord "A \x7b".toList (["X int \x60validate:\"required\"\x60".toList] ++ []) =
      ⟨"A".toList, [⟨"X".toList, "int".toList, "required".toList, []⟩]⟩ ∧
    parseAPIFileForValidateStructs
        (("main.api".toList, Entry.file importInRecordDoc false) :: lockedRest)
        "main.api".toList =
      some ([⟨"C".toList, [⟨"Z".toList, "int".toList, "gt=0".toList, []⟩]⟩,
             ⟨"A".toList, [⟨"X".toList, "int".toList, "required".toList, []⟩]⟩], none) ∧
    parseAPIFileForValidateStructs [("main.api".toList, Entry.file twoRecordDoc false)]
        "main.api".toList =
      some ([⟨"A".toList, [⟨"X".toList, "int".toList, "required".toList, []⟩]⟩,
             ⟨"B".toList, [⟨"Y".toList, "string".toList, "min=1".toList, []⟩]⟩], none) ∧
    parseAPIFileForValidateStructs (("main.api".toList, Entry.file orderDoc false) :: lockedRest)
        "main.api".toList =
      some ([⟨"A".toList, [⟨"X".toList, "int".toList, "required".toList, []⟩,
                ⟨"W".toList, "int".toList, "lt=9".toList, []⟩]⟩,
        ⟨"C".toList, [⟨"Z".toList, "int".toList, "gt=0".toList, []⟩]⟩,
        ⟨"B".toList, [⟨"Y".toList, "string".toList, "min=1".toList, []⟩]⟩], none) :=
  ⟨(parse_output_order_by_closing
      (("main.api".toList, Entry.file importInRecordDoc false) :: lockedRest)
      "main.api".toList).2.2.2.2 ["type (".toList] [")".toList]
      ["X int \x60validate:\"required\"\x60".toList] [] "A \x7b".toList "\x7d".toList
      "import \"other.api\"".toList "other.api".toList (by decide)
      ⟨by decide, by decide, by decide, by decide, by decide, by decide, by decide⟩
      (by decide) (by decide) (by decide),
    by decide, by decide, by decide, by decide⟩

/-- C20. A single-line import (the word, whitespace, a quoted path ending in
`.api`) whose resolved path `q` exists, opens and is not yet processed is
handled the same in every scan state (outside any block, inside a grouped
type block, inside an open record body, inside a grouped import block): the
document at `q` is scanned from the initial state with `q` added to the
processed set, its records are appended to the output, and the scan state of
the importing document after the line is the state before it.  When the
document at `q` starts with the opening line of a type block and a record
block with a field, the descriptor of that block, with the name of its
opening line and the fields of its body lines, is the first record that the
line adds to the output. -/
theorem single_line_import_merges (fuel : Nat) (fs : FS)
    (p raw ws path tail : List Char) (st : ScanState) (acc : ParseAcc) (q : List Char)
    (lines : List (List Char)) (e : Bool)
    (hline : TrimSpace raw = importLine ws path tail) (hshape : ImportShape ws path)
    (hq : resolveImportPath fs (path ++ ".api".toList) p = q) (hne : q ≠ [])
    (hnew : q ∉ acc.processedFiles) (hfile : fs.lookup q = some (Entry.file lines e))
    (hfuel : unseen fs acc.processedFiles ≤ fuel) :
    ∃ st1 acc1 recs,
      scanLines (parseAPIFileRecursively fuel fs) fs q lines ScanState.init
        { acc with processedFiles := q :: acc.processedFiles } = some (st1, acc1) ∧
      scanLine (parseAPIFileRecursively (fuel + 1) fs) fs p raw st acc = some (st, acc1) ∧
      acc1.validateStructs = acc.validateStructs ++ recs ∧ q ∈ acc1.processedFiles ∧
      (∀ (typeLine opener closer : List Char) (body rest : List (List Char)),
        lines = typeLine :: ((opener :: (body ++ [closer])) ++ rest) →
        TypeOpen fs q typeLine → RecordBlock fs q opener body closer →
        0 < (bodyFields body).length →
        ∃ more, recs = blockRecord opener body :: more) := by
  have htarget : importTarget fs p st.inImportBlock raw = q := by
    rw [← importTarget_importLine fs p raw ws path tail _ hline hshape, hq]
  obtain ⟨acc1, e1, hrec⟩ := parseAPIFileRecursively_isSome (fuel + 1) fs q acc (by omega)
  have hrec2 := hrec
  rw [parseAPIFileRecursively_file fuel fs q acc lines e hnew hfile] at hrec2
  cases hs : scanLines (parseAPIFileRecursively fuel fs) fs q lines ScanState.init
    { acc with processedFiles := q :: acc.processedFiles } with
  | none => rw [hs] at hrec2; exact absurd hrec2 (by simp)
  | some r =>
    obtain ⟨st1, a1⟩ := r
    rw [hs] at hrec2
    simp only [Option.map_some', Option.some.injEq, Prod.mk.injEq] at hrec2
    have hext := parseAPIFileRecursively_extends (fuel + 1) fs q acc acc1 e1 hrec
    obtain ⟨recs, hrecs⟩ := hext.1.1
    refine ⟨st1, acc1, recs, by rw [← hrec2.1], ?_, hrecs.symm, ?_, ?_⟩
    · rw [scanLine_import _ fs p raw st acc (by rw [htarget]; exact hne), htarget]
      unfold scanImport
      rw [hrec]
    · have hsub : ({ acc with processedFiles := q :: acc.processedFiles } : ParseAcc).processedFiles
          <:+ a1.processedFiles :=
        (scanLines_extends fuel fs q lines _ _ _ _ hs).2
      rw [← hrec2.1]
      exact hsub.subset (by simp)
    · intro typeLine opener closer body rest hlines htype hblock hf
      have hfirst : scanLines (parseAPIFileRecursively fuel fs) fs q [typeLine] ScanState.init
          { acc with processedFiles := q :: acc.processedFiles } =
          some ({ ScanState.init with inTypeBlock := true },
            { acc with processedFiles := q :: acc.processedFiles }) := by
        simp only [scanLines]
        rw [scanLine_typeOpen _ fs q typeLine ScanState.init _ htype rfl]
      rw [hlines, show typeLine :: ((opener :: (body ++ [closer])) ++ rest) =
        [typeLine] ++ ((opener :: (body ++ [closer])) ++ rest) from rfl, scanLines_append,
        hfirst] at hs
      simp only [Option.some_bind] at hs
      rw [scanLines_append] at hs
      obtain ⟨s2, h2, _⟩ := scanLines_block (parseAPIFileRecursively fuel fs) fs q opener
        closer body { ScanState.init with inTypeBlock := true }
        { acc with processedFiles := q :: acc.processedFiles } ⟨rfl, rfl, rfl⟩ hblock hf
      rw [h2] at hs
      simp only [Option.some_bind] at hs
      obtain ⟨more, hmore⟩ := (scanLines_extends fuel fs q rest _ _ _ _ hs).1
      refine ⟨more, ?_⟩
      have h3 : acc1.validateStructs =
          (acc.validateStructs ++ [blockRecord opener body]) ++ more := by
        rw [← hrec2.1]; exact hmore.symm
      rw [← hrecs, List.append_assoc] at h3
      exact List.append_cancel_left h3

/-- C20, on an import that stands inside the open record `A`: the record `C`
of `other.api` is added to the output, `other.api` is marked processed, and
the loop is inside `A` as before, with its field and its depth. -/
theorem single_line_import_merges_witness :
    scanLine (parseAPIFileRecursively 4 lockedRest) lockedRest "main.api".toList
        "    import \"other.api\"".toList insideRecordState
        { validateStructs := [], processedFiles := ["main.api".toList] } =
      some (insideRecordState,
        { validateStructs := [⟨"C".toList, [⟨"Z".toList, "int".toList, "gt=0".toList, []⟩]⟩],
          processedFiles := ["other.api".toList, "main.api".toList] }) := by
  obtain ⟨st1, acc1, recs, h1, h2, _, _, _⟩ :=
    single_line_import_merges 3 lockedRest "main.api".toList
      "    import \"other.api\"".toList " ".toList "other".toList [] insideRecordState
      { validateStructs := [], processedFiles := ["main.api".toList] } "other.api".toList
      ["type (".toList, "  C \x7b".toList, "    Z int \x60validate:\"gt=0\"\x60".toList,
        "  \x7d".toList, ")".toList] false (by decide) ⟨by decide, by decide, by decide, by decide⟩ (by decide) (by decide)
      (by decide) (by decide) (by decide)
  have hconc : scanLines (parseAPIFileRecursively 3 lockedRest) lockedRest "other.api".toList
      ["type (".toList, "  C \x7b".toList, "    Z int \x60validate:\"gt=0\"\x60".toList,
        "  \x7d".toList, ")".toList] ScanState.init
      { validateStructs := [], processedFiles := ["other.api".toList, "main.api".toList] } =
      some ({ ScanState.init with braceCount := 0 },
        { validateStructs := [⟨"C".toList, [⟨"Z".toList, "int".toList, "gt=0".toList, []⟩]⟩],
          processedFiles := ["other.api".toList, "main.api".toList] }) := by decide
  rw [hconc] at h1
  simp only [Option.some.injEq, Prod.mk.injEq] at h1
  rw [h2, ← h1.2]

/-- An import of a path that exists and does not open leaves the loop
variables and the descriptors as they are. -/
theorem scan_unopenable_import (fs : FS) (root raw q : List Char) (pre : List (List Char))
    (en : Entry) (st1 : ScanState) (acc1 : ParseAcc) (hroot : fs.lookup root = some en)
    (h1 : scanLines (parseAPIFileRecursively fs.length fs) fs root pre ScanState.init
      { validateStructs := [], processedFiles := [root] } = some (st1, acc1))
    (hq : importTarget fs root (importFlagAfter pre false) raw = q) (hne : q ≠ [])
    (hl : fs.lookup q = some Entry.locked) :
    ∃ acc2, scanLines (parseAPIFileRecursively fs.length fs) fs root (pre ++ [raw])
        ScanState.init { validateStructs := [], processedFiles := [root] } = some (st1, acc2) ∧
      acc2.validateStructs = acc1.validateStructs := by
  obtain ⟨acc2, e, hrec⟩ := recur_some_after_scan fs root en pre st1 acc1 hroot h1 q
  have hflag : st1.inImportBlock = importFlagAfter pre false :=
    scanLines_importFlag _ _ _ _ _ _ _ _ h1
  rw [← hflag] at hq
  refine ⟨acc2, ?_, ?_⟩
  · rw [scanLines_append, h1]
    simp only [Option.some_bind, scanLines]
    rw [scanLine_import _ fs root raw st1 acc1 (by rw [hq]; exact hne), hq]
    unfold scanImport
    rw [hrec]
  · cases hlen : fs.length with
    | zero => rw [hlen] at hrec; simp [parseAPIFileRecursively] at hrec
    | succ k =>
      rw [hlen] at hrec
      by_cases hqa : q ∈ acc1.processedFiles
      · simp only [parseAPIFileRecursively, List.elem_eq_mem, hqa, decide_True, if_true,
          Option.some.injEq, Prod.mk.injEq] at hrec
        rw [← hrec.1]
      · rw [parseAPIFileRecursively_noOpen k fs q acc1 hqa (Or.inr hl)] at hrec
        simp only [Option.some.injEq, Prod.mk.injEq] at hrec
        rw [← hrec.1]

/-- C8. Failure semantics of the parse.  (1) If the root path does not exist
or does not open, the parse returns the open error and no descriptors.
(2) If the root file opens and is scanned to its end, the parse returns no
error, whatever the imports do.  (3) An import (single-line, or a path line
of a grouped import block) of a path that exists and does not open is
skipped: the parse of the document returns exactly what it returns for the
document without that line.  (4) Such an import line leaves the loop
variables and the descriptors emitted so far as they are.  (5) A record block
with a field that follows such an import line between two records is
returned, right after the descriptors of the lines before the import. -/
theorem parse_failure_keeps_records :
    (∀ (fs : FS) (root : List Char),
      (fs.lookup root = none ∨ fs.lookup root = some Entry.locked) →
      parseAPIFileForValidateStructs fs root = some ([], some (ParseError.openFailed root))) ∧
    (∀ (fs : FS) (root : List Char) (lines : List (List Char)),
      fs.lookup root = some (Entry.file lines false) →
      ∃ recs, parseAPIFileForValidateStructs fs root = some (recs, none)) ∧
    (∀ (rest : FS) (root raw q : List Char) (pre post : List (List Char)),
      q = importTarget ((root, Entry.file (pre ++ raw :: post) false) :: rest) root
        (importFlagAfter pre false) raw → q ≠ [] →
      List.lookup q ((root, Entry.file (pre ++ raw :: post) false) :: rest) = some Entry.locked →
      parseAPIFileForValidateStructs ((root, Entry.file (pre ++ raw :: post) false) :: rest) root =
        parseAPIFileForValidateStructs ((root, Entry.file (pre ++ post) false) :: rest) root) ∧
    (∀ (fs : FS) (root raw q : List Char) (pre post : List (List Char)),
      fs.lookup root = some (Entry.file (pre ++ raw :: post) false) →
      q = importTarget fs root (importFlagAfter pre false) raw → q ≠ [] →
      fs.lookup q = some Entry.locked →
      ∃ st1 acc1 acc2,
        scanLines (parseAPIFileRecursively fs.length fs) fs root pre ScanState.init
          { validateStructs := [], processedFiles := [root] } = some (st1, acc1) ∧
        scanLines (parseAPIFileRecursively fs.length fs) fs root (pre ++ [raw]) ScanState.init
          { validateStructs := [], processedFiles := [root] } = some (st1, acc2) ∧
        acc2.validateStructs = acc1.validateStructs) ∧
    (∀ (fs : FS) (root raw q opener closer : List Char) (pre body post : List (List Char)),
      fs.lookup root =
        some (Entry.file (pre ++ raw :: ((opener :: (body ++ [closer])) ++ post)) false) →
      q = importTarget fs root (importFlagAfter pre false) raw → q ≠ [] →
      fs.lookup q = some Entry.locked →
      RecordBlock fs root opener body closer → 0 < (bodyFields body).length →
      ∃ st1 acc1,
        scanLines (parseAPIFileRecursively fs.length fs) fs root pre ScanState.init
          { validateStructs := [], processedFiles := [root] } = some (st1, acc1) ∧
        (Ready st1 → ∃ later,
          parseAPIFileForValidateStructs fs root =
            some (acc1.validateStructs ++ blockRecord opener body :: later, none))) := by
  refine ⟨?_, ?_, ?_, ?_, ?_⟩
  · intro fs root h
    unfold parseAPIFileForValidateStructs
    rw [parseAPIFileRecursively_noOpen _ fs root _ (by simp) h]
  · intro fs root lines h
    exact parseAPIFileForValidateStructs_readable_some fs root lines h
  · intro rest root raw q pre post hq hne hl
    exact parse_skip_unopenable_import rest root raw pre post q hq.symm hne (Or.inr hl)
  · intro fs root raw q pre post hroot hq hne hl
    obtain ⟨st1, acc1, h1⟩ := scan_prefix_some fs root pre _ hroot
    obtain ⟨acc2, h2, h3⟩ :=
      scan_unopenable_import fs root raw q pre _ st1 acc1 hroot h1 hq.symm hne hl
    exact ⟨st1, acc1, acc2, h1, h2, h3⟩
  · intro fs root raw q opener closer pre body post hroot hq hne hl hblock hf
    obtain ⟨st1, acc1, h1⟩ := scan_prefix_some fs root pre _ hroot
    refine ⟨st1, acc1, h1, fun hr => ?_⟩
    obtain ⟨acc2, h2, h3⟩ :=
      scan_unopenable_import fs root raw q pre _ st1 acc1 hroot h1 hq.symm hne hl
    obtain ⟨s3, h4, _⟩ := scanLines_block (parseAPIFileRecursively fs.length fs) fs root
      opener closer body st1 acc2 hr hblock hf
    have hscan : scanLines (parseAPIFileRecursively fs.length fs) fs root
        ((pre ++ [raw]) ++ (opener :: (body ++ [closer]))) ScanState.init
        { validateStructs := [], processedFiles := [root] } =
        some (s3, ⟨acc2.validateStructs ++ [blockRecord opener body], acc2.processedFiles⟩) := by
      rw [scanLines_append, h2]
      simp only [Option.some_bind]
      exact h4
    have hroot2 : fs.lookup root = some (Entry.file
        (((pre ++ [raw]) ++ (opener :: (body ++ [closer]))) ++ post) false) := by
      rw [hroot]; simp [List.append_assoc]
    obtain ⟨later, hlater⟩ := parse_after_prefix fs root _ post s3 _ hroot2 hscan
    refine ⟨later, ?_⟩
    rw [hlater]
    simp [h3, List.append_assoc]

/-- C8, on a table without the root; and on a root with the record `A`, a
line that imports `locked.api`, which exists and does not open, a line
that imports `other.api` with the record `C`, and the record `B`: the parse returns `A`,
`C`, `B` and no error, as it does without the import of `locked.api`. -/
theorem parse_failure_keeps_records_witness :
    parseAPIFileForValidateStructs [] "main.api".toList =
      some ([], some (ParseError.openFailed "main.api".toList)) ∧
    parseAPIFileForValidateStructs
      (("main.api".toList,
        Entry.file (lockedPre ++ "import \"locked.api\"".toList :: lockedPost) false) :: lockedRest)
      "main.api".toList =
    parseAPIFileForValidateStructs
      (("main.api".toList, Entry.file (lockedPre ++ lockedPost) false) :: lockedRest)
      "main.api".toList ∧
    parseAPIFileForValidateStructs
      (("main.api".toList,
        Entry.file (lockedPre ++ "import \"locked.api\"".toList :: lockedPost) false) :: lockedRest)
      "main.api".toList =
      some ([⟨"A".toList, [⟨"X".toList, "int".toList, "required".toList, []⟩]⟩,
             ⟨"C".toList, [⟨"Z".toList, "int".toList, "gt=0".toList, []⟩]⟩,
             ⟨"B".toList, [⟨"Y".toList, "string".toList, "min=1".toList, []⟩]⟩], none) ∧
    (∃ st1 acc1,
      scanLines (parseAPIFileRecursively 2
          [("main.api".toList, Entry.file lockedBlockDoc false),
           ("locked.api".toList, Entry.locked)])
        [("main.api".toList, Entry.file lockedBlockDoc false),
         ("locked.api".toList, Entry.locked)]
        "main.api".toList ["type (".toList] ScanState.init
        { validateStructs := [], processedFiles := ["main.api".toList] } = some (st1, acc1) ∧
      (Ready st1 → ∃ later,
        parseAPIFileForValidateStructs
          [("main.api".toList, Entry.file lockedBlockDoc false),
           ("locked.api".toList, Entry.locked)] "main.api".toList =
          some (acc1.validateStructs ++
            blockRecord "B \x7b".toList ["Y string \x60validate:\"min=1\"\x60".toList] :: later,
            none))) ∧
    parseAPIFileForValidateStructs
        [("main.api".toList, Entry.file lockedBlockDoc false),
         ("locked.api".toList, Entry.locked)] "main.api".toList =
      some ([⟨"B".toList, [⟨"Y".toList, "string".toList, "min=1".toList, []⟩]⟩], none) :=
  ⟨parse_failure_keeps_records.1 [] "main.api".toList (Or.inl rfl),
   parse_failure_keeps_records.2.2.1 lockedRest "main.api".toList
      "import \"locked.api\"".toList "locked.api".toList lockedPre lockedPost
      (by decide) (by decide) (by decide),
   by decide,
   parse_failure_keeps_records.2.2.2.2
      [("main.api".toList, Entry.file lockedBlockDoc false), ("locked.api".toList, Entry.locked)]
      "main.api".toList "import \"locked.api\"".toList "locked.api".toList "B \x7b".toList
      "\x7d".toList ["type (".toList] ["Y string \x60validate:\"min=1\"\x60".toList]
      [")".toList] (by decide) (by decide) (by decide) (by decide)
      ⟨by decide, by decide, by decide, by decide, by decide, by decide, by decide⟩ (by decide),
   by decide⟩

theorem cnt_append (n : List Char) (a b : List ValidateStruct) :
    nameCount n (outNames (a ++ b)) =
      nameCount n (outNames a) + nameCount n (outNames b) := by
  unfold outNames
  rw [List.map_append, nameCount_append]

theorem declaredRecords_append (fs : FS) (P Q : List (List Char)) :
    declaredRecords fs (P ++ Q) = declaredRecords fs P ++ declaredRecords fs Q := by
  induction P with
  | nil => rfl
  | cons p ps ih =>
    show ownRecords fs p ++ declaredRecords fs (ps ++ Q) =
      (ownRecords fs p ++ declaredRecords fs ps) ++ declaredRecords fs Q
    rw [ih, List.append_assoc]

/-- One turn of the loop either hands the shared values to the recursive call
and keeps the loop variables, or appends descriptors that depend on the line
and the loop variables only; with no import followed it does the same and
skips the call. -/
theorem scanLine_noFollow (recur : Recur) (fs : FS) (p raw : List Char) (st st1 : ScanState)
    (acc acc1 : ParseAcc) (h : scanLine recur fs p raw st acc = some (st1, acc1)) :
    (∃ q e, recur q acc = some (acc1, e) ∧ st1 = st ∧
      ∀ acc0, scanLine noFollow fs p raw st acc0 = some (st, acc0)) ∨
    (∃ added, acc1 = { acc with validateStructs := acc.validateStructs ++ added } ∧
      ∀ acc0, scanLine noFollow fs p raw st acc0 =
        some (st1, { acc0 with validateStructs := acc0.validateStructs ++ added })) := by
  unfold scanLine at h ⊢
  simp only at h ⊢
  split at h
  · rename_i h1
    simp only [Option.some.injEq, Prod.mk.injEq] at h
    refine Or.inr ⟨[], by rw [← h.2]; simp, fun acc0 => ?_⟩
    rw [if_pos h1, ← h.1]; simp
  · rename_i h1
    split at h
    · rename_i h2
      simp only [Option.some.injEq, Prod.mk.injEq] at h
      refine Or.inr ⟨[], by rw [← h.2]; simp, fun acc0 => ?_⟩
      rw [if_neg h1, if_pos h2, ← h.1]; simp
    · rename_i h2
      split at h
      · rename_i h3
        split at h
        · rename_i h4
          unfold scanImport at h
          split at h
          · exact absurd h (by simp)
          · rename_i a e hr
            simp only [Option.some.injEq, Prod.mk.injEq] at h
            refine Or.inl ⟨_, e, by rw [hr, h.2], h.1.symm, fun acc0 => ?_⟩
            rw [if_neg h1, if_neg h2, if_pos h3, if_pos h4]
            rfl
        · rename_i h4
          simp only [Option.some.injEq, Prod.mk.injEq] at h
          refine Or.inr ⟨[], by rw [← h.2]; simp, fun acc0 => ?_⟩
          rw [if_neg h1, if_neg h2, if_pos h3, if_neg h4, ← h.1]; simp
      · rename_i h3
        split at h
        · rename_i h4
          unfold scanImport at h
          split at h
          · exact absurd h (by simp)
          · rename_i a e hr
            simp only [Option.some.injEq, Prod.mk.injEq] at h
            refine Or.inl ⟨_, e, by rw [hr, h.2], h.1.symm, fun acc0 => ?_⟩
            rw [if_neg h1, if_neg h2, if_neg h3, if_pos h4]
            rfl
        · rename_i h4
          obtain ⟨s1, new, hh⟩ := scanDecl_uniform (TrimSpace raw) st
          rw [hh acc] at h
          simp only [Option.some.injEq, Prod.mk.injEq] at h
          refine Or.inr ⟨new, h.2.symm, fun acc0 => ?_⟩
          rw [if_neg h1, if_neg h2, if_neg h3, if_neg h4, hh acc0, h.1]

theorem scanLines_noFollow (fs : FS) (n : List Char) (recur : Recur)
    (hr : RecurExact fs n recur) (p : List Char) (lines : List (List Char))
    (st st1 : ScanState) (acc acc1 : ParseAcc)
    (h : scanLines recur fs p lines st acc = some (st1, acc1)) (acc0 : ParseAcc) :
    ∃ acc0' newP, scanLines noFollow fs p lines st acc0 = some (st1, acc0') ∧
      acc1.processedFiles = newP ++ acc.processedFiles ∧
      nameCount n (outNames acc1.validateStructs) + nameCount n (outNames acc0.validateStructs) =
        nameCount n (outNames acc.validateStructs) +
          nameCount n (outNames acc0'.validateStructs) +
          nameCount n (outNames (declaredRecords fs newP)) := by
  induction lines generalizing st acc acc0 with
  | nil =>
    simp only [scanLines, Option.some.injEq, Prod.mk.injEq] at h
    refine ⟨acc0, [], ?_, by rw [← h.2]; rfl, ?_⟩
    · rw [← h.1]; rfl
    · rw [← h.2]
      show _ = _ + _ + nameCount n (outNames [])
      simp only [outNames, List.map_nil, nameCount_nil]
      omega
  | cons raw rest ih =>
    simp only [scanLines] at h ⊢
    cases hl : scanLine recur fs p raw st acc with
    | none => rw [hl] at h; exact absurd h (by simp)
    | some x =>
      obtain ⟨s2, a2⟩ := x
      rw [hl] at h
      simp only at h
      rcases scanLine_noFollow recur fs p raw st s2 acc a2 hl with
        ⟨q, e, hrec, hs, hno⟩ | ⟨added, ha, hno⟩
      · obtain ⟨P1, hP1, hc1⟩ := hr q acc a2 e hrec
        obtain ⟨acc0', P2, h2, hP2, hc2⟩ := ih s2 a2 h acc0
        refine ⟨acc0', P2 ++ P1, ?_, ?_, ?_⟩
        · rw [hno acc0]
          simp only
          rw [← hs]; exact h2
        · rw [hP2, hP1, List.append_assoc]
        · rw [declaredRecords_append, cnt_append]
          omega
      · obtain ⟨acc0', P2, h2, hP2, hc2⟩ := ih s2 a2 h
          { acc0 with validateStructs := acc0.validateStructs ++ added }
        refine ⟨acc0', P2, ?_, ?_, ?_⟩
        · rw [hno acc0]
          exact h2
        · rw [hP2, ha]
        · rw [ha] at hc2
          simp only [cnt_append] at hc2
          omega

theorem parseAPIFileRecursively_exact (fs : FS) (n : List Char) (fuel : Nat) :
    RecurExact fs n (parseAPIFileRecursively fuel fs) := by
  induction fuel with
  | zero => intro q a a1 e h; simp [parseAPIFileRecursively] at h
  | succ k ih =>
    intro q a a1 e h
    by_cases hq : q ∈ a.processedFiles
    · simp only [parseAPIFileRecursively, List.elem_eq_mem, hq, decide_True, if_true,
        Option.some.injEq, Prod.mk.injEq] at h
      refine ⟨[], by rw [← h.1]; rfl, ?_⟩
      rw [← h.1]
      show _ = _ + nameCount n (outNames [])
      simp only [outNames, List.map_nil, nameCount_nil]
      omega
    · rcases hl : fs.lookup q with _ | en
      · rw [parseAPIFileRecursively_noOpen k fs q a hq (Or.inl hl)] at h
        simp only [Option.some.injEq, Prod.mk.injEq] at h
        refine ⟨[q], by rw [← h.1]; rfl, ?_⟩
        have hown : ownRecords fs q = [] := by unfold ownRecords; rw [hl]
        rw [← h.1]
        show _ = _ + nameCount n (outNames (ownRecords fs q ++ []))
        rw [hown]
        simp only [outNames, List.map_nil, List.append_nil, nameCount_nil]
        omega
      · cases en with
        | locked =>
          rw [parseAPIFileRecursively_noOpen k fs q a hq (Or.inr hl)] at h
          simp only [Option.some.injEq, Prod.mk.injEq] at h
          refine ⟨[q], by rw [← h.1]; rfl, ?_⟩
          have hown : ownRecords fs q = [] := by unfold ownRecords; rw [hl]
          rw [← h.1]
          show _ = _ + nameCount n (outNames (ownRecords fs q ++ []))
          rw [hown]
          simp only [outNames, List.map_nil, List.append_nil, nameCount_nil]
          omega
        | file lines se =>
          rw [parseAPIFileRecursively_file k fs q a lines se hq hl] at h
          cases hs : scanLines (parseAPIFileRecursively k fs) fs q lines ScanState.init
              { a with processedFiles := q :: a.processedFiles } with
          | none => rw [hs] at h; exact absurd h (by simp)
          | some x =>
            obtain ⟨s1, a2⟩ := x
            rw [hs] at h
            simp only [Option.map_some', Option.some.injEq, Prod.mk.injEq] at h
            obtain ⟨acc0', P2, h2, hP2, hc2⟩ := scanLines_noFollow fs n _ ih q lines
              ScanState.init s1 _ a2 hs ParseAcc.empty
            have hown : ownRecords fs q = acc0'.validateStructs := by
              unfold ownRecords
              rw [hl]
              simp only [h2]
            refine ⟨P2 ++ [q], ?_, ?_⟩
            · rw [← h.1, hP2]; simp
            · rw [← h.1, declaredRecords_append, cnt_append]
              show _ = _ + (_ + nameCount n (outNames (ownRecords fs q ++ [])))
              rw [List.append_nil, hown]
              have h0 : nameCount n (outNames ParseAcc.empty.validateStructs) = 0 := rfl
              simp only at hc2
              omega

/-- C7, amended.  The parser neither merges nor drops descriptors of equal
name: the call returns, and for every name the shared output holds as many
descriptors of that name as the documents the call has reached (the root and
every path an import resolved to) yield each on its own, imports not
followed.  So the names of the output are pairwise distinct exactly when the
names of the records those documents yield are; lines outside a type block
and documents that are not reached do not count.  The descriptors the call
returns are this output when it returns no error. -/
theorem parse_names_counted (fs : FS) (root : List Char) :
    ∃ acc e, parseAPIFileRecursively (fs.length + 1) fs root ParseAcc.empty = some (acc, e) ∧
      parseAPIFileForValidateStructs fs root =
        some (match e with | some _ => [] | none => acc.validateStructs, e) ∧
      (∀ n, nameCount n (outNames acc.validateStructs) =
        nameCount n (outNames (declaredRecords fs acc.processedFiles))) ∧
      ((outNames acc.validateStructs).Nodup ↔
        (outNames (declaredRecords fs acc.processedFiles)).Nodup) := by
  obtain ⟨acc, e, hrun, htop⟩ := parseAPIFileForValidateStructs_run fs root
  have hcount : ∀ n, nameCount n (outNames acc.validateStructs) =
      nameCount n (outNames (declaredRecords fs acc.processedFiles)) := by
    intro n
    obtain ⟨newP, hP, hc⟩ :=
      parseAPIFileRecursively_exact fs n _ root ParseAcc.empty acc e hrun
    have hP2 : acc.processedFiles = newP := by rw [hP]; simp [ParseAcc.empty]
    have h0 : nameCount n (outNames ParseAcc.empty.validateStructs) = 0 := rfl
    rw [hP2]
    omega
  refine ⟨acc, e, hrun, htop, hcount, ?_⟩
  rw [nodup_of_nameCount_le_one, nodup_of_nameCount_le_one]
  constructor
  · intro h n; rw [← hcount n]; exact h n
  · intro h n; rw [hcount n]; exact h n

/-- C7, amended, on the document that declares `A` twice (the name is
declared twice and returned twice) and on a document with one record and two
`service` blocks of the same name outside the type block (the declared names
are distinct, and so are the returned ones). -/
theorem parse_names_counted_witness :
    nameCount "A".toList
      (outNames (declaredRecords [("dup.api".toList, Entry.file dupDoc false)]
        ["dup.api".toList])) = 2 ∧
    parseAPIFileForValidateStructs [("dup.api".toList, Entry.file dupDoc false)]
        "dup.api".toList =
      some ([⟨"A".toList, [⟨"X".toList, "int".toList, "required".toList, []⟩]⟩,
             ⟨"A".toList, [⟨"Y".toList, "int".toList, "required".toList, []⟩]⟩], none) ∧
    (outNames (declaredRecords [("svc.api".toList, Entry.file serviceDoc false)]
      ["svc.api".toList])).Nodup ∧
    parseAPIFileForValidateStructs [("svc.api".toList, Entry.file serviceDoc false)]
        "svc.api".toList =
      some ([⟨"LoginReq".toList,
              [⟨"Name".toList, "string".toList, "required".toList, []⟩]⟩], none) := by
  refine ⟨?_, by decide, ?_, by decide⟩
  · obtain ⟨acc, e, hrun, _, hcount, _⟩ :=
      parse_names_counted [("dup.api".toList, Entry.file dupDoc false)] "dup.api".toList
    have hc : parseAPIFileRecursively 2 [("dup.api".toList, Entry.file dupDoc false)]
        "dup.api".toList ParseAcc.empty =
        some (⟨[⟨"A".toList, [⟨"X".toList, "int".toList, "required".toList, []⟩]⟩,
                ⟨"A".toList, [⟨"Y".toList, "int".toList, "required".toList, []⟩]⟩],
               ["dup.api".toList]⟩, none) := by decide
    have heq := hrun.symm.trans hc
    simp only [Option.some.injEq, Prod.mk.injEq] at heq
    have h2 := hcount "A".toList
    rw [heq.1] at h2
    rw [← h2]
    decide
  · obtain ⟨acc, e, hrun, _, _, hiff⟩ :=
      parse_names_counted [("svc.api".toList, Entry.file serviceDoc false)] "svc.api".toList
    have hc : parseAPIFileRecursively 2 [("svc.api".toList, Entry.file serviceDoc false)]
        "svc.api".toList ParseAcc.empty =
        some (⟨[⟨"LoginReq".toList,
                 [⟨"Name".toList, "string".toList, "required".toList, []⟩]⟩],
               ["svc.api".toList]⟩, none) := by decide
    have heq := hrun.symm.trans hc
    simp only [Option.some.injEq, Prod.mk.injEq] at heq
    rw [heq.1] at hiff
    exact hiff.mp (by decide)

end GoctlValidate
